import Mathlib

/-!
# rhel/vex/parser.go: relationship walker, per-document aggregator, stream merge

A shallow embedding of `rhel/vex/parser.go`.  Go maps are association lists,
pointers that may be nil are `Option`s, and a Go call that can return an error,
dereference nil, or recurse without bound returns a `Res`.  Collaborators that
live outside the file (the purl parser, CPE unbinding, the CVSS grammars, the
severity normaliser, the lookups of the CSAF document) are parameters.
-/

/-! ## Outcomes and errors -/

/-- A Go `error` value: `errors.New`, `fmt.Errorf` without and with a `%w`
operand (the format string and its other arguments are kept apart, the `%w`
operand is the wrapped error), or an error handed back by an external
collaborator. -/
inductive GoError where
  | new (msg : String) : GoError
  | errorf (format : String) (args : List String) : GoError
  | wrapf (format : String) (args : List String) (wrapped : GoError) : GoError
  | external (msg : String) : GoError
deriving DecidableEq

/-- Outcome of a Go call: a normal return, a returned `error`, a run-time
panic (nil dereference, index out of range), or no return at all (the
recursion bound of the model was exhausted). -/
inductive Res (α : Type) where
  | ok (a : α) : Res α
  | error (e : GoError) : Res α
  | panic : Res α
  | diverge : Res α
deriving DecidableEq

/-! ## Strings -/

/-- Go `strings.HasPrefix`. -/
def hasPrefix (s pre : String) : Bool := pre.data.isPrefixOf s.data

/-- Go `strings.HasSuffix`. -/
def hasSuffix (s suf : String) : Bool := suf.data.isSuffixOf s.data

/-- Split a character list at every separator; the result is never empty. -/
def splitChars (sep : Char) : List Char → List (List Char)
  | [] => [[]]
  | c :: cs =>
    if c = sep then [] :: splitChars sep cs
    else
      match splitChars sep cs with
      | [] => [[c]]
      | s :: ss => (c :: s) :: ss

/-- Go `strings.Split(s, ":")`. -/
def splitColon (s : String) : List String :=
  (splitChars ':' s.data).map String.mk

/-- Go `strings.Join(xs, sep)`. -/
def joinWith (sep : String) : List String → String
  | [] => ""
  | [x] => x
  | x :: y :: rest => x ++ sep ++ joinWith sep (y :: rest)

/-- Go `strings.Join(xs, ":")`. -/
def joinColon (xs : List String) : String := joinWith ":" xs

/-- Go `strings.ReplaceAll(s, "?", "%01")` on the characters. -/
def replaceQuestion : List Char → List Char
  | [] => []
  | c :: cs => if c = '?' then '%' :: '0' :: '1' :: replaceQuestion cs else c :: replaceQuestion cs

/-- Go `strings.Cut(s, sep)` for a one-character separator:
`(before, after, found)`. -/
def cutChars (sep : Char) : List Char → List Char × List Char × Bool
  | [] => ([], [], false)
  | c :: cs =>
    if c = sep then ([], cs, true)
    else
      let r := cutChars sep cs
      if r.2.2 then (c :: r.1, r.2.1, true) else (c :: cs, [], false)

/-- Go `strings.Cut` on strings. -/
def cut (s : String) (sep : Char) : String × String × Bool :=
  let r := cutChars sep s.data
  (String.mk r.1, String.mk r.2.1, r.2.2)

/-- Lookup in a Go `map[string]V` kept as an association list (the most recent
binding of a key comes first). -/
def mapGet {V : Type} (m : List (String × V)) (k : String) : Option V :=
  match m with
  | [] => none
  | (k', v) :: rest => if k' = k then some v else mapGet rest k

/-- Assignment `m[k] = v` in a Go map kept as an association list: any older
binding of the key is dropped, so keys stay distinct. -/
def mapSet {V : Type} (m : List (String × V)) (k : String) (v : V) : List (String × V) :=
  (k, v) :: m.filter (fun e => decide (e.1 ≠ k))

/-! ## The CSAF document (package `csaf`) -/

namespace csaf

/-- A product of the product tree: id and identification helpers. -/
structure Product where
  ID : String
  IdentificationHelper : List (String × String)
deriving DecidableEq

/-- A relationship of the product tree. -/
structure Relationship where
  Category : String
  ProductRef : String
  RelatesToProductRef : String
deriving DecidableEq

/-- One CVSS object of a score.  The base score is the number of the JSON
document; the parser only compares it with 0.0. -/
structure CVSS where
  VectorString : String
  BaseScore : ℚ
deriving DecidableEq

/-- A scoring object: each CVSS version is a pointer that may be nil. -/
structure Score where
  CVSSV2 : Option CVSS
  CVSSV3 : Option CVSS
  CVSSV4 : Option CVSS
deriving DecidableEq

/-- A threat object. -/
structure Threat where
  Category : String
  Details : String
deriving DecidableEq

/-- A remediation object. -/
structure Remediation where
  Category : String
  URL : String
deriving DecidableEq

/-- A reference (document level or vulnerability level). -/
structure Reference where
  Category : String
  URL : String
deriving DecidableEq

/-- A note of a vulnerability entry. -/
structure Note where
  Category : String
  Text : String
deriving DecidableEq

/-- One entry of the document's `vulnerabilities` array. -/
structure Vulnerability where
  ProductStatus : List (String × List String)
  References : List Reference
  Notes : List Note
  ReleaseDate : String
deriving DecidableEq

/-- The parsed document.  Its lookups (`FindRelationship`, `FindProductByID`
of the product tree, `FindScore`, `FindThreat`, `FindRemediation`) are
methods of the csaf package and are taken as given functions of the
document. -/
structure CSAF where
  TrackingID : String
  TrackingStatus : String
  References : List Reference
  Vulnerabilities : List Vulnerability
  FindRelationship : String → String → Option Relationship
  FindProductByID : String → Option Product
  FindScore : String → Option Score
  FindThreat : String → String → Option Threat
  FindRemediation : String → Option Remediation

end csaf

/-! ## The relationship walker -/

/-- Go `extractProductNames`.  The Go function recurses without a bound; the
first argument bounds the recursion depth and `none` means the bound was
reached. -/
def extractProductNames : Nat → String → String → List String → csaf.CSAF → Option (List String)
  | 0, _, _, _, _ => none
  | fuel + 1, prodRef, relatesToProdRef, comps, c =>
    let left : Option (List String) :=
      match c.FindRelationship prodRef "default_component_of" with
      | some prodRel => extractProductNames fuel prodRel.ProductRef prodRel.RelatesToProductRef comps c
      | none => some (comps ++ [prodRef])
    match left with
    | none => none
    | some comps1 =>
      match c.FindRelationship relatesToProdRef "default_component_of" with
      | some repoRel => extractProductNames fuel repoRel.ProductRef repoRel.RelatesToProductRef comps1 c
      | none => some (comps1 ++ [relatesToProdRef])

/-- Go `walkRelationships`: `(package id, module id or "", repository id)`. -/
def walkRelationships (fuel : Nat) (productID : String) (doc : csaf.CSAF) :
    Res (String × String × String) :=
  match doc.FindRelationship productID "default_component_of" with
  | none => .error (.errorf "cannot determine initial relationship for %q" [productID])
  | some prodRel =>
    match extractProductNames fuel prodRel.ProductRef prodRel.RelatesToProductRef [] doc with
    | none => .diverge
    | some comps =>
      if comps.length = 2 then
        .ok (comps.getD 0 "", "", comps.getD 1 "")
      else if comps.length > 2 then
        .ok (comps.getD 0 "", comps.getD (comps.length - 2) "", comps.getD (comps.length - 1) "")
      else
        .error (.errorf "cannot determine relationships for %q" [productID])

/-- The relationship table of a document is acyclic: following
"default_component_of" relationships from a product id to either of the
relationship's two references always comes to an end. -/
def Acyclic (c : csaf.CSAF) : Prop :=
  WellFounded (fun y x : String =>
    ∃ rel, c.FindRelationship x "default_component_of" = some rel ∧
      (y = rel.ProductRef ∨ y = rel.RelatesToProductRef))

/-- The leaves of a product id as the documentation of `extractProductNames`
words them: a product id without a "default_component_of" relationship is
its own single leaf; otherwise the leaves of the relationship's product
reference come first and those of its relates-to reference last. -/
inductive Leaves (c : csaf.CSAF) : String → List String → Prop where
  | leaf (x : String) :
      c.FindRelationship x "default_component_of" = none → Leaves c x [x]
  | node (x : String) (rel : csaf.Relationship) (l r : List String) :
      c.FindRelationship x "default_component_of" = some rel →
      Leaves c rel.ProductRef l → Leaves c rel.RelatesToProductRef r →
      Leaves c x (l ++ r)

/-! ## Output records (package `claircore`) and external collaborators -/

namespace packageurl

/-- A parsed package URL (package `packageurl`); `Typ` is the Go field `Type`. -/
structure PackageURL where
  Typ : String
  Namespace : String
  Name : String
  Version : String
  Qualifiers : List (String × String)
  Subpath : String
deriving DecidableEq

/-- The method `Qualifiers.Map`: the qualifiers are entered into a map in
order, so a later qualifier with the same key replaces an earlier one. -/
def PackageURL.QualifiersMap (purl : PackageURL) : List (String × String) :=
  purl.Qualifiers.foldl (fun m q => mapSet m q.1 q.2) []

/-- The constant `packageurl.TypeRPM`. -/
def TypeRPM : String := "rpm"

end packageurl

namespace cpe

/-- A structured CPE name (well-formed name); its attributes are not
inspected by the parser. -/
structure WFN where
  Attr : List String
deriving DecidableEq

end cpe

namespace claircore

/-- The coarse severity levels. -/
inductive Severity where
  | Unknown | Negligible | Low | Medium | High | Critical
deriving DecidableEq

/-- The architecture-match operation of a record; `unset` is the zero value. -/
inductive ArchOp where
  | unset | OpEquals | OpNotEquals | OpPatternMatch
deriving DecidableEq

/-- The kind of a package: source-level or binary-level. -/
inductive PackageKind where
  | SOURCE | BINARY
deriving DecidableEq

/-- The package of a record. -/
structure Package where
  Name : String
  Kind : PackageKind
  Module : String
  Arch : String
deriving DecidableEq

/-- The repository of a record. -/
structure Repository where
  CPE : cpe.WFN
  Name : String
  Key : String
deriving DecidableEq

/-- A normalized vulnerability record.  `Package` and `Repo` are pointers and
are nil in a fresh record. -/
structure Vulnerability where
  Updater : String
  Name : String
  Description : String
  Issued : String
  Links : String
  Severity : String
  NormalizedSeverity : claircore.Severity
  Package : Option Package
  Repo : Option Repository
  FixedInVersion : String
  ArchOperation : ArchOp
deriving DecidableEq

end claircore

/-- The collaborators outside `parser.go`: `packageurl.FromString` and
`PackageURL.String`, `cpe.Unbind` and `WFN.String`, the three CVSS vector
parsers (only whether they fail matters), `common.NormalizeSeverity`, and the
package constant `repoKey`.  `FromString` returns the Go pair of a value and
an error. -/
structure Env where
  FromString : String → packageurl.PackageURL × Option GoError
  purlString : packageurl.PackageURL → String
  Unbind : String → Except GoError cpe.WFN
  wfnString : cpe.WFN → String
  ParseV2 : String → Option GoError
  ParseV3 : String → Option GoError
  ParseV4 : String → Option GoError
  NormalizeSeverity : String → claircore.Severity
  repoKey : String

/-! ## Caches and the creator -/

/-- Go `repoCache`. -/
structure repoCache where
  cache : List (String × claircore.Repository)

/-- Go `newRepoCache`. -/
def newRepoCache : repoCache := { cache := [] }

/-- Go `repoCache.Get`: the cached repository and the cache afterwards. -/
def repoCache.Get (env : Env) (rc : repoCache) (wfn : cpe.WFN) : claircore.Repository × repoCache :=
  match mapGet rc.cache (env.wfnString wfn) with
  | some r => (r, rc)
  | none =>
    let r : claircore.Repository :=
      { CPE := wfn, Name := env.wfnString wfn, Key := env.repoKey }
    (r, { cache := mapSet rc.cache (env.wfnString wfn) r })

/-- Go `productCache`: a cached value may be the nil product. -/
structure productCache where
  cache : List (String × Option csaf.Product)

/-- Go `newProductCache`. -/
def newProductCache : productCache := { cache := [] }

/-- Go `productCache.Get`: the product (nil when absent) and the cache
afterwards. -/
def productCache.Get (pc : productCache) (productID : String) (c : csaf.CSAF) :
    Option csaf.Product × productCache :=
  match mapGet pc.cache productID with
  | some p => (p, pc)
  | none =>
    let p := c.FindProductByID productID
    (p, { cache := mapSet pc.cache productID p })

/-- Go `creator`.  The two caches are pointers shared with the caller; the
caller reads them back from the creator. -/
structure creator where
  vulnName : String
  vulnLink : String
  uniqueVulnsIdx : List (String × Nat)
  fixedVulns : List claircore.Vulnerability
  c : csaf.CSAF
  pc : productCache
  rc : repoCache

/-- Go `newCreator`. -/
def newCreator (vulnName vulnLink : String) (c : csaf.CSAF) (pc : productCache) (rc : repoCache) :
    creator :=
  { vulnName := vulnName, vulnLink := vulnLink, uniqueVulnsIdx := [], fixedVulns := [],
    c := c, pc := pc, rc := rc }

/-! ## Helpers of the aggregator -/

/-- Go `cvssBaseScoreFromScore`. -/
def cvssBaseScoreFromScore (sc : csaf.Score) : ℚ :=
  match sc.CVSSV4 with
  | some v4 => v4.BaseScore
  | none =>
    match sc.CVSSV3 with
    | some v3 => v3.BaseScore
    | none =>
      match sc.CVSSV2 with
      | some v2 => v2.BaseScore
      | none => 0

/-- Go `cvssVectorFromScore`. -/
def cvssVectorFromScore (env : Env) (sc : csaf.Score) : Except GoError String :=
  match sc.CVSSV4 with
  | some v4 =>
    match env.ParseV4 v4.VectorString with
    | some err => .error (.wrapf "could not parse CVSSv4 vector string %w" [] err)
    | none => .ok v4.VectorString
  | none =>
    match sc.CVSSV3 with
    | some v3 =>
      match env.ParseV3 v3.VectorString with
      | some err => .error (.wrapf "could not parse CVSSv3 vector string %w" [] err)
      | none => .ok v3.VectorString
    | none =>
      match sc.CVSSV2 with
      | some v2 =>
        match env.ParseV2 v2.VectorString with
        | some err => .error (.wrapf "could not parse CVSSv4 vector string %w" [] err)
        | none => .ok v2.VectorString
      | none => .error (.new "could not find a valid CVSS object")

/-- Go `createPackageKey`. -/
def createPackageKey (repo mod name fixedIn : String) : String :=
  repo ++ ":" ++ mod ++ ":" ++ name ++ "-" ++ fixedIn

/-- Go `createPackageModule`.  The argument is a pointer: reading the helpers
of the nil product is a nil dereference. -/
def createPackageModule (env : Env) (p : Option csaf.Product) : Res String :=
  match p with
  | none => .panic
  | some p =>
    match mapGet p.IdentificationHelper "purl" with
    | none => .ok ""
    | some modPURLHelper =>
      match env.FromString modPURLHelper with
      | (_, some err) => .error err
      | (purl, none) =>
        if purl.Typ ≠ "rpmmod" then
          .error (.errorf "invalid RPM module PURL: %q" [env.purlString purl])
        else if purl.Namespace = "redhat" then
          .ok (purl.Name ++ ":" ++ (cut purl.Version ':').1)
        else if hasPrefix purl.Namespace "redhat/" then
          .ok (cut purl.Namespace '/').2.1
        else
          .error (.errorf "non-Red Hat PURL" [])

/-- Go `epochVersion`. -/
def epochVersion (purl : packageurl.PackageURL) : String :=
  let epoch :=
    match mapGet purl.QualifiersMap "epoch" with
    | some e => e
    | none => "0"
  epoch ++ ":" ++ purl.Version

/-- One segment of `escapeCPE`: a final `*` becomes `%02`, then every `?`
becomes `%01`. -/
def escapeSegment (seg : String) : String :=
  let seg1 : String :=
    if hasSuffix seg "*" then String.mk (seg.data.take (seg.data.length - 1)) ++ "%02" else seg
  String.mk (replaceQuestion seg1.data)

/-- Go `escapeCPE`. -/
def escapeCPE (ch : String) : String :=
  joinColon ((splitColon ch).map escapeSegment)

/-! ## The per-document aggregator -/

/-- Go `creator.lookupVulnerability`: the creator afterwards, the index in
`fixedVulns` of the record filed under the key, and whether the key was
already known.  A new record is a copy of the proto record appended to
`fixedVulns`. -/
def creator.lookupVulnerability (c : creator) (vulnKey : String) (proto : claircore.Vulnerability) :
    creator × Nat × Bool :=
  match mapGet c.uniqueVulnsIdx vulnKey with
  | some idx => (c, idx, true)
  | none =>
    let idx := c.fixedVulns.length
    ({ c with
        fixedVulns := c.fixedVulns ++ [proto]
        uniqueVulnsIdx := mapSet c.uniqueVulnsIdx vulnKey idx }, idx, false)

/-- The block "Deal with modules if we found one" of both aggregator
functions: the module qualifier and the creator afterwards.  An error of
`createPackageModule` is logged and leaves the empty qualifier. -/
def creator.packageModule (env : Env) (c : creator) (modName : String) : Res (String × creator) :=
  if modName ≠ "" then
    let modGet := c.pc.Get modName c.c
    match createPackageModule env modGet.1 with
    | .ok m => .ok (m, { c with pc := modGet.2 })
    | .error _ => .ok ("", { c with pc := modGet.2 })
    | .panic => .panic
    | .diverge => .diverge
  else .ok (modName, c)

/-- The `v.ProductStatus[status]` slice of a vulnerability entry. -/
def productStatus (v : csaf.Vulnerability) (status : String) : List String :=
  (mapGet v.ProductStatus status).getD []

/-- The severity step shared by both aggregator functions: with a scoring
object the record's `Severity` becomes its validated vector, and a vector that
does not validate is an error of the whole call. -/
def withSeverity (env : Env) (vulnLink : String) (sc : Option csaf.Score)
    (vuln : claircore.Vulnerability) : Except GoError claircore.Vulnerability :=
  match sc with
  | none => .ok vuln
  | some s =>
    match cvssVectorFromScore env s with
    | .error err => .error (.wrapf "could not parse CVSS score: %w, file: %s" [vulnLink] err)
    | .ok vec => .ok { vuln with Severity := vec }

/-- What the first part of the loop body of `knownAffectedVulnerabilities`
(up to the purl filter) leaves for the second part: the CPE helper of the
repository product, the module qualifier and the package name. -/
structure knownAffectedTarget where
  cpeHelper : String
  modName : String
  pkgName : String
deriving DecidableEq

/-- The first part of the loop body of `knownAffectedVulnerabilities` for one
product id: resolution of the relationship and the filters.  `none` is a
`continue`; the creator is returned with the product cache as it stands. -/
def creator.knownAffectedResolve (env : Env) (fuel : Nat) (c : creator) (pc : String) :
    Res (creator × Option knownAffectedTarget) :=
  match walkRelationships fuel pc c.c with
  | .diverge => .diverge
  | .panic => .panic
  | .error _ => .ok (c, none)
  | .ok (pkgName, modName, repoName) =>
    if hasPrefix pkgName "kernel" then .ok (c, none)
    else
      let repoGet := c.pc.Get repoName c.c
      let c1 : creator := { c with pc := repoGet.2 }
      match repoGet.1 with
      | none => .ok (c1, none)
      | some repoProd =>
        match mapGet repoProd.IdentificationHelper "cpe" with
        | none => .ok (c1, none)
        | some cpeHelper =>
          match c1.packageModule env modName with
          | .diverge => .diverge
          | .panic => .panic
          | .error e => .error e
          | .ok (modName1, c2) =>
            let compGet := c2.pc.Get pkgName c2.c
            let c3 : creator := { c2 with pc := compGet.2 }
            match compGet.1 with
            | none => .ok (c3, none)
            | some compProd =>
              match mapGet compProd.IdentificationHelper "purl" with
              | none => .ok (c3, some { cpeHelper := cpeHelper, modName := modName1, pkgName := pkgName })
              | some purlHelper =>
                let parsed := env.FromString purlHelper
                let pkgName1 : String :=
                  match parsed.2 with
                  | some _ => pkgName
                  | none => parsed.1.Name
                if parsed.1.Typ ≠ packageurl.TypeRPM ∨ parsed.1.Namespace ≠ "redhat" then
                  .ok (c3, none)
                else
                  .ok (c3, some { cpeHelper := cpeHelper, modName := modName1, pkgName := pkgName1 })

/-- The second part of the loop body of `knownAffectedVulnerabilities`: the
record is built from the proto record; `none` is the `continue` for an entry
without threat and with base score 0.0. -/
def creator.knownAffectedRecord (env : Env) (c : creator) (proto : claircore.Vulnerability)
    (pc : String) (t : knownAffectedTarget) : Res (creator × Option claircore.Vulnerability) :=
  let vuln : claircore.Vulnerability :=
    { proto with
      Package := some { Name := t.pkgName, Kind := .SOURCE, Module := t.modName, Arch := "" } }
  let ch := escapeCPE t.cpeHelper
  match env.Unbind ch with
  | .error err => .error (.wrapf "could not unbind cpe: %s %w" [ch] err)
  | .ok wfn =>
    let repoR := c.rc.Get env wfn
    let c4 : creator := { c with rc := repoR.2 }
    let vuln1 : claircore.Vulnerability := { vuln with Repo := some repoR.1 }
    let sc := c4.c.FindScore pc
    match withSeverity env c4.vulnLink sc vuln1 with
    | .error e => .error e
    | .ok vuln2 =>
      match c4.c.FindThreat pc "impact" with
      | some t =>
        .ok (c4, some { vuln2 with NormalizedSeverity := env.NormalizeSeverity t.Details })
      | none =>
        match sc with
        | some s =>
          if cvssBaseScoreFromScore s = 0 then .ok (c4, none)
          else .ok (c4, some vuln2)
        | none => .ok (c4, some vuln2)

/-- The body of the loop of `knownAffectedVulnerabilities` for one product
id: the creator afterwards and the record appended to `out`, if any
(`none` is a `continue`). -/
def creator.knownAffectedEntry (env : Env) (fuel : Nat) (c : creator)
    (proto : claircore.Vulnerability) (pc : String) :
    Res (creator × Option claircore.Vulnerability) :=
  match c.knownAffectedResolve env fuel pc with
  | .diverge => .diverge
  | .panic => .panic
  | .error e => .error e
  | .ok (c3, none) => .ok (c3, none)
  | .ok (c3, some t) => c3.knownAffectedRecord env proto pc t

/-- The loop of `knownAffectedVulnerabilities` over the product ids. -/
def creator.knownAffectedLoop (env : Env) (fuel : Nat) (proto : claircore.Vulnerability) :
    List String → creator → List claircore.Vulnerability →
    Res (creator × List claircore.Vulnerability)
  | [], c, out => .ok (c, out)
  | pc :: rest, c, out =>
    match c.knownAffectedEntry env fuel proto pc with
    | .ok (c1, none) => creator.knownAffectedLoop env fuel proto rest c1 out
    | .ok (c1, some vuln) => creator.knownAffectedLoop env fuel proto rest c1 (out ++ [vuln])
    | .error e => .error e
    | .panic => .panic
    | .diverge => .diverge

/-- Go `creator.knownAffectedVulnerabilities`: the creator afterwards and the
returned records. -/
def creator.knownAffectedVulnerabilities (env : Env) (fuel : Nat) (c : creator)
    (v : csaf.Vulnerability) (proto : claircore.Vulnerability) :
    Res (creator × List claircore.Vulnerability) :=
  creator.knownAffectedLoop env fuel proto (productStatus v "known_affected") c []

/-- What the first part of the loop body of `fixedVulnerabilities` (up to
the purl filters) leaves for the second part: the repository product id and
its CPE helper, the module qualifier and the parsed package purl. -/
structure fixedTarget where
  repoName : String
  cpeHelper : String
  modName : String
  purl : packageurl.PackageURL
deriving DecidableEq

/-- The first part of the loop body of `fixedVulnerabilities` for one product
id: resolution of the relationship and the filters.  `none` is a `continue`;
the creator is returned with the product cache as it stands. -/
def creator.fixedResolve (env : Env) (fuel : Nat) (c : creator) (pc : String) :
    Res (creator × Option fixedTarget) :=
  match walkRelationships fuel pc c.c with
  | .diverge => .diverge
  | .panic => .panic
  | .error _ => .ok (c, none)
  | .ok (pkgName, modName, repoName) =>
    let repoGet := c.pc.Get repoName c.c
    let c1 : creator := { c with pc := repoGet.2 }
    match repoGet.1 with
    | none => .ok (c1, none)
    | some repoProd =>
      match mapGet repoProd.IdentificationHelper "cpe" with
      | none => .ok (c1, none)
      | some cpeHelper =>
        match c1.packageModule env modName with
        | .diverge => .diverge
        | .panic => .panic
        | .error e => .error e
        | .ok (modName1, c2) =>
          let compGet := c2.pc.Get pkgName c2.c
          let c3 : creator := { c2 with pc := compGet.2 }
          match compGet.1 with
          | none => .ok (c3, none)
          | some compProd =>
            match mapGet compProd.IdentificationHelper "purl" with
            | none => .ok (c3, none)
            | some purlHelper =>
              match env.FromString purlHelper with
              | (_, some _) => .ok (c3, none)
              | (purl, none) =>
                if hasPrefix purl.Name "kernel" then .ok (c3, none)
                else if purl.Typ ≠ packageurl.TypeRPM ∨ purl.Namespace ≠ "redhat" then
                  .ok (c3, none)
                else
                  .ok (c3, some { repoName := repoName, cpeHelper := cpeHelper,
                                  modName := modName1, purl := purl })

/-- The dedup key `vulnKey` of a resolved "fixed" entry. -/
def fixedTarget.vulnKey (t : fixedTarget) : String :=
  createPackageKey t.repoName t.modName t.purl.Name (epochVersion t.purl)

/-- The architecture `arch` of a resolved "fixed" entry: the "arch"
qualifier of the purl, "" when it has none. -/
def fixedTarget.arch (t : fixedTarget) : String :=
  (mapGet t.purl.QualifiersMap "arch").getD ""

/-- The second part of the loop body of `fixedVulnerabilities`: the record
filed under the dedup key is looked up (and created when new) and written
through the pointer into `fixedVulns`. -/
def creator.fixedRecord (env : Env) (c : creator) (proto : claircore.Vulnerability)
    (pc : String) (t : fixedTarget) : Res creator :=
  let fixedIn := epochVersion t.purl
  let vulnKey := t.vulnKey
  let arch := t.arch
  let found := c.lookupVulnerability vulnKey proto
  let c4 : creator := found.1
  let idx : Nat := found.2.1
  match c4.fixedVulns.get? idx with
  | none => .panic
  | some vuln =>
    if found.2.2 = true ∧ arch ≠ "" then
      match vuln.Package with
      | none => .panic
      | some pkg =>
        .ok { c4 with
              fixedVulns := c4.fixedVulns.set idx
                { vuln with Package := some { pkg with Arch := pkg.Arch ++ "|" ++ arch } } }
    else
      let pkg0 : claircore.Package :=
        { Name := t.purl.Name, Kind := .BINARY, Module := t.modName, Arch := "" }
      let vuln1 : claircore.Vulnerability :=
        { vuln with FixedInVersion := fixedIn, Package := some pkg0 }
      let vuln2 : claircore.Vulnerability :=
        if arch ≠ "" then
          { vuln1 with
            Package := some { pkg0 with Arch := arch }
            ArchOperation := .OpPatternMatch }
        else vuln1
      let ch := escapeCPE t.cpeHelper
      match env.Unbind ch with
      | .error err => .error (.wrapf "could not unbind cpe: %s %w" [ch] err)
      | .ok wfn =>
        let repoR := c4.rc.Get env wfn
        let vuln3 : claircore.Vulnerability := { vuln2 with Repo := some repoR.1 }
        let vuln4 : claircore.Vulnerability :=
          match c4.c.FindRemediation pc with
          | some rem => { vuln3 with Links := vuln3.Links ++ " " ++ rem.URL }
          | none => vuln3
        let sc := c4.c.FindScore pc
        match withSeverity env c4.vulnLink sc vuln4 with
        | .error e => .error e
        | .ok vuln5 =>
          match c4.c.FindThreat pc "impact" with
          | some t =>
            .ok { c4 with
                  rc := repoR.2
                  fixedVulns := c4.fixedVulns.set idx
                    { vuln5 with NormalizedSeverity := env.NormalizeSeverity t.Details } }
          | none =>
            match sc with
            | some s =>
              if cvssBaseScoreFromScore s = 0 then
                -- the `continue` of the source: the record stays in `fixedVulns`
                .ok { c4 with rc := repoR.2, fixedVulns := c4.fixedVulns.set idx vuln5 }
              else
                .ok { c4 with rc := repoR.2, fixedVulns := c4.fixedVulns.set idx vuln5 }
            | none =>
              .ok { c4 with rc := repoR.2, fixedVulns := c4.fixedVulns.set idx vuln5 }

/-- The body of the loop of `fixedVulnerabilities` for one product id: the
creator afterwards.  Every `continue` and the end of the body return the
creator as it stands, the records written so far included. -/
def creator.fixedEntry (env : Env) (fuel : Nat) (c : creator)
    (proto : claircore.Vulnerability) (pc : String) : Res creator :=
  match c.fixedResolve env fuel pc with
  | .diverge => .diverge
  | .panic => .panic
  | .error e => .error e
  | .ok (c3, none) => .ok c3
  | .ok (c3, some t) => c3.fixedRecord env proto pc t

/-- The loop of `fixedVulnerabilities` over the product ids. -/
def creator.fixedLoop (env : Env) (fuel : Nat) (proto : claircore.Vulnerability) :
    List String → creator → Res creator
  | [], c => .ok c
  | pc :: rest, c =>
    match c.fixedEntry env fuel proto pc with
    | .ok c1 => creator.fixedLoop env fuel proto rest c1
    | .error e => .error e
    | .panic => .panic
    | .diverge => .diverge

/-- Go `creator.fixedVulnerabilities`: the creator afterwards and the returned
records, which are all of `fixedVulns`. -/
def creator.fixedVulnerabilities (env : Env) (fuel : Nat) (c : creator)
    (v : csaf.Vulnerability) (proto : claircore.Vulnerability) :
    Res (creator × List claircore.Vulnerability) :=
  match creator.fixedLoop env fuel proto (productStatus v "fixed") c with
  | .ok c1 => .ok (c1, c1.fixedVulns)
  | .error e => .error e
  | .panic => .panic
  | .diverge => .diverge

/-! ## The stream merge -/

/-- Go `Updater`: only its name is read. -/
structure Updater where
  Name : String

/-- The state of the loop of `DeltaParse`: the `out` map, the `deleted` slice
and the two caches made before the loop. -/
structure parseState where
  out : List (String × List claircore.Vulnerability)
  deleted : List String
  pc : productCache
  rc : repoCache

/-- The closure `protoVuln` of `DeltaParse` for one vulnerability entry. -/
def protoVuln (u : Updater) (name selfLink : String) (v : csaf.Vulnerability) :
    claircore.Vulnerability :=
  let links := v.References.map (fun r => r.URL) ++ [selfLink]
  let desc := v.Notes.foldl (fun d n => if n.Category = "description" then n.Text else d) ""
  { Updater := u.Name
    Name := name
    Description := desc
    Issued := v.ReleaseDate
    Links := joinWith " " links
    Severity := "Unknown"
    NormalizedSeverity := .Unknown
    Package := none
    Repo := none
    FixedInVersion := ""
    ArchOperation := .unset }

/-- The loop of `DeltaParse` over the vulnerability entries of one document:
the creator and the `out` map afterwards. -/
def Updater.vulnLoop (u : Updater) (env : Env) (fuel : Nat) (name selfLink : String) :
    List csaf.Vulnerability → creator → List (String × List claircore.Vulnerability) →
    Res (creator × List (String × List claircore.Vulnerability))
  | [], cr, out => .ok (cr, out)
  | v :: vs, cr, out =>
    match cr.fixedVulnerabilities env fuel v (protoVuln u name selfLink v) with
    | .error e => .error e
    | .panic => .panic
    | .diverge => .diverge
    | .ok (cr1, fixedVulns) =>
      let out1 := mapSet out name fixedVulns
      match cr1.knownAffectedVulnerabilities env fuel v (protoVuln u name selfLink v) with
      | .error e => .error e
      | .panic => .panic
      | .diverge => .diverge
      | .ok (cr2, knownAffectedVulns) =>
        Updater.vulnLoop u env fuel name selfLink vs cr2
          (mapSet out1 name ((mapGet out1 name).getD [] ++ knownAffectedVulns))

/-- The `selfLink` of a document: the URL of its last reference of category
"self". -/
def selfLinkOf (c : csaf.CSAF) : String :=
  c.References.foldl (fun l r => if r.Category = "self" then r.URL else l) ""

/-- The loop of `DeltaParse` over the lines of the decompressed stream: the
lines that `ReadBytes` hands over before its first error (the end of the
stream included), each given as the result of `csaf.Parse` on it. -/
def Updater.docLoop (u : Updater) (env : Env) (fuel : Nat) :
    List (Except GoError csaf.CSAF) → parseState → Res parseState
  | [], st => .ok st
  | .error err :: _, _ => .error (.wrapf "error parsing CSAF: %w" [] err)
  | .ok c :: rest, st =>
    let name := c.TrackingID
    if c.TrackingStatus = "deleted" then
      Updater.docLoop u env fuel rest { st with deleted := st.deleted ++ [name] }
    else
      let selfLink := selfLinkOf c
      let cr := newCreator name selfLink c st.pc st.rc
      match Updater.vulnLoop u env fuel name selfLink c.Vulnerabilities cr st.out with
      | .error e => .error e
      | .panic => .panic
      | .diverge => .diverge
      | .ok (cr1, out1) =>
        Updater.docLoop u env fuel rest { st with out := out1, pc := cr1.pc, rc := cr1.rc }

/-- The closing loop of `DeltaParse` over the entries of the `out` map, in the
order they are visited. -/
def collectVulns :
    List (String × List claircore.Vulnerability) → List claircore.Vulnerability → List String →
    List claircore.Vulnerability × List String
  | [], vulns, deleted => (vulns, deleted)
  | (n, vs) :: rest, vulns, deleted =>
    if vs.length = 0 then collectVulns rest vulns (deleted ++ [n])
    else collectVulns rest (vulns ++ vs) deleted

/-- Go `Updater.DeltaParse`: the vulnerability records and the deletion list.
Go visits the entries of a map in an unspecified order; `iter` is the order in
which `range out` visits them. -/
def Updater.DeltaParse (u : Updater) (env : Env) (fuel : Nat)
    (iter : List (String × List claircore.Vulnerability) → List (String × List claircore.Vulnerability))
    (contents : List (Except GoError csaf.CSAF)) :
    Res (List claircore.Vulnerability × List String) :=
  match Updater.docLoop u env fuel contents
      { out := [], deleted := [], pc := newProductCache, rc := newRepoCache } with
  | .error e => .error e
  | .panic => .panic
  | .diverge => .diverge
  | .ok st => .ok (collectVulns (iter st.out) [] st.deleted)

/-! ## Definitions used by the statements -/

/-- One side of `extractProductNames`: the relationship of the id is expanded,
an id without one is appended. -/
def expandSide (fuel : Nat) (x : String) (comps : List String) (c : csaf.CSAF) :
    Option (List String) :=
  match c.FindRelationship x "default_component_of" with
  | some rel => extractProductNames fuel rel.ProductRef rel.RelatesToProductRef comps c
  | none => some (comps ++ [x])


/-! ## Example documents -/

/-- The relationship table of the documentation of `extractProductNames`:
`a_repo:a_module:a_pkg` is `a_pkg` in `a_repo:a_module`, which is `a_module`
in `a_repo`; and `repo:pkg` is `pkg` in `repo`. -/
def exRelationships (productID category : String) : Option csaf.Relationship :=
  if category = "default_component_of" then
    if productID = "a_repo:a_module:a_pkg" then
      some { Category := category, ProductRef := "a_pkg", RelatesToProductRef := "a_repo:a_module" }
    else if productID = "a_repo:a_module" then
      some { Category := category, ProductRef := "a_module", RelatesToProductRef := "a_repo" }
    else if productID = "repo:pkg" then
      some { Category := category, ProductRef := "pkg", RelatesToProductRef := "repo" }
    else none
  else none

/-- A document with the relationships `exRelationships` and nothing else. -/
def exWalkDoc : csaf.CSAF :=
  { TrackingID := "CVE-2024-0001"
    TrackingStatus := "final"
    References := []
    Vulnerabilities := []
    FindRelationship := exRelationships
    FindProductByID := fun _ => none
    FindScore := fun _ => none
    FindThreat := fun _ _ => none
    FindRemediation := fun _ => none }


/-! ## Definitions used by the statements on the stream merge, and examples -/

/-- Apply a function to the value of a normal return; the other outcomes
stay as they are. -/
def Res.map {α β : Type} (f : α → β) : Res α → Res β
  | .ok a => .ok (f a)
  | .error e => .error e
  | .panic => .panic
  | .diverge => .diverge

/-- The records of a list that carry the advisory name `N`. -/
def recordsNamed (N : String) (vulns : List claircore.Vulnerability) :
    List claircore.Vulnerability :=
  vulns.filter (fun r => decide (r.Name = N))

/-- The list that the loop of `DeltaParse` over the vulnerability entries of
document `d` leaves in the `out` map under the name of `d`, when `d` is
reached with the caches `pc` and `rc`: the aggregation result of `d`.  It is
the empty list when the loop leaves nothing under the name. -/
def Updater.docResult (u : Updater) (env : Env) (fuel : Nat) (d : csaf.CSAF)
    (pc : productCache) (rc : repoCache) : Res (List claircore.Vulnerability) :=
  Res.map (fun r => (mapGet r.2 d.TrackingID).getD [])
    (Updater.vulnLoop u env fuel d.TrackingID (selfLinkOf d) d.Vulnerabilities
      (newCreator d.TrackingID (selfLinkOf d) d pc rc) [])

/-- The state in which `DeltaParse` starts its loop. -/
def parseState.init : parseState :=
  { out := [], deleted := [], pc := newProductCache, rc := newRepoCache }

/-- An example purl parser: it knows the purls of the examples. -/
def exFromString (s : String) : packageurl.PackageURL × Option GoError :=
  if s = "pkg:rpm/redhat/bash@5.1.8-6.el9?arch=x86_64" then
    ({ Typ := "rpm", Namespace := "redhat", Name := "bash", Version := "5.1.8-6.el9",
       Qualifiers := [("arch", "x86_64")], Subpath := "" }, none)
  else if s = "pkg:rpm/redhat/bash@5.1.8-6.el9?arch=aarch64" then
    ({ Typ := "rpm", Namespace := "redhat", Name := "bash", Version := "5.1.8-6.el9",
       Qualifiers := [("arch", "aarch64")], Subpath := "" }, none)
  else if s = "pkg:rpm/redhat/bash@5.1.8-6.el9" then
    ({ Typ := "rpm", Namespace := "redhat", Name := "bash", Version := "5.1.8-6.el9",
       Qualifiers := [], Subpath := "" }, none)
  else
    ({ Typ := "", Namespace := "", Name := "", Version := "", Qualifiers := [], Subpath := "" },
      some (.external "purl scheme is not \"pkg\""))

/-- An example environment: every CPE string unbinds, every vector
validates. -/
def exEnv : Env :=
  { FromString := exFromString
    purlString := fun p => "pkg:" ++ p.Typ ++ "/" ++ p.Namespace ++ "/" ++ p.Name ++ "@" ++ p.Version
    Unbind := fun s => .ok { Attr := [s] }
    wfnString := fun w => joinColon w.Attr
    ParseV2 := fun _ => none
    ParseV3 := fun _ => none
    ParseV4 := fun _ => none
    NormalizeSeverity := fun s =>
      if s = "Low" then .Low else if s = "Moderate" then .Medium
      else if s = "Important" then .High else if s = "Critical" then .Critical else .Unknown
    repoKey := "rhel-cpe-repository" }

/-- An example updater. -/
def exUpdater : Updater := { Name := "rhel-vex" }

/-- The relationships of the example documents: `bash` in `BaseOS-9` for
three product ids (two architectures and a source entry). -/
def exRels (productID category : String) : Option csaf.Relationship :=
  if category = "default_component_of" then
    if productID = "BaseOS-9:bash.x86_64" then
      some { Category := category, ProductRef := "bash.x86_64", RelatesToProductRef := "BaseOS-9" }
    else if productID = "BaseOS-9:bash.aarch64" then
      some { Category := category, ProductRef := "bash.aarch64", RelatesToProductRef := "BaseOS-9" }
    else if productID = "BaseOS-9:bash" then
      some { Category := category, ProductRef := "bash", RelatesToProductRef := "BaseOS-9" }
    else none
  else none

/-- The product tree of the example documents. -/
def exProducts (productID : String) : Option csaf.Product :=
  if productID = "BaseOS-9" then
    some { ID := productID, IdentificationHelper := [("cpe", "cpe:/o:redhat:enterprise_linux:9")] }
  else if productID = "bash.x86_64" then
    some { ID := productID,
           IdentificationHelper := [("purl", "pkg:rpm/redhat/bash@5.1.8-6.el9?arch=x86_64")] }
  else if productID = "bash.aarch64" then
    some { ID := productID,
           IdentificationHelper := [("purl", "pkg:rpm/redhat/bash@5.1.8-6.el9?arch=aarch64")] }
  else if productID = "bash" then
    some { ID := productID, IdentificationHelper := [("purl", "pkg:rpm/redhat/bash@5.1.8-6.el9")] }
  else none

/-- An example document: tracking id and status, one vulnerability entry per
pair of a "fixed" and a "known_affected" list, and the score and threat that
every product id has. -/
def exDoc (id status : String) (entries : List (List String × List String))
    (score : Option csaf.Score) (threat : Option csaf.Threat) : csaf.CSAF :=
  { TrackingID := id
    TrackingStatus := status
    References := [{ Category := "self", URL := "https://example.test/" ++ id }]
    Vulnerabilities := entries.map (fun e =>
      { ProductStatus := [("fixed", e.1), ("known_affected", e.2)]
        References := []
        Notes := [{ Category := "description", Text := "a flaw" }]
        ReleaseDate := "2024-01-01" })
    FindRelationship := exRels
    FindProductByID := exProducts
    FindScore := fun _ => score
    FindThreat := fun _ category => if category = "impact" then threat else none
    FindRemediation := fun _ => none }

/-- A threat of category "impact". -/
def exThreat : csaf.Threat := { Category := "impact", Details := "Moderate" }

/-- A CVSS v3 score with base score 0.0. -/
def exZeroScore : csaf.Score :=
  { CVSSV2 := none
    CVSSV3 := some { VectorString := "CVSS:3.1/AV:N/AC:L/PR:N/UI:N/S:U/C:N/I:N/A:N", BaseScore := 0 }
    CVSSV4 := none }

/-- The record that the example documents give for the source entry
`BaseOS-9:bash` under "known_affected". -/
def exKnownRecord (id : String) : claircore.Vulnerability :=
  { Updater := "rhel-vex"
    Name := id
    Description := "a flaw"
    Issued := "2024-01-01"
    Links := "https://example.test/" ++ id
    Severity := "Unknown"
    NormalizedSeverity := .Medium
    Package := some { Name := "bash", Kind := .SOURCE, Module := "", Arch := "" }
    Repo := some { CPE := { Attr := ["cpe:/o:redhat:enterprise_linux:9"] },
                   Name := "cpe:/o:redhat:enterprise_linux:9", Key := "rhel-cpe-repository" }
    FixedInVersion := ""
    ArchOperation := .unset }

/-- A document for CVE-2024-0001 with one "known_affected" product id. -/
def exDocA : csaf.CSAF :=
  exDoc "CVE-2024-0001" "final" [([], ["BaseOS-9:bash"])] none (some exThreat)

/-- A later document for CVE-2024-0001 whose threat reads "Low". -/
def exDocLow : csaf.CSAF :=
  exDoc "CVE-2024-0001" "final" [([], ["BaseOS-9:bash"])] none
    (some { Category := "impact", Details := "Low" })

/-- A document for CVE-2024-0001 that is not deleted and has no vulnerability
entry. -/
def exDocNoEntries : csaf.CSAF :=
  exDoc "CVE-2024-0001" "final" [] none (some exThreat)

/-- A document for CVE-2024-0001 with one vulnerability entry whose only
product id has no relationship. -/
def exDocNoRecords : csaf.CSAF :=
  exDoc "CVE-2024-0001" "final" [([], ["no-such-product"])] none (some exThreat)

/-- A deleted document for CVE-2024-0001 that still carries a vulnerability
entry. -/
def exDocDeleted : csaf.CSAF :=
  exDoc "CVE-2024-0001" "deleted" [([], ["BaseOS-9:bash"])] none (some exThreat)

/-- A document for another advisory, CVE-2024-0002. -/
def exDocOther : csaf.CSAF :=
  exDoc "CVE-2024-0002" "final" [([], ["BaseOS-9:bash"])] none (some exThreat)

/-- A document for CVE-2024-0003 in which every product id has a score with
base score 0.0 and no threat; one vulnerability entry with the given "fixed"
and "known_affected" product ids. -/
def exDocZero (fixed known : List String) : csaf.CSAF :=
  exDoc "CVE-2024-0003" "final" [(fixed, known)] (some exZeroScore) none

/-- The vulnerability entry of `exDocZero`. -/
def exEntryZero (fixed known : List String) : csaf.Vulnerability :=
  { ProductStatus := [("fixed", fixed), ("known_affected", known)]
    References := []
    Notes := [{ Category := "description", Text := "a flaw" }]
    ReleaseDate := "2024-01-01" }

/-- The creator that `DeltaParse` makes for `exDocZero` as the first
document of a stream. -/
def exCreatorZero (fixed known : List String) : creator :=
  newCreator "CVE-2024-0003" (selfLinkOf (exDocZero fixed known)) (exDocZero fixed known)
    newProductCache newRepoCache

/-- The proto record of `DeltaParse` for the entry of `exDocZero`. -/
def exProtoZero (fixed known : List String) : claircore.Vulnerability :=
  protoVuln exUpdater "CVE-2024-0003" (selfLinkOf (exDocZero fixed known)) (exEntryZero fixed known)

/-- The record that `fixedVulnerabilities` files for `BaseOS-9:bash.x86_64`
in `exDocZero`. -/
def exFixedZeroRecord : claircore.Vulnerability :=
  { Updater := "rhel-vex"
    Name := "CVE-2024-0003"
    Description := "a flaw"
    Issued := "2024-01-01"
    Links := "https://example.test/CVE-2024-0003"
    Severity := "CVSS:3.1/AV:N/AC:L/PR:N/UI:N/S:U/C:N/I:N/A:N"
    NormalizedSeverity := .Unknown
    Package := some { Name := "bash", Kind := .BINARY, Module := "", Arch := "x86_64" }
    Repo := some { CPE := { Attr := ["cpe:/o:redhat:enterprise_linux:9"] },
                   Name := "cpe:/o:redhat:enterprise_linux:9", Key := "rhel-cpe-repository" }
    FixedInVersion := "0:5.1.8-6.el9"
    ArchOperation := .OpPatternMatch }

/-- A document for CVE-2024-0004 with one vulnerability entry whose "fixed"
product ids are `bash` in `BaseOS-9` for x86_64 and for aarch64. -/
def exDocArch : csaf.CSAF :=
  exDoc "CVE-2024-0004" "final" [(["BaseOS-9:bash.x86_64", "BaseOS-9:bash.aarch64"], [])]
    none (some exThreat)

/-- The vulnerability entry of `exDocArch`. -/
def exEntryArch : csaf.Vulnerability :=
  { ProductStatus := [("fixed", ["BaseOS-9:bash.x86_64", "BaseOS-9:bash.aarch64"]),
                      ("known_affected", [])]
    References := []
    Notes := [{ Category := "description", Text := "a flaw" }]
    ReleaseDate := "2024-01-01" }

/-- What the two "fixed" product ids of `exDocArch` resolve to, by
architecture. -/
def exTargetArch (arch : String) : fixedTarget :=
  { repoName := "BaseOS-9"
    cpeHelper := "cpe:/o:redhat:enterprise_linux:9"
    modName := ""
    purl := { Typ := "rpm", Namespace := "redhat", Name := "bash", Version := "5.1.8-6.el9",
              Qualifiers := [("arch", arch)], Subpath := "" } }

/-- The one record that `fixedVulnerabilities` returns for `exDocArch`. -/
def exArchRecord : claircore.Vulnerability :=
  { Updater := "rhel-vex"
    Name := "CVE-2024-0004"
    Description := "a flaw"
    Issued := "2024-01-01"
    Links := "https://example.test/CVE-2024-0004"
    Severity := "Unknown"
    NormalizedSeverity := .Medium
    Package := some { Name := "bash", Kind := .BINARY, Module := "", Arch := "x86_64|aarch64" }
    Repo := some { CPE := { Attr := ["cpe:/o:redhat:enterprise_linux:9"] },
                   Name := "cpe:/o:redhat:enterprise_linux:9", Key := "rhel-cpe-repository" }
    FixedInVersion := "0:5.1.8-6.el9"
    ArchOperation := .OpPatternMatch }

/-- Two creators agree on everything but the product cache. -/
def creator.sameButPc (c c' : creator) : Prop :=
  c'.vulnName = c.vulnName ∧ c'.vulnLink = c.vulnLink ∧
  c'.uniqueVulnsIdx = c.uniqueVulnsIdx ∧ c'.fixedVulns = c.fixedVulns ∧
  c'.c = c.c ∧ c'.rc = c.rc

/-- Two creators agree on everything but the two caches. -/
def creator.sameButCaches (c c' : creator) : Prop :=
  c'.vulnName = c.vulnName ∧ c'.vulnLink = c.vulnLink ∧
  c'.uniqueVulnsIdx = c.uniqueVulnsIdx ∧ c'.fixedVulns = c.fixedVulns ∧ c'.c = c.c

/-- The `out` map is well formed: its keys are distinct and every record
filed under a name carries that name. -/
def outInv (out : List (String × List claircore.Vulnerability)) : Prop :=
  (out.map Prod.fst).Nodup ∧ ∀ e ∈ out, ∀ r ∈ e.2, r.Name = e.1

/-! ## The resolution of an entry as a function of the document -/

/-- What the product cache of a creator answers for a product id: the cached
product when the id is cached, the product of the document's product tree
otherwise. -/
def creator.product (c : creator) (productID : String) : Option csaf.Product :=
  (c.pc.Get productID c.c).1

/-- The module qualifier of the block "Deal with modules if we found one",
read with the answers `product` of the product cache. -/
def moduleOf (env : Env) (product : String → Option csaf.Product) (modName : String) :
    Res String :=
  if modName ≠ "" then
    match createPackageModule env (product modName) with
    | .ok m => .ok m
    | .error _ => .ok ""
    | .panic => .panic
    | .diverge => .diverge
  else .ok modName

/-- The first part of the loop body of `fixedVulnerabilities` read with the
answers `product` of the product cache: what `creator.fixedResolve` leaves
for the record part (see `creator.fixedResolve_eq`). -/
def fixedTargetOf (env : Env) (fuel : Nat) (doc : csaf.CSAF)
    (product : String → Option csaf.Product) (pc : String) : Res (Option fixedTarget) :=
  match walkRelationships fuel pc doc with
  | .diverge => .diverge
  | .panic => .panic
  | .error _ => .ok none
  | .ok (pkgName, modName, repoName) =>
    match product repoName with
    | none => .ok none
    | some repoProd =>
      match mapGet repoProd.IdentificationHelper "cpe" with
      | none => .ok none
      | some cpeHelper =>
        match moduleOf env product modName with
        | .diverge => .diverge
        | .panic => .panic
        | .error e => .error e
        | .ok modName1 =>
          match product pkgName with
          | none => .ok none
          | some compProd =>
            match mapGet compProd.IdentificationHelper "purl" with
            | none => .ok none
            | some purlHelper =>
              match env.FromString purlHelper with
              | (_, some _) => .ok none
              | (purl, none) =>
                if hasPrefix purl.Name "kernel" then .ok none
                else if purl.Typ ≠ packageurl.TypeRPM ∨ purl.Namespace ≠ "redhat" then .ok none
                else
                  .ok (some { repoName := repoName, cpeHelper := cpeHelper,
                              modName := modName1, purl := purl })

/-- The index map of a creator and its `fixedVulns` match: every index of the
map is an index of `fixedVulns`, no two keys share an index, and every record
of `fixedVulns` is filed under a key. -/
def creator.idxInv (c : creator) : Prop :=
  (∀ k i, mapGet c.uniqueVulnsIdx k = some i → i < c.fixedVulns.length) ∧
  (∀ k k2 i, mapGet c.uniqueVulnsIdx k = some i → mapGet c.uniqueVulnsIdx k2 = some i → k = k2) ∧
  (∀ i, i < c.fixedVulns.length → ∃ k, mapGet c.uniqueVulnsIdx k = some i)

/-! ## Definitions used by the statements on the helpers, and examples -/

/-- The part of a string before its first occurrence of a character, all of
it when the character does not occur: the wording "up to, not including, its
first separator" of the module qualifier. -/
def upToFirst (sep : Char) (s : String) : String :=
  String.mk (s.data.takeWhile (fun ch => decide (ch ≠ sep)))

/-- The part of a string after its first occurrence of a character, empty
when the character does not occur. -/
def afterFirst (sep : Char) (s : String) : String :=
  String.mk ((s.data.dropWhile (fun ch => decide (ch ≠ sep))).drop 1)

/-- An environment like `exEnv` whose three vector parsers accept the
complete vectors of the examples and reject every other string. -/
def exEnvStrict : Env :=
  { exEnv with
    ParseV2 := fun s =>
      if s = "AV:N/AC:L/Au:N/C:P/I:P/A:P" then none else some (.external "invalid vector")
    ParseV3 := fun s =>
      if s = "CVSS:3.1/AV:N/AC:L/PR:N/UI:N/S:U/C:H/I:H/A:H" then none
      else some (.external "invalid vector")
    ParseV4 := fun s =>
      if s = "CVSS:4.0/AV:N/AC:L/AT:N/PR:N/UI:N/VC:H/VI:H/VA:H/SC:N/SI:N/SA:N" then none
      else some (.external "invalid vector") }

/-- A scoring object with only the given CVSS version populated, with a
vector string cut short after its first metric. -/
def exScoreBad (version : Nat) : csaf.Score :=
  { CVSSV2 := if version = 2 then some { VectorString := "AV:N", BaseScore := 15 / 2 } else none
    CVSSV3 :=
      if version = 3 then some { VectorString := "CVSS:3.1/AV:N", BaseScore := 49 / 5 } else none
    CVSSV4 :=
      if version = 4 then some { VectorString := "CVSS:4.0/AV:N", BaseScore := 93 / 10 }
      else none }

/-- A scoring object with only CVSS v2 populated. -/
def exScoreV2 : csaf.Score :=
  { CVSSV2 := some { VectorString := "AV:N/AC:L/Au:N/C:P/I:P/A:P", BaseScore := 15 / 2 }
    CVSSV3 := none
    CVSSV4 := none }

/-- A scoring object with only CVSS v3 populated. -/
def exScoreV3 : csaf.Score :=
  { CVSSV2 := none
    CVSSV3 := some { VectorString := "CVSS:3.1/AV:N/AC:L/PR:N/UI:N/S:U/C:H/I:H/A:H",
                     BaseScore := 49 / 5 }
    CVSSV4 := none }

/-- A scoring object with CVSS v4 and v2 populated. -/
def exScoreV4 : csaf.Score :=
  { CVSSV2 := some { VectorString := "AV:N/AC:L/Au:N/C:P/I:P/A:P", BaseScore := 15 / 2 }
    CVSSV3 := none
    CVSSV4 := some { VectorString := "CVSS:4.0/AV:N/AC:L/AT:N/PR:N/UI:N/VC:H/VI:H/VA:H/SC:N/SI:N/SA:N",
                     BaseScore := 93 / 10 } }

/-- A purl parser for module purls: it knows two module purls, one of
namespace `redhat` and one of a namespace that begins with `redhat/`, and a
purl of another type. -/
def exModuleFromString (s : String) : packageurl.PackageURL × Option GoError :=
  if s = "pkg:rpmmod/redhat/postgresql:15/postgresql" then
    ({ Typ := "rpmmod", Namespace := "redhat/postgresql:15", Name := "postgresql", Version := "",
       Qualifiers := [], Subpath := "" }, none)
  else if s = "pkg:rpmmod/redhat/postgresql@15:8080020230822203025:63b34585" then
    ({ Typ := "rpmmod", Namespace := "redhat", Name := "postgresql",
       Version := "15:8080020230822203025:63b34585", Qualifiers := [], Subpath := "" }, none)
  else if s = "pkg:rpm/redhat/postgresql@15" then
    ({ Typ := "rpm", Namespace := "redhat", Name := "postgresql", Version := "15",
       Qualifiers := [], Subpath := "" }, none)
  else
    ({ Typ := "", Namespace := "", Name := "", Version := "", Qualifiers := [], Subpath := "" },
      some (.external "purl scheme is not \"pkg\""))

/-- An environment like `exEnv` with the module purl parser. -/
def exEnvModule : Env := { exEnv with FromString := exModuleFromString }

/-- A module product with the given purl helper. -/
def exModuleProduct (purl : String) : csaf.Product :=
  { ID := "postgresql:15", IdentificationHelper := [("purl", purl)] }

/-- The replacement of every `?` by `%01`, character by character: every
other character stays. -/
def replaceQuestionSpec (l : List Char) : List Char :=
  l.foldr (fun ch acc => (if ch = '?' then ['%', '0', '1'] else [ch]) ++ acc) []

/-- The transformation of one segment in the words of the contract of
`escapeCPE`: a final `*`, if the segment ends in one, is replaced by `%02`,
and then every `?` is replaced by `%01`. -/
def escapeSegmentSpec (seg : List Char) : List Char :=
  replaceQuestionSpec
    (if seg.getLast? = some '*' then seg.dropLast ++ ['%', '0', '2'] else seg)

/-- The characters of `strings.Join` for a one-character separator: the
reading of `joinWith` on character lists. -/
def joinChars (sep : Char) : List (List Char) → List Char
  | [] => []
  | [x] => x
  | x :: y :: rest => x ++ sep :: joinChars sep (y :: rest)

/-- A purl parser that knows three more purls than `exFromString`: a
`kernel-headers` package, `python3-idle`, and `python3` with an explicit
epoch qualifier. -/
def exFromStringMore (s : String) : packageurl.PackageURL × Option GoError :=
  if s = "pkg:rpm/redhat/kernel-headers@5.14.0-427.el9" then
    ({ Typ := "rpm", Namespace := "redhat", Name := "kernel-headers", Version := "5.14.0-427.el9",
       Qualifiers := [], Subpath := "" }, none)
  else if s = "pkg:rpm/redhat/python3-idle@3.6.8-24.el8?arch=x86_64" then
    ({ Typ := "rpm", Namespace := "redhat", Name := "python3-idle", Version := "3.6.8-24.el8",
       Qualifiers := [("arch", "x86_64")], Subpath := "" }, none)
  else if s = "pkg:rpm/redhat/python3@3.6.8-24.el8?arch=aarch64&epoch=idle-0" then
    ({ Typ := "rpm", Namespace := "redhat", Name := "python3", Version := "3.6.8-24.el8",
       Qualifiers := [("arch", "aarch64"), ("epoch", "idle-0")], Subpath := "" }, none)
  else exFromString s

/-- The environment `exEnv` with the purl parser `exFromStringMore`. -/
def exEnvMore : Env := { exEnv with FromString := exFromStringMore }

/-- The relationships of `exRels` and three more: the product ids `kh`,
`python3-idle.x86_64` and `python3.aarch64` in `BaseOS-9`. -/
def exRelsMore (productID category : String) : Option csaf.Relationship :=
  if category = "default_component_of" ∧ productID = "BaseOS-9:kh" then
    some { Category := category, ProductRef := "kh", RelatesToProductRef := "BaseOS-9" }
  else if category = "default_component_of" ∧ productID = "BaseOS-9:python3-idle.x86_64" then
    some { Category := category, ProductRef := "python3-idle.x86_64",
           RelatesToProductRef := "BaseOS-9" }
  else if category = "default_component_of" ∧ productID = "BaseOS-9:python3.aarch64" then
    some { Category := category, ProductRef := "python3.aarch64",
           RelatesToProductRef := "BaseOS-9" }
  else exRels productID category

/-- The product tree of `exProducts` and three more products. -/
def exProductsMore (productID : String) : Option csaf.Product :=
  if productID = "kh" then
    some { ID := productID,
           IdentificationHelper := [("purl", "pkg:rpm/redhat/kernel-headers@5.14.0-427.el9")] }
  else if productID = "python3-idle.x86_64" then
    some { ID := productID,
           IdentificationHelper :=
             [("purl", "pkg:rpm/redhat/python3-idle@3.6.8-24.el8?arch=x86_64")] }
  else if productID = "python3.aarch64" then
    some { ID := productID,
           IdentificationHelper :=
             [("purl", "pkg:rpm/redhat/python3@3.6.8-24.el8?arch=aarch64&epoch=idle-0")] }
  else exProducts productID

/-- The document `exDoc` over the relationships `exRelsMore` and the product
tree `exProductsMore`. -/
def exDocMore (id status : String) (entries : List (List String × List String))
    (score : Option csaf.Score) (threat : Option csaf.Threat) : csaf.CSAF :=
  { exDoc id status entries score threat with
    FindRelationship := exRelsMore
    FindProductByID := exProductsMore }

/-- The vulnerability entry that `exDoc` makes of a "fixed" and a
"known_affected" list. -/
def exEntry (fixed known : List String) : csaf.Vulnerability :=
  { ProductStatus := [("fixed", fixed), ("known_affected", known)]
    References := []
    Notes := [{ Category := "description", Text := "a flaw" }]
    ReleaseDate := "2024-01-01" }

/-- The creator that `DeltaParse` makes for a document that is the first of
its stream. -/
def exCreatorOf (d : csaf.CSAF) : creator :=
  newCreator d.TrackingID (selfLinkOf d) d newProductCache newRepoCache

/-- The proto record of `DeltaParse` for an entry of a document. -/
def exProtoOf (d : csaf.CSAF) (v : csaf.Vulnerability) : claircore.Vulnerability :=
  protoVuln exUpdater d.TrackingID (selfLinkOf d) v

/-- The record of the example documents with the given advisory name,
package, fixed-in version and architecture operation; threat "Moderate", no
score. -/
def exRecord (id : String) (pkg : claircore.Package) (fixedIn : String)
    (op : claircore.ArchOp) : claircore.Vulnerability :=
  { Updater := "rhel-vex"
    Name := id
    Description := "a flaw"
    Issued := "2024-01-01"
    Links := "https://example.test/" ++ id
    Severity := "Unknown"
    NormalizedSeverity := .Medium
    Package := some pkg
    Repo := some { CPE := { Attr := ["cpe:/o:redhat:enterprise_linux:9"] },
                   Name := "cpe:/o:redhat:enterprise_linux:9", Key := "rhel-cpe-repository" }
    FixedInVersion := fixedIn
    ArchOperation := op }

/-- A document for CVE-2024-0006 whose one entry names the product id
`BaseOS-9:kh` under the given status lists. -/
def exDocKernel (fixed known : List String) : csaf.CSAF :=
  exDocMore "CVE-2024-0006" "final" [(fixed, known)] none (some exThreat)

/-- A document for CVE-2024-0007 whose one entry has two "fixed" product
ids, for two different packages. -/
def exDocPython : csaf.CSAF :=
  exDocMore "CVE-2024-0007" "final"
    [(["BaseOS-9:python3-idle.x86_64", "BaseOS-9:python3.aarch64"], [])] none (some exThreat)

/-- A document for CVE-2024-0008 with two vulnerability entries: the first
has a "known_affected" product id, the second a "fixed" one. -/
def exDocTwoEntries : csaf.CSAF :=
  exDoc "CVE-2024-0008" "final"
    [([], ["BaseOS-9:bash"]), (["BaseOS-9:bash.x86_64"], [])] none (some exThreat)

/-- A document for CVE-2024-0008 with two vulnerability entries: the first
has a "known_affected" product id, the second has no product id. -/
def exDocTwoEntriesEmpty : csaf.CSAF :=
  exDoc "CVE-2024-0008" "final" [([], ["BaseOS-9:bash"]), ([], [])] none (some exThreat)

/-- A document for CVE-2024-0009 with one "fixed" product id, `bash` for
x86_64 in `BaseOS-9`. -/
def exDocBash : csaf.CSAF :=
  exDoc "CVE-2024-0009" "final" [(["BaseOS-9:bash.x86_64"], [])] none (some exThreat)

/-! ## Definitions used by the statements on the caches, and examples -/

/-- Two outcomes are of the same kind, with related values or the same
error. -/
def Res.rel {α β : Type} (R : α → β → Prop) : Res α → Res β → Prop
  | .ok a, .ok b => R a b
  | .error e, .error e2 => e = e2
  | .panic, .panic => True
  | .diverge, .diverge => True
  | _, _ => False

/-- What the repository cache of a creator answers for the CPE name that
`cpe.Unbind` makes of a string. -/
def creator.repo (env : Env) (c : creator) (wfn : cpe.WFN) : claircore.Repository :=
  (c.rc.Get env wfn).1

/-- Two creators agree on everything but the two caches, and their caches
give the same answers: for every product id, and for every CPE name that
`cpe.Unbind` returns. -/
def creator.sim (env : Env) (c c2 : creator) : Prop :=
  c.sameButCaches c2 ∧ c2.product = c.product ∧
  ∀ s wfn, env.Unbind s = .ok wfn → c2.repo env wfn = c.repo env wfn

/-- The first part of the loop body of `knownAffectedVulnerabilities` read
with the answers `product` of the product cache: what
`creator.knownAffectedResolve` leaves for the record part. -/
def knownTargetOf (env : Env) (fuel : Nat) (doc : csaf.CSAF)
    (product : String → Option csaf.Product) (pc : String) : Res (Option knownAffectedTarget) :=
  match walkRelationships fuel pc doc with
  | .diverge => .diverge
  | .panic => .panic
  | .error _ => .ok none
  | .ok (pkgName, modName, repoName) =>
    if hasPrefix pkgName "kernel" then .ok none
    else
      match product repoName with
      | none => .ok none
      | some repoProd =>
        match mapGet repoProd.IdentificationHelper "cpe" with
        | none => .ok none
        | some cpeHelper =>
          match moduleOf env product modName with
          | .diverge => .diverge
          | .panic => .panic
          | .error e => .error e
          | .ok modName1 =>
            match product pkgName with
            | none => .ok none
            | some compProd =>
              match mapGet compProd.IdentificationHelper "purl" with
              | none =>
                .ok (some { cpeHelper := cpeHelper, modName := modName1, pkgName := pkgName })
              | some purlHelper =>
                let parsed := env.FromString purlHelper
                let pkgName1 : String :=
                  match parsed.2 with
                  | some _ => pkgName
                  | none => parsed.1.Name
                if parsed.1.Typ ≠ packageurl.TypeRPM ∨ parsed.1.Namespace ≠ "redhat" then
                  .ok none
                else
                  .ok (some { cpeHelper := cpeHelper, modName := modName1, pkgName := pkgName1 })

/-- Every product that the cache holds is the entry of the product tree of
the document for its id (the nil product when the tree has none). -/
def productCache.agrees (pc : productCache) (d : csaf.CSAF) : Prop :=
  ∀ e ∈ pc.cache, e.2 = d.FindProductByID e.1

/-- Every repository that the cache holds is the one that `repoCache.Get`
builds from a CPE name of its key, for every CPE name of that key that
`cpe.Unbind` returns. -/
def repoCache.agrees (env : Env) (rc : repoCache) : Prop :=
  ∀ e ∈ rc.cache, ∀ s wfn, env.Unbind s = .ok wfn → env.wfnString wfn = e.1 →
    e.2 = { CPE := wfn, Name := env.wfnString wfn, Key := env.repoKey }

/-- A product tree that differs from `exProducts` in the CPE of
`BaseOS-9`. -/
def exProductsAlt (productID : String) : Option csaf.Product :=
  if productID = "BaseOS-9" then
    some { ID := productID,
           IdentificationHelper := [("cpe", "cpe:/a:redhat:enterprise_linux:9::appstream")] }
  else exProducts productID

/-- A document for CVE-2024-0002 like `exDocOther`, over the product tree
`exProductsAlt`. -/
def exDocAlt : csaf.CSAF :=
  { exDocOther with FindProductByID := exProductsAlt }

/-- The record of `exDocAlt` when it is aggregated alone. -/
def exAltRecord : claircore.Vulnerability :=
  { exKnownRecord "CVE-2024-0002" with
    Repo := some { CPE := { Attr := ["cpe:/a:redhat:enterprise_linux:9::appstream"] },
                   Name := "cpe:/a:redhat:enterprise_linux:9::appstream",
                   Key := "rhel-cpe-repository" } }

/-- The state in which `DeltaParse` reaches the second document of a stream
that begins with `exDocA`. -/
def exStateAfterA : parseState :=
  { out := [("CVE-2024-0001", [exKnownRecord "CVE-2024-0001"])]
    deleted := []
    pc := { cache := [("bash", exProducts "bash"), ("BaseOS-9", exProducts "BaseOS-9")] }
    rc := { cache := [("cpe:/o:redhat:enterprise_linux:9",
                       { CPE := { Attr := ["cpe:/o:redhat:enterprise_linux:9"] },
                         Name := "cpe:/o:redhat:enterprise_linux:9",
                         Key := "rhel-cpe-repository" })] } }

/-- No record in `fixedVulns` has a package whose name begins with
`kernel`. -/
def creator.noKernel (c : creator) : Prop :=
  ∀ r ∈ c.fixedVulns, ∀ pkg, r.Package = some pkg → hasPrefix pkg.Name "kernel" = false

/-- Every repository that the cache holds was built by `repoCache.Get` from
a CPE name that `cpe.Unbind` returned. -/
def repoCache.wellFormed (env : Env) (rc : repoCache) : Prop :=
  ∀ e ∈ rc.cache, ∃ s wfn, env.Unbind s = .ok wfn ∧
    e = (env.wfnString wfn, { CPE := wfn, Name := env.wfnString wfn, Key := env.repoKey })

/-- The caches of a creator hold only what lookups for its own document put
there. -/
def creator.cachesOk (env : Env) (c : creator) : Prop :=
  c.pc.agrees c.c ∧ c.rc.wellFormed env

/-! ## Examples for the architecture merge and for absent products -/

/-- A document for CVE-2024-0010 with one vulnerability entry and the given
"fixed" product ids. -/
def exDocFixed (fixed : List String) : csaf.CSAF :=
  exDoc "CVE-2024-0010" "final" [(fixed, [])] none (some exThreat)

/-- What the "fixed" product id `BaseOS-9:bash`, whose purl has no "arch"
qualifier, resolves to. -/
def exTargetNoArch : fixedTarget :=
  { repoName := "BaseOS-9"
    cpeHelper := "cpe:/o:redhat:enterprise_linux:9"
    modName := ""
    purl := { Typ := "rpm", Namespace := "redhat", Name := "bash", Version := "5.1.8-6.el9",
              Qualifiers := [], Subpath := "" } }

/-- The "fixed" product ids of `bash` in `BaseOS-9` for x86_64 and aarch64,
with the id whose purl has no "arch" qualifier between them. -/
def exIdsNoArchBetween : List String :=
  ["BaseOS-9:bash.x86_64", "BaseOS-9:bash", "BaseOS-9:bash.aarch64"]

/-- The "fixed" product ids of `bash` in `BaseOS-9` for x86_64 and aarch64,
with the id whose purl has no "arch" qualifier after them. -/
def exIdsNoArchLast : List String :=
  ["BaseOS-9:bash.x86_64", "BaseOS-9:bash.aarch64", "BaseOS-9:bash"]

/-- The relationships of a package in a module in a repository: the product
id `AppStream-9:postgresql:15:postgresql` is `postgresql` in
`AppStream-9:postgresql:15`, which is `postgresql:15` in `AppStream-9`. -/
def exRelsModule (productID category : String) : Option csaf.Relationship :=
  if category = "default_component_of" ∧ productID = "AppStream-9:postgresql:15:postgresql" then
    some { Category := category, ProductRef := "postgresql",
           RelatesToProductRef := "AppStream-9:postgresql:15" }
  else if category = "default_component_of" ∧ productID = "AppStream-9:postgresql:15" then
    some { Category := category, ProductRef := "postgresql:15",
           RelatesToProductRef := "AppStream-9" }
  else none

/-- The product id of the package `postgresql` of the module `postgresql:15`
in the repository `AppStream-9`. -/
def exModuleID : String := "AppStream-9:postgresql:15:postgresql"

/-- A product tree with the repository `AppStream-9`, the module
`postgresql:15` and the package `postgresql`, without the entry of the product
id `absent`. -/
def exProductsModule (absent productID : String) : Option csaf.Product :=
  if productID = absent then none
  else if productID = "AppStream-9" then
    some { ID := productID,
           IdentificationHelper := [("cpe", "cpe:/a:redhat:enterprise_linux:9::appstream")] }
  else if productID = "postgresql:15" then
    some { ID := productID,
           IdentificationHelper :=
             [("purl", "pkg:rpmmod/redhat/postgresql@15:8080020230822203025:63b34585")] }
  else if productID = "postgresql" then
    some { ID := productID, IdentificationHelper := [("purl", "pkg:rpm/redhat/postgresql@15")] }
  else none

/-- A document for CVE-2024-0011 over `exRelsModule` and the product tree
without the entry of `absent`, with one vulnerability entry of the given
"fixed" and "known_affected" product ids. -/
def exDocModule (absent : String) (fixed known : List String) : csaf.CSAF :=
  { exDoc "CVE-2024-0011" "final" [(fixed, known)] none (some exThreat) with
    FindRelationship := exRelsModule
    FindProductByID := exProductsModule absent }

/-- The record of `exDocModule` for the package `postgresql` of the module
`postgresql:15` in `AppStream-9`. -/
def exModuleRecord (kind : claircore.PackageKind) (fixedIn : String) : claircore.Vulnerability :=
  { exRecord "CVE-2024-0011"
      { Name := "postgresql", Kind := kind, Module := "postgresql:15", Arch := "" }
      fixedIn .unset with
    Repo := some { CPE := { Attr := ["cpe:/a:redhat:enterprise_linux:9::appstream"] },
                   Name := "cpe:/a:redhat:enterprise_linux:9::appstream",
                   Key := "rhel-cpe-repository" } }

/-- The "fixed" product id `pc` passes the filters with what `t` says, for
the document `doc` and the answers `product` of the product cache, under the
dedup key `key` and with an architecture. -/
def resolvesWithArch (env : Env) (fuel : Nat) (doc : csaf.CSAF)
    (product : String → Option csaf.Product) (key : String) (pc : String) (t : fixedTarget) :
    Prop :=
  fixedTargetOf env fuel doc product pc = .ok (some t) ∧ t.vulnKey = key ∧ t.arch ≠ ""

/-! ## The relationship walker: lemmas -/

theorem extractProductNames_succ (fuel : Nat) (p r : String) (comps : List String) (c : csaf.CSAF) :
    extractProductNames (fuel + 1) p r comps c
      = (expandSide fuel p comps c).bind (fun comps1 => expandSide fuel r comps1 c) := by
  simp only [extractProductNames, expandSide]
  cases c.FindRelationship p "default_component_of" <;>
    cases c.FindRelationship r "default_component_of" <;> simp [Option.bind] <;>
    split <;> simp_all

theorem extractProductNames_mono (c : csaf.CSAF) :
    ∀ (fuel : Nat) (p r : String) (comps out : List String),
      extractProductNames fuel p r comps c = some out →
      extractProductNames (fuel + 1) p r comps c = some out := by
  intro fuel
  induction fuel with
  | zero => intro p r comps out h; simp [extractProductNames] at h
  | succ n ih =>
    intro p r comps out h
    rw [extractProductNames_succ] at h ⊢
    have side : ∀ x cs o, expandSide n x cs c = some o → expandSide (n + 1) x cs c = some o := by
      intro x cs o hx
      unfold expandSide at hx ⊢
      cases hf : c.FindRelationship x "default_component_of" with
      | none => simpa [hf] using hx
      | some rel =>
        simp only [hf] at hx ⊢
        exact ih _ _ _ _ hx
    cases h1 : expandSide n p comps c with
    | none => simp [h1] at h
    | some comps1 =>
      simp only [h1, Option.some_bind] at h
      simp only [side _ _ _ h1, Option.some_bind]
      exact side _ _ _ h

theorem extractProductNames_mono_le (c : csaf.CSAF) (fuel fuel' : Nat) (hle : fuel ≤ fuel')
    (p r : String) (comps out : List String)
    (h : extractProductNames fuel p r comps c = some out) :
    extractProductNames fuel' p r comps c = some out := by
  induction hle with
  | refl => exact h
  | step _ ih => exact extractProductNames_mono c _ _ _ _ _ ih

theorem Leaves.ne_nil {c : csaf.CSAF} {x : String} {l : List String} (h : Leaves c x l) :
    l ≠ [] := by
  induction h with
  | leaf x _ => simp
  | node x rel l r _ _ _ ihl _ => simp [ihl]

theorem Leaves.unique {c : csaf.CSAF} {x : String} {l l' : List String}
    (h : Leaves c x l) (h' : Leaves c x l') : l = l' := by
  induction h generalizing l' with
  | leaf x hx =>
    cases h' with
    | leaf _ _ => rfl
    | node _ rel _ _ hrel _ _ => simp [hx] at hrel
  | node x rel l r hrel _ _ ihl ihr =>
    cases h' with
    | leaf _ hx => simp [hrel] at hx
    | node _ rel' l2 r2 hrel' hl' hr' =>
      have : rel = rel' := by simpa [hrel] using hrel'
      subst this
      rw [ihl hl', ihr hr']

theorem Leaves.exists_of_acyclic {c : csaf.CSAF} (hac : Acyclic c) (x : String) :
    ∃ l, Leaves c x l := by
  induction x using hac.induction with
  | _ x ih =>
    cases hf : c.FindRelationship x "default_component_of" with
    | none => exact ⟨[x], Leaves.leaf x hf⟩
    | some rel =>
      obtain ⟨l, hl⟩ := ih rel.ProductRef ⟨rel, hf, Or.inl rfl⟩
      obtain ⟨r, hr⟩ := ih rel.RelatesToProductRef ⟨rel, hf, Or.inr rfl⟩
      exact ⟨l ++ r, Leaves.node x rel l r hf hl hr⟩

theorem expandSide_of_leaves {c : csaf.CSAF} {x : String} {l : List String} (h : Leaves c x l) :
    ∃ n, ∀ fuel, n ≤ fuel → ∀ comps, expandSide fuel x comps c = some (comps ++ l) := by
  induction h with
  | leaf x hx => exact ⟨0, fun fuel _ comps => by simp [expandSide, hx]⟩
  | node x rel l r hrel _ _ ihl ihr =>
    obtain ⟨n1, h1⟩ := ihl
    obtain ⟨n2, h2⟩ := ihr
    refine ⟨max n1 n2 + 1, fun fuel hfuel comps => ?_⟩
    obtain ⟨f, rfl⟩ : ∃ f, fuel = f + 1 := ⟨fuel - 1, by omega⟩
    have hf1 : n1 ≤ f := by have := le_max_left n1 n2; omega
    have hf2 : n2 ≤ f := by have := le_max_right n1 n2; omega
    simp only [expandSide, hrel]
    rw [extractProductNames_succ, h1 f hf1, Option.some_bind, h2 f hf2, List.append_assoc]

theorem extractProductNames_of_leaves {c : csaf.CSAF} {p r : String} {lp lr : List String}
    (hp : Leaves c p lp) (hr : Leaves c r lr) :
    ∃ n, ∀ fuel, n ≤ fuel → ∀ comps,
      extractProductNames fuel p r comps c = some (comps ++ lp ++ lr) := by
  obtain ⟨n1, h1⟩ := expandSide_of_leaves hp
  obtain ⟨n2, h2⟩ := expandSide_of_leaves hr
  refine ⟨max n1 n2 + 1, fun fuel hfuel comps => ?_⟩
  obtain ⟨f, rfl⟩ : ∃ f, fuel = f + 1 := ⟨fuel - 1, by omega⟩
  have hf1 : n1 ≤ f := by have := le_max_left n1 n2; omega
  have hf2 : n2 ≤ f := by have := le_max_right n1 n2; omega
  rw [extractProductNames_succ, h1 f hf1, Option.some_bind, h2 f hf2]

/-- Whatever the table, a list returned by `extractProductNames` has at least
two more elements than the list it started with. -/
theorem extractProductNames_length (c : csaf.CSAF) :
    ∀ (fuel : Nat) (p r : String) (comps out : List String),
      extractProductNames fuel p r comps c = some out → comps.length + 2 ≤ out.length := by
  intro fuel
  induction fuel with
  | zero => intro p r comps out h; simp [extractProductNames] at h
  | succ n ih =>
    intro p r comps out h
    rw [extractProductNames_succ] at h
    have side : ∀ x cs o, expandSide n x cs c = some o → cs.length + 1 ≤ o.length := by
      intro x cs o hx
      unfold expandSide at hx
      cases hf : c.FindRelationship x "default_component_of" with
      | none =>
        simp only [hf, Option.some.injEq] at hx
        subst hx
        simp
      | some rel =>
        simp only [hf] at hx
        have := ih _ _ _ _ hx
        omega
    cases h1 : expandSide n p comps c with
    | none => simp [h1] at h
    | some comps1 =>
      simp only [h1, Option.some_bind] at h
      have := side _ _ _ h1
      have := side _ _ _ h
      omega

/-! ## Claims on the relationship walker -/

/-- A table along which a rank of the ids decreases is acyclic. -/
theorem Acyclic.of_rank (c : csaf.CSAF) (rank : String → Nat)
    (h : ∀ x rel, c.FindRelationship x "default_component_of" = some rel →
      rank rel.ProductRef < rank x ∧ rank rel.RelatesToProductRef < rank x) :
    Acyclic c := by
  refine Subrelation.wf ?_ (InvImage.wf rank Nat.lt_wfRel.wf)
  rintro y x ⟨rel, hrel, hy⟩
  show rank y < rank x
  rcases hy with rfl | rfl
  · exact (h x rel hrel).1
  · exact (h x rel hrel).2

theorem exWalkDoc_acyclic : Acyclic exWalkDoc := by
  refine Acyclic.of_rank _ String.length ?_
  intro x rel hrel
  simp only [exWalkDoc, exRelationships] at hrel
  split_ifs at hrel <;> simp at hrel <;> subst hrel <;> subst_vars <;> decide

theorem walkRelationships_of_extract {c : csaf.CSAF} {productID : String}
    {rel : csaf.Relationship} {fuel : Nat} {L : List String}
    (hrel : c.FindRelationship productID "default_component_of" = some rel)
    (hL : extractProductNames fuel rel.ProductRef rel.RelatesToProductRef [] c = some L) :
    walkRelationships fuel productID c =
      if L.length = 2 then .ok (L.getD 0 "", "", L.getD 1 "")
      else if L.length > 2 then
        .ok (L.getD 0 "", L.getD (L.length - 2) "", L.getD (L.length - 1) "")
      else .error (.errorf "cannot determine relationships for %q" [productID]) := by
  simp only [walkRelationships, hrel, hL]

theorem list_shape_of_two_lt (L : List String) (h : 2 < L.length) :
    ∃ a mid m r, L = a :: (mid ++ [m, r]) ∧ L.getD 0 "" = a ∧
      L.getD (L.length - 2) "" = m ∧ L.getD (L.length - 1) "" = r := by
  obtain ⟨a, rest, rfl⟩ : ∃ a rest, L = a :: rest := by
    cases L with
    | nil => simp at h
    | cons a rest => exact ⟨a, rest, rfl⟩
  have hrest : 2 ≤ rest.length := by simp at h; omega
  obtain ⟨init, r, rfl⟩ : ∃ init r, rest = init ++ [r] := by
    refine ⟨rest.dropLast, rest.getLast (by intro h; simp [h] at hrest), ?_⟩
    exact (List.dropLast_append_getLast _).symm
  have hinit : 1 ≤ init.length := by simp at hrest; omega
  obtain ⟨mid, m, rfl⟩ : ∃ mid m, init = mid ++ [m] := by
    refine ⟨init.dropLast, init.getLast (by intro h; simp [h] at hinit), ?_⟩
    exact (List.dropLast_append_getLast _).symm
  refine ⟨a, mid, m, r, by simp, by simp, ?_, ?_⟩
  · have e : (a :: (mid ++ [m] ++ [r])).length - 2 = mid.length + 1 := by simp
    rw [e, List.getD_cons_succ, List.append_assoc,
      List.getD_append_right _ _ _ _ (le_refl _)]
    simp
  · have e : (a :: (mid ++ [m] ++ [r])).length - 1 = (mid ++ [m]).length + 1 := by simp
    rw [e, List.getD_cons_succ, List.getD_append_right _ _ _ _ (le_refl _)]
    simp

/-- C1: in a document with an acyclic relationship table, for a product id
that has a "default_component_of" relationship, `extractProductNames` returns
a list L for that relationship once the recursion bound is large enough, and
`walkRelationships` returns (L[0], "", L[1]) when L has exactly two elements
and (L[0], L[len-2], L[len-1]) when it has more than two. -/
theorem walkRelationships_classifies (c : csaf.CSAF) (hac : Acyclic c) (productID : String)
    (rel : csaf.Relationship)
    (hrel : c.FindRelationship productID "default_component_of" = some rel) :
    ∃ (L : List String) (n : Nat),
      (∀ fuel, n ≤ fuel →
        extractProductNames fuel rel.ProductRef rel.RelatesToProductRef [] c = some L) ∧
      (L.length = 2 → ∃ a b, L = [a, b] ∧
        ∀ fuel, n ≤ fuel → walkRelationships fuel productID c = .ok (a, "", b)) ∧
      (2 < L.length → ∃ a mid m r, L = a :: (mid ++ [m, r]) ∧
        ∀ fuel, n ≤ fuel → walkRelationships fuel productID c = .ok (a, m, r)) := by
  obtain ⟨lp, hp⟩ := Leaves.exists_of_acyclic hac rel.ProductRef
  obtain ⟨lr, hr⟩ := Leaves.exists_of_acyclic hac rel.RelatesToProductRef
  obtain ⟨n, hn⟩ := extractProductNames_of_leaves hp hr
  obtain ⟨L, hLdef⟩ : ∃ L, L = [] ++ lp ++ lr := ⟨_, rfl⟩
  have hext : ∀ fuel, n ≤ fuel →
      extractProductNames fuel rel.ProductRef rel.RelatesToProductRef [] c = some L := by
    intro fuel hfuel
    rw [hLdef]
    exact hn fuel hfuel []
  refine ⟨L, n, hext, ?_, ?_⟩
  · intro hlen
    match L, hlen, hext with
    | [a, b], _, hext =>
      refine ⟨a, b, rfl, fun fuel hfuel => ?_⟩
      rw [walkRelationships_of_extract hrel (hext fuel hfuel)]
      simp
  · intro hlen
    obtain ⟨a, mid, m, r, hshape, h0, h1, h2⟩ := list_shape_of_two_lt L hlen
    refine ⟨a, mid, m, r, hshape, fun fuel hfuel => ?_⟩
    rw [walkRelationships_of_extract hrel (hext fuel hfuel)]
    have hne : ¬ L.length = 2 := by omega
    simp only [hne, if_false, gt_iff_lt, hlen, if_true, h0, h1, h2]

/-- C1 at the table of the documentation of `extractProductNames`: a chain
of three gives (first, middle, last), a chain of two (package, "", repo). -/
theorem walkRelationships_classifies_witness :
    Acyclic exWalkDoc ∧
    exWalkDoc.FindRelationship "a_repo:a_module:a_pkg" "default_component_of"
      = some { Category := "default_component_of", ProductRef := "a_pkg",
               RelatesToProductRef := "a_repo:a_module" } ∧
    walkRelationships 2 "a_repo:a_module:a_pkg" exWalkDoc = .ok ("a_pkg", "a_module", "a_repo") ∧
    walkRelationships 1 "repo:pkg" exWalkDoc = .ok ("pkg", "", "repo") ∧
    ∃ (L : List String) (n : Nat),
      (∀ fuel, n ≤ fuel → extractProductNames fuel "a_pkg" "a_repo:a_module" [] exWalkDoc = some L) ∧
      (L.length = 2 → ∃ a b, L = [a, b] ∧
        ∀ fuel, n ≤ fuel → walkRelationships fuel "a_repo:a_module:a_pkg" exWalkDoc = .ok (a, "", b)) ∧
      (2 < L.length → ∃ a mid m r, L = a :: (mid ++ [m, r]) ∧
        ∀ fuel, n ≤ fuel →
          walkRelationships fuel "a_repo:a_module:a_pkg" exWalkDoc = .ok (a, m, r)) :=
  ⟨exWalkDoc_acyclic, by decide, by decide, by decide,
    walkRelationships_classifies exWalkDoc exWalkDoc_acyclic "a_repo:a_module:a_pkg"
      { Category := "default_component_of", ProductRef := "a_pkg",
        RelatesToProductRef := "a_repo:a_module" } (by decide)⟩

/-- C2: in a document with an acyclic relationship table `walkRelationships`
returns an error exactly when the product id has no "default_component_of"
relationship (whatever the recursion bound); when there is one it returns
a triple once the bound is large enough, and the error "cannot determine
relationships" of the branch for fewer than two components is never
returned. -/
theorem walkRelationships_error_iff (c : csaf.CSAF) (hac : Acyclic c) (productID : String) :
    (∀ fuel, (∃ e, walkRelationships fuel productID c = .error e) ↔
      c.FindRelationship productID "default_component_of" = none) ∧
    (c.FindRelationship productID "default_component_of" ≠ none →
      ∃ n, ∀ fuel, n ≤ fuel → ∃ t, walkRelationships fuel productID c = .ok t) ∧
    (∀ fuel, walkRelationships fuel productID c ≠
      .error (.errorf "cannot determine relationships for %q" [productID])) := by
  have key : ∀ fuel rel, c.FindRelationship productID "default_component_of" = some rel →
      walkRelationships fuel productID c = .diverge ∨
        ∃ t, walkRelationships fuel productID c = .ok t := by
    intro fuel rel hrel
    cases hL : extractProductNames fuel rel.ProductRef rel.RelatesToProductRef [] c with
    | none => left; simp [walkRelationships, hrel, hL]
    | some L =>
      right
      have hlen := extractProductNames_length c _ _ _ _ _ hL
      rw [walkRelationships_of_extract hrel hL]
      by_cases h2 : L.length = 2
      · exact ⟨_, if_pos h2⟩
      · have hgt : L.length > 2 := by simp at hlen; omega
        rw [if_neg h2, if_pos hgt]
        exact ⟨_, rfl⟩
  refine ⟨fun fuel => ⟨?_, ?_⟩, ?_, ?_⟩
  · rintro ⟨e, he⟩
    cases hrel : c.FindRelationship productID "default_component_of" with
    | none => rfl
    | some rel =>
      rcases key fuel rel hrel with h | ⟨t, h⟩ <;> rw [h] at he <;> cases he
  · intro hnone
    exact ⟨.errorf "cannot determine initial relationship for %q" [productID],
      by simp [walkRelationships, hnone]⟩
  · intro hne
    cases hrel : c.FindRelationship productID "default_component_of" with
    | none => exact absurd hrel hne
    | some rel =>
      obtain ⟨lp, hp⟩ := Leaves.exists_of_acyclic hac rel.ProductRef
      obtain ⟨lr, hr⟩ := Leaves.exists_of_acyclic hac rel.RelatesToProductRef
      obtain ⟨n, hn⟩ := extractProductNames_of_leaves hp hr
      refine ⟨n, fun fuel hfuel => ?_⟩
      rcases key fuel rel hrel with h | h
      · simp [walkRelationships, hrel, hn fuel hfuel []] at h
        split_ifs at h
      · exact h
  · intro fuel he
    cases hrel : c.FindRelationship productID "default_component_of" with
    | none => simp [walkRelationships, hrel] at he
    | some rel =>
      rcases key fuel rel hrel with h | ⟨t, h⟩ <;> rw [h] at he <;> cases he

/-- C2 at the example table: an id without relationship fails, `repo:pkg`
succeeds. -/
theorem walkRelationships_error_iff_witness :
    Acyclic exWalkDoc ∧
    walkRelationships 0 "no_such_product" exWalkDoc
      = .error (.errorf "cannot determine initial relationship for %q" ["no_such_product"]) ∧
    walkRelationships 1 "repo:pkg" exWalkDoc = .ok ("pkg", "", "repo") ∧
    ((∀ fuel, (∃ e, walkRelationships fuel "repo:pkg" exWalkDoc = .error e) ↔
      exWalkDoc.FindRelationship "repo:pkg" "default_component_of" = none) ∧
    (exWalkDoc.FindRelationship "repo:pkg" "default_component_of" ≠ none →
      ∃ n, ∀ fuel, n ≤ fuel → ∃ t, walkRelationships fuel "repo:pkg" exWalkDoc = .ok t) ∧
    (∀ fuel, walkRelationships fuel "repo:pkg" exWalkDoc ≠
      .error (.errorf "cannot determine relationships for %q" ["repo:pkg"]))) :=
  ⟨exWalkDoc_acyclic, by decide, by decide,
    walkRelationships_error_iff exWalkDoc exWalkDoc_acyclic "repo:pkg"⟩

/-- C3: for an acyclic relationship table `extractProductNames` returns, once
the recursion bound is large enough, `comps ++ leaves(prodRef) ++
leaves(relatesToProdRef)`, where the leaves of an id are the id itself when
it has no "default_component_of" relationship and otherwise the leaves of the
relationship's product reference followed by those of its relates-to
reference; the two leaf lists exist and are unique, and no bound makes it
return anything else. -/
theorem extractProductNames_eq_leaves (c : csaf.CSAF) (hac : Acyclic c)
    (prodRef relatesToProdRef : String) (comps : List String) :
    ∃ lp lr, Leaves c prodRef lp ∧ Leaves c relatesToProdRef lr ∧
      (∀ lp', Leaves c prodRef lp' → lp' = lp) ∧
      (∀ lr', Leaves c relatesToProdRef lr' → lr' = lr) ∧
      (∃ n, ∀ fuel, n ≤ fuel →
        extractProductNames fuel prodRef relatesToProdRef comps c = some (comps ++ lp ++ lr)) ∧
      (∀ fuel out, extractProductNames fuel prodRef relatesToProdRef comps c = some out →
        out = comps ++ lp ++ lr) := by
  obtain ⟨lp, hp⟩ := Leaves.exists_of_acyclic hac prodRef
  obtain ⟨lr, hr⟩ := Leaves.exists_of_acyclic hac relatesToProdRef
  obtain ⟨n, hn⟩ := extractProductNames_of_leaves hp hr
  refine ⟨lp, lr, hp, hr, fun _ h => Leaves.unique h hp, fun _ h => Leaves.unique h hr,
    ⟨n, fun fuel hfuel => hn fuel hfuel comps⟩, fun fuel out hout => ?_⟩
  have h1 := extractProductNames_mono_le c fuel (max fuel n) (le_max_left _ _) _ _ _ _ hout
  rw [hn (max fuel n) (le_max_right _ _) comps] at h1
  exact (Option.some.inj h1).symm

/-- C3 at the example of the documentation of `extractProductNames`:
`a_pkg` and `a_repo:a_module` give a_pkg, a_module, a_repo. -/
theorem extractProductNames_eq_leaves_witness :
    Acyclic exWalkDoc ∧
    exWalkDoc.FindRelationship "a_repo:a_module" "default_component_of"
      = some { Category := "default_component_of", ProductRef := "a_module",
               RelatesToProductRef := "a_repo" } ∧
    extractProductNames 2 "a_pkg" "a_repo:a_module" [] exWalkDoc
      = some ["a_pkg", "a_module", "a_repo"] ∧
    ∃ lp lr, Leaves exWalkDoc "a_pkg" lp ∧ Leaves exWalkDoc "a_repo:a_module" lr ∧
      (∀ lp', Leaves exWalkDoc "a_pkg" lp' → lp' = lp) ∧
      (∀ lr', Leaves exWalkDoc "a_repo:a_module" lr' → lr' = lr) ∧
      (∃ n, ∀ fuel, n ≤ fuel →
        extractProductNames fuel "a_pkg" "a_repo:a_module" [] exWalkDoc = some ([] ++ lp ++ lr)) ∧
      (∀ fuel out, extractProductNames fuel "a_pkg" "a_repo:a_module" [] exWalkDoc = some out →
        out = [] ++ lp ++ lr) :=
  ⟨exWalkDoc_acyclic, by decide, by decide,
    extractProductNames_eq_leaves exWalkDoc exWalkDoc_acyclic "a_pkg" "a_repo:a_module" []⟩

/-! ## Maps as association lists -/

theorem mapGet_filter_ne {V : Type} (m : List (String × V)) (k k' : String) (h : k ≠ k') :
    mapGet (m.filter (fun e => decide (e.1 ≠ k))) k' = mapGet m k' := by
  induction m with
  | nil => rfl
  | cons e rest ih =>
    obtain ⟨a, v⟩ := e
    simp only [ne_eq, decide_not] at ih
    by_cases hak : a = k
    · subst hak
      simp [List.filter, mapGet, h, ih]
    · simp [List.filter, mapGet, hak, ih]

theorem mapGet_mapSet {V : Type} (m : List (String × V)) (k k' : String) (v : V) :
    mapGet (mapSet m k v) k' = if k = k' then some v else mapGet m k' := by
  unfold mapSet
  by_cases h : k = k'
  · simp [mapGet, h]
  · simp only [mapGet, h, if_false]
    exact mapGet_filter_ne m k k' h

theorem mapSet_mapSet {V : Type} (m : List (String × V)) (k : String) (a b : V) :
    mapSet (mapSet m k a) k b = mapSet m k b := by
  simp [mapSet, List.filter_filter]

theorem mem_mapSet {V : Type} (m : List (String × V)) (k : String) (v : V) (e : String × V) :
    e ∈ mapSet m k v ↔ e = (k, v) ∨ (e ∈ m ∧ e.1 ≠ k) := by
  simp [mapSet, List.mem_filter]

theorem mapSet_keys_nodup {V : Type} (m : List (String × V)) (k : String) (v : V)
    (h : (m.map Prod.fst).Nodup) : ((mapSet m k v).map Prod.fst).Nodup := by
  unfold mapSet
  rw [List.map_cons, List.nodup_cons]
  constructor
  · intro hmem
    obtain ⟨e, he, hek⟩ := List.mem_map.mp hmem
    have := (List.mem_filter.mp he).2
    simp at this
    exact this hek
  · exact (h.sublist (List.Sublist.map _ (List.filter_sublist _)))

theorem mapGet_eq_none_of_not_mem {V : Type} (m : List (String × V)) (k : String)
    (h : k ∉ m.map Prod.fst) : mapGet m k = none := by
  induction m with
  | nil => rfl
  | cons e rest ih =>
    obtain ⟨a, v⟩ := e
    simp only [List.map_cons, List.mem_cons, not_or] at h
    simp only [mapGet]
    rw [if_neg (fun hh => h.1 hh.symm)]
    exact ih h.2

theorem mapGet_eq_some_iff_mem {V : Type} (m : List (String × V)) (k : String) (v : V)
    (h : (m.map Prod.fst).Nodup) : mapGet m k = some v ↔ (k, v) ∈ m := by
  induction m with
  | nil => simp [mapGet]
  | cons e rest ih =>
    obtain ⟨a, w⟩ := e
    rw [List.map_cons, List.nodup_cons] at h
    simp only [mapGet, List.mem_cons, Prod.mk.injEq]
    by_cases hak : a = k
    · subst hak
      simp only [if_true, Option.some.injEq, true_and]
      constructor
      · intro hw; exact Or.inl hw.symm
      · rintro (hw | hmem)
        · exact hw.symm
        · exact absurd (List.mem_map.mpr ⟨(a, v), hmem, rfl⟩) h.1
    · rw [if_neg hak, ih h.2]
      constructor
      · intro hmem; exact Or.inr hmem
      · rintro (⟨hka, _⟩ | hmem)
        · exact absurd hka.symm hak
        · exact hmem

theorem mapGet_perm {V : Type} (m m' : List (String × V)) (hp : m'.Perm m)
    (h : (m.map Prod.fst).Nodup) (k : String) : mapGet m' k = mapGet m k := by
  have h' : (m'.map Prod.fst).Nodup := (hp.map Prod.fst).nodup_iff.mpr h
  cases hg : mapGet m k with
  | some v =>
    rw [mapGet_eq_some_iff_mem m' k v h']
    exact hp.mem_iff.mpr ((mapGet_eq_some_iff_mem m k v h).mp hg)
  | none =>
    cases hg' : mapGet m' k with
    | none => rfl
    | some v =>
      have := (mapGet_eq_some_iff_mem m k v h).mpr
        (hp.mem_iff.mp ((mapGet_eq_some_iff_mem m' k v h').mp hg'))
      rw [hg] at this
      cases this

/-! ## What the parts of the aggregator leave unchanged -/

theorem creator.sameButPc_refl (c : creator) : c.sameButPc c :=
  ⟨rfl, rfl, rfl, rfl, rfl, rfl⟩

theorem creator.sameButPc_trans {c c' c'' : creator} (h : c.sameButPc c')
    (h' : c'.sameButPc c'') : c.sameButPc c'' := by
  obtain ⟨a1, a2, a3, a4, a5, a6⟩ := h
  obtain ⟨b1, b2, b3, b4, b5, b6⟩ := h'
  exact ⟨b1.trans a1, b2.trans a2, b3.trans a3, b4.trans a4, b5.trans a5, b6.trans a6⟩

theorem creator.sameButPc_toCaches {c c' : creator} (h : c.sameButPc c') : c.sameButCaches c' :=
  ⟨h.1, h.2.1, h.2.2.1, h.2.2.2.1, h.2.2.2.2.1⟩

theorem creator.sameButCaches_refl (c : creator) : c.sameButCaches c :=
  ⟨rfl, rfl, rfl, rfl, rfl⟩

theorem creator.sameButCaches_trans {c c' c'' : creator} (h : c.sameButCaches c')
    (h' : c'.sameButCaches c'') : c.sameButCaches c'' := by
  obtain ⟨a1, a2, a3, a4, a5⟩ := h
  obtain ⟨b1, b2, b3, b4, b5⟩ := h'
  exact ⟨b1.trans a1, b2.trans a2, b3.trans a3, b4.trans a4, b5.trans a5⟩

theorem creator.packageModule_frame {env : Env} {c c' : creator} {modName m : String}
    (h : c.packageModule env modName = .ok (m, c')) : c.sameButPc c' := by
  unfold creator.packageModule at h
  split at h
  · dsimp only at h
    split at h <;> simp at h <;> obtain ⟨_, rfl⟩ := h <;> exact ⟨rfl, rfl, rfl, rfl, rfl, rfl⟩
  · simp at h
    obtain ⟨_, rfl⟩ := h
    exact creator.sameButPc_refl _

theorem creator.fixedResolve_frame {env : Env} {fuel : Nat} {c c' : creator} {pc : String}
    {t : Option fixedTarget} (h : c.fixedResolve env fuel pc = .ok (c', t)) :
    c.sameButPc c' := by
  unfold creator.fixedResolve at h
  repeat' (first | (dsimp only at h; split at h) | split at h)
  all_goals try (cases h; done)
  all_goals
    simp only [Res.ok.injEq, Prod.mk.injEq] at h
    obtain ⟨rfl, _⟩ := h
    first
    | exact ⟨rfl, rfl, rfl, rfl, rfl, rfl⟩
    | (have hm := creator.packageModule_frame (by assumption)
       exact ⟨hm.1, hm.2.1, hm.2.2.1, hm.2.2.2.1, hm.2.2.2.2.1, hm.2.2.2.2.2⟩)

theorem creator.knownAffectedResolve_frame {env : Env} {fuel : Nat} {c c' : creator}
    {pc : String} {t : Option knownAffectedTarget}
    (h : c.knownAffectedResolve env fuel pc = .ok (c', t)) : c.sameButPc c' := by
  unfold creator.knownAffectedResolve at h
  repeat' (first | (dsimp only at h; split at h) | split at h)
  all_goals try (cases h; done)
  all_goals
    simp only [Res.ok.injEq, Prod.mk.injEq] at h
    obtain ⟨rfl, _⟩ := h
    first
    | exact ⟨rfl, rfl, rfl, rfl, rfl, rfl⟩
    | (have hm := creator.packageModule_frame (by assumption)
       exact ⟨hm.1, hm.2.1, hm.2.2.1, hm.2.2.2.1, hm.2.2.2.2.1, hm.2.2.2.2.2⟩)

theorem withSeverity_fields {env : Env} {vulnLink : String} {sc : Option csaf.Score}
    {vuln vuln2 : claircore.Vulnerability}
    (h : withSeverity env vulnLink sc vuln = .ok vuln2) :
    vuln2.Name = vuln.Name ∧ vuln2.Package = vuln.Package ∧ vuln2.Repo = vuln.Repo ∧
    vuln2.FixedInVersion = vuln.FixedInVersion ∧ vuln2.ArchOperation = vuln.ArchOperation ∧
    vuln2.Links = vuln.Links ∧ vuln2.NormalizedSeverity = vuln.NormalizedSeverity := by
  unfold withSeverity at h
  repeat' split at h
  all_goals try (cases h; done)
  all_goals
    simp only [Except.ok.injEq] at h
    subst h
    exact ⟨rfl, rfl, rfl, rfl, rfl, rfl, rfl⟩

theorem creator.knownAffectedRecord_frame {env : Env} {c c2 : creator}
    {proto : claircore.Vulnerability} {pc : String} {t : knownAffectedTarget}
    {r : Option claircore.Vulnerability}
    (h : c.knownAffectedRecord env proto pc t = .ok (c2, r)) :
    c.sameButCaches c2 ∧ c2.pc = c.pc ∧ ∀ v, r = some v → v.Name = proto.Name := by
  unfold creator.knownAffectedRecord at h
  repeat' (first | (dsimp only at h; split at h) | split at h)
  all_goals try (cases h; done)
  all_goals
    simp only [Res.ok.injEq, Prod.mk.injEq] at h
    obtain ⟨rfl, rfl⟩ := h
    refine ⟨⟨rfl, rfl, rfl, rfl, rfl⟩, rfl, ?_⟩
    intro v hv
    have hs := (withSeverity_fields (by assumption)).1
    first
    | cases hv; done
    | (simp only [Option.some.injEq] at hv
       subst hv
       exact hs)

theorem creator.knownAffectedEntry_frame {env : Env} {fuel : Nat} {c c2 : creator}
    {proto : claircore.Vulnerability} {pc : String} {r : Option claircore.Vulnerability}
    (h : c.knownAffectedEntry env fuel proto pc = .ok (c2, r)) :
    c.sameButCaches c2 ∧ ∀ v, r = some v → v.Name = proto.Name := by
  unfold creator.knownAffectedEntry at h
  split at h
  · cases h
  · cases h
  · cases h
  · rename_i c3 hres
    simp only [Res.ok.injEq, Prod.mk.injEq] at h
    obtain ⟨rfl, rfl⟩ := h
    exact ⟨creator.sameButPc_toCaches (creator.knownAffectedResolve_frame hres), fun v hv => by cases hv⟩
  · rename_i c3 t hres
    have h1 := creator.sameButPc_toCaches (creator.knownAffectedResolve_frame hres)
    have h2 := creator.knownAffectedRecord_frame h
    exact ⟨creator.sameButCaches_trans h1 h2.1, h2.2.2⟩

theorem creator.knownAffectedLoop_frame {env : Env} {fuel : Nat}
    {proto : claircore.Vulnerability} (n : String) (hproto : proto.Name = n) :
    ∀ (ids : List String) (c c2 : creator) (out out2 : List claircore.Vulnerability),
      creator.knownAffectedLoop env fuel proto ids c out = .ok (c2, out2) →
      (∀ r ∈ out, r.Name = n) →
      c.sameButCaches c2 ∧ ∀ r ∈ out2, r.Name = n := by
  intro ids
  induction ids with
  | nil =>
    intro c c2 out out2 h hout
    simp only [creator.knownAffectedLoop, Res.ok.injEq, Prod.mk.injEq] at h
    obtain ⟨rfl, rfl⟩ := h
    exact ⟨creator.sameButCaches_refl _, hout⟩
  | cons pc rest ih =>
    intro c c2 out out2 h hout
    simp only [creator.knownAffectedLoop] at h
    split at h
    · rename_i c1 he
      have h1 := creator.knownAffectedEntry_frame he
      have h2 := ih _ _ _ _ h hout
      exact ⟨creator.sameButCaches_trans h1.1 h2.1, h2.2⟩
    · rename_i c1 vuln he
      have h1 := creator.knownAffectedEntry_frame he
      have hout1 : ∀ r ∈ out ++ [vuln], r.Name = n := by
        intro r hr
        rcases List.mem_append.mp hr with hr | hr
        · exact hout r hr
        · simp only [List.mem_singleton] at hr
          subst hr
          rw [h1.2 _ rfl, hproto]
      have h2 := ih _ _ _ _ h hout1
      exact ⟨creator.sameButCaches_trans h1.1 h2.1, h2.2⟩
    · cases h
    · cases h
    · cases h

/-! ## The record part of `fixedVulnerabilities` -/

/-- What a normal return of the record part of the loop body of
`fixedVulnerabilities` has done: one record of `fixedVulns`, the one filed
under the dedup key, was rewritten. -/
theorem creator.fixedRecord_ok {env : Env} {c c2 : creator}
    {proto : claircore.Vulnerability} {pc : String} {t : fixedTarget}
    (h : c.fixedRecord env proto pc t = .ok c2) :
    ∃ vuln vuln2,
      (c.lookupVulnerability t.vulnKey proto).1.fixedVulns.get?
        (c.lookupVulnerability t.vulnKey proto).2.1 = some vuln ∧
      c2.fixedVulns = (c.lookupVulnerability t.vulnKey proto).1.fixedVulns.set
        (c.lookupVulnerability t.vulnKey proto).2.1 vuln2 ∧
      c2.uniqueVulnsIdx = (c.lookupVulnerability t.vulnKey proto).1.uniqueVulnsIdx ∧
      c2.c = c.c ∧ c2.pc = c.pc ∧ c2.vulnName = c.vulnName ∧ c2.vulnLink = c.vulnLink ∧
      vuln2.Name = vuln.Name ∧
      (((c.lookupVulnerability t.vulnKey proto).2.2 = true ∧ t.arch ≠ "") →
        ∃ pkg, vuln.Package = some pkg ∧
          vuln2 = { vuln with Package := some { pkg with Arch := pkg.Arch ++ "|" ++ t.arch } }) ∧
      (¬ ((c.lookupVulnerability t.vulnKey proto).2.2 = true ∧ t.arch ≠ "") →
        vuln2.Package = some { Name := t.purl.Name, Kind := .BINARY, Module := t.modName,
                               Arch := t.arch } ∧
        vuln2.FixedInVersion = epochVersion t.purl ∧
        vuln2.ArchOperation = if t.arch ≠ "" then .OpPatternMatch else vuln.ArchOperation) := by
  have hframe : (c.lookupVulnerability t.vulnKey proto).1.c = c.c ∧
      (c.lookupVulnerability t.vulnKey proto).1.pc = c.pc ∧
      (c.lookupVulnerability t.vulnKey proto).1.vulnName = c.vulnName ∧
      (c.lookupVulnerability t.vulnKey proto).1.vulnLink = c.vulnLink := by
    unfold creator.lookupVulnerability
    split <;> exact ⟨rfl, rfl, rfl, rfl⟩
  unfold creator.fixedRecord at h
  dsimp only at h
  split at h
  · cases h
  · rename_i vuln hget
    refine ⟨vuln, ?_⟩
    split at h
    · rename_i hmerge
      split at h
      · cases h
      · rename_i pkg hpkg
        simp only [Res.ok.injEq] at h
        subst h
        refine ⟨_, hget, rfl, rfl, hframe.1, hframe.2.1, hframe.2.2.1, hframe.2.2.2, rfl,
          fun _ => ⟨pkg, hpkg, rfl⟩, fun hn => absurd hmerge hn⟩
    · rename_i hmerge
      split at h
      · cases h
      · split at h
        · cases h
        · rename_i vuln5 hsev
          have hs := withSeverity_fields hsev
          have hpk : vuln5.Package = some ⟨t.purl.Name, .BINARY, t.modName, t.arch⟩ := by
            rw [hs.2.1]
            by_cases ha : t.arch = ""
            · split <;> simp [ha]
            · split <;> simp [ha]
          have hfx : vuln5.FixedInVersion = epochVersion t.purl := by
            rw [hs.2.2.2.1]
            by_cases ha : t.arch = ""
            · split <;> simp [ha]
            · split <;> simp [ha]
          have hop : vuln5.ArchOperation
              = if t.arch ≠ "" then .OpPatternMatch else vuln.ArchOperation := by
            rw [hs.2.2.2.2.1]
            by_cases ha : t.arch = ""
            · split <;> simp [ha]
            · split <;> simp [ha]
          have hnm : vuln5.Name = vuln.Name := by
            rw [hs.1]
            by_cases ha : t.arch = ""
            · split <;> simp [ha]
            · split <;> simp [ha]
          repeat' split at h
          all_goals
            simp only [Res.ok.injEq] at h
            subst h
            exact ⟨_, hget, rfl, rfl, hframe.1, hframe.2.1, hframe.2.2.1, hframe.2.2.2, hnm,
              fun hm => absurd hm hmerge, fun _ => ⟨hpk, hfx, hop⟩⟩

/-! ## Every record carries the name of its document -/

theorem creator.lookupVulnerability_names {c : creator} {proto : claircore.Vulnerability}
    {n : String} (key : String) (hc : ∀ r ∈ c.fixedVulns, r.Name = n) (hproto : proto.Name = n) :
    ∀ r ∈ (c.lookupVulnerability key proto).1.fixedVulns, r.Name = n := by
  unfold creator.lookupVulnerability
  split
  · exact hc
  · intro r hr
    rcases List.mem_append.mp hr with hr | hr
    · exact hc r hr
    · simp only [List.mem_singleton] at hr
      rw [hr, hproto]

theorem creator.fixedRecord_names {env : Env} {c c2 : creator}
    {proto : claircore.Vulnerability} {pc : String} {t : fixedTarget} {n : String}
    (h : c.fixedRecord env proto pc t = .ok c2)
    (hc : ∀ r ∈ c.fixedVulns, r.Name = n) (hproto : proto.Name = n) :
    ∀ r ∈ c2.fixedVulns, r.Name = n := by
  obtain ⟨vuln, vuln2, hget, hset, _, _, _, _, _, hname, _, _⟩ := creator.fixedRecord_ok h
  have hL := creator.lookupVulnerability_names t.vulnKey hc hproto
  intro r hr
  rw [hset] at hr
  rcases List.mem_or_eq_of_mem_set hr with hr | hr
  · exact hL r hr
  · rw [hr, hname]
    exact hL vuln (List.get?_mem hget)

theorem creator.fixedEntry_names {env : Env} {fuel : Nat} {c c2 : creator}
    {proto : claircore.Vulnerability} {pc : String} {n : String}
    (h : c.fixedEntry env fuel proto pc = .ok c2)
    (hc : ∀ r ∈ c.fixedVulns, r.Name = n) (hproto : proto.Name = n) :
    ∀ r ∈ c2.fixedVulns, r.Name = n := by
  unfold creator.fixedEntry at h
  split at h
  · cases h
  · cases h
  · cases h
  · rename_i c3 hres
    simp only [Res.ok.injEq] at h
    subst h
    rw [(creator.fixedResolve_frame hres).2.2.2.1]
    exact hc
  · rename_i c3 t hres
    refine creator.fixedRecord_names h ?_ hproto
    rw [(creator.fixedResolve_frame hres).2.2.2.1]
    exact hc

theorem creator.fixedLoop_names {env : Env} {fuel : Nat} {proto : claircore.Vulnerability}
    {n : String} (hproto : proto.Name = n) :
    ∀ (ids : List String) (c c2 : creator),
      creator.fixedLoop env fuel proto ids c = .ok c2 →
      (∀ r ∈ c.fixedVulns, r.Name = n) → ∀ r ∈ c2.fixedVulns, r.Name = n := by
  intro ids
  induction ids with
  | nil =>
    intro c c2 h hc
    simp only [creator.fixedLoop, Res.ok.injEq] at h
    subst h
    exact hc
  | cons pc rest ih =>
    intro c c2 h hc
    simp only [creator.fixedLoop] at h
    split at h
    · rename_i c1 he
      exact ih _ _ h (creator.fixedEntry_names he hc hproto)
    · cases h
    · cases h
    · cases h

theorem creator.fixedVulnerabilities_names {env : Env} {fuel : Nat} {c c2 : creator}
    {v : csaf.Vulnerability} {proto : claircore.Vulnerability} {n : String}
    {out : List claircore.Vulnerability}
    (h : c.fixedVulnerabilities env fuel v proto = .ok (c2, out))
    (hc : ∀ r ∈ c.fixedVulns, r.Name = n) (hproto : proto.Name = n) :
    out = c2.fixedVulns ∧ ∀ r ∈ c2.fixedVulns, r.Name = n := by
  unfold creator.fixedVulnerabilities at h
  split at h
  · rename_i c1 hl
    simp only [Res.ok.injEq, Prod.mk.injEq] at h
    obtain ⟨rfl, rfl⟩ := h
    exact ⟨rfl, creator.fixedLoop_names hproto _ _ _ hl hc⟩
  · cases h
  · cases h
  · cases h

theorem creator.knownAffectedVulnerabilities_names {env : Env} {fuel : Nat} {c c2 : creator}
    {v : csaf.Vulnerability} {proto : claircore.Vulnerability} {n : String}
    {out : List claircore.Vulnerability}
    (h : c.knownAffectedVulnerabilities env fuel v proto = .ok (c2, out))
    (hproto : proto.Name = n) :
    c2.fixedVulns = c.fixedVulns ∧ ∀ r ∈ out, r.Name = n := by
  have := creator.knownAffectedLoop_frame n hproto _ _ _ _ _ h (by simp)
  exact ⟨this.1.2.2.2.1, this.2⟩

/-- The loop over the vulnerability entries of a document with at least one
entry assigns one list to the name of the document, whatever the `out` map
was; the records of the list carry the name. -/
theorem Updater.vulnLoop_assigns (u : Updater) (env : Env) (fuel : Nat) (name selfLink : String) :
    ∀ (vs : List csaf.Vulnerability) (cr cr2 : creator)
      (out out2 : List (String × List claircore.Vulnerability)),
      vs ≠ [] →
      Updater.vulnLoop u env fuel name selfLink vs cr out = .ok (cr2, out2) →
      (∀ r ∈ cr.fixedVulns, r.Name = name) →
      ∃ L, (∀ r ∈ L, r.Name = name) ∧
        ∀ out3, Updater.vulnLoop u env fuel name selfLink vs cr out3
          = .ok (cr2, mapSet out3 name L) := by
  intro vs
  induction vs with
  | nil => intro cr cr2 out out2 hne; exact absurd rfl hne
  | cons v rest ih =>
    intro cr cr2 out out2 _ h hcr
    simp only [Updater.vulnLoop] at h
    split at h
    · cases h
    · cases h
    · cases h
    · rename_i cr1 fixedVulns hfix
      have hproto : (protoVuln u name selfLink v).Name = name := rfl
      obtain ⟨hf1, hf2⟩ := creator.fixedVulnerabilities_names hfix hcr hproto
      split at h
      · cases h
      · cases h
      · cases h
      · rename_i crk known hknown
        obtain ⟨hk1, hk2⟩ := creator.knownAffectedVulnerabilities_names hknown hproto
        have hcrk : ∀ r ∈ crk.fixedVulns, r.Name = name := by rw [hk1]; exact hf2
        have hstep : ∀ out3, Updater.vulnLoop u env fuel name selfLink (v :: rest) cr out3
            = Updater.vulnLoop u env fuel name selfLink rest crk
                (mapSet out3 name (fixedVulns ++ known)) := by
          intro out3
          simp only [Updater.vulnLoop, hfix, hknown, mapGet_mapSet, if_true, Option.getD_some,
            mapSet_mapSet]
        by_cases hrest : rest = []
        · subst hrest
          refine ⟨fixedVulns ++ known, ?_, ?_⟩
          · intro r hr
            rcases List.mem_append.mp hr with hr | hr
            · rw [hf1] at hr; exact hf2 r hr
            · exact hk2 r hr
          · intro out3
            rw [hstep out3]
            simp only [Updater.vulnLoop]
            have h0 := h
            simp only [Updater.vulnLoop, Res.ok.injEq, Prod.mk.injEq] at h0
            rw [h0.1]
        · obtain ⟨L, hL, hall⟩ := ih crk cr2 _ out2 hrest h hcrk
          refine ⟨L, hL, fun out3 => ?_⟩
          rw [hstep out3, hall, mapSet_mapSet]

/-! ## The stream merge: lemmas -/

theorem outInv_nil : outInv [] := by
  refine ⟨by simp, ?_⟩
  intro e he
  cases he

theorem outInv_mapSet {out : List (String × List claircore.Vulnerability)} {name : String}
    {L : List claircore.Vulnerability} (h : outInv out) (hL : ∀ r ∈ L, r.Name = name) :
    outInv (mapSet out name L) := by
  refine ⟨mapSet_keys_nodup _ _ _ h.1, ?_⟩
  intro e he r hr
  rcases (mem_mapSet _ _ _ _).mp he with rfl | ⟨hmem, _⟩
  · exact hL r hr
  · exact h.2 e hmem r hr

theorem outInv_perm {out es : List (String × List claircore.Vulnerability)}
    (hp : es.Perm out) (h : outInv out) : outInv es :=
  ⟨(hp.map Prod.fst).nodup_iff.mpr h.1, fun e he => h.2 e (hp.mem_iff.mp he)⟩

theorem recordsNamed_append (N : String) (a b : List claircore.Vulnerability) :
    recordsNamed N (a ++ b) = recordsNamed N a ++ recordsNamed N b := by
  simp [recordsNamed]

theorem recordsNamed_of_names {N k : String} {vs : List claircore.Vulnerability}
    (h : ∀ r ∈ vs, r.Name = k) :
    recordsNamed N vs = if k = N then vs else [] := by
  unfold recordsNamed
  by_cases hk : k = N
  · rw [if_pos hk, List.filter_eq_self]
    intro r hr
    simp [h r hr, hk]
  · rw [if_neg hk, List.filter_eq_nil_iff]
    intro r hr
    simp [h r hr, hk]

/-- The closing loop of `DeltaParse`: the records it returns under a name are
the list that the `out` map holds for the name. -/
theorem collectVulns_recordsNamed (N : String) :
    ∀ (es : List (String × List claircore.Vulnerability)) (vulns : List claircore.Vulnerability)
      (deleted : List String), outInv es →
      recordsNamed N (collectVulns es vulns deleted).1
        = recordsNamed N vulns ++ (mapGet es N).getD [] := by
  intro es
  induction es with
  | nil => intro vulns deleted _; simp [collectVulns, mapGet]
  | cons e rest ih =>
    intro vulns deleted hinv
    obtain ⟨k, vs⟩ := e
    have hnodup := hinv.1
    rw [List.map_cons, List.nodup_cons] at hnodup
    have hrest : outInv rest := ⟨hnodup.2, fun e he => hinv.2 e (List.mem_cons_of_mem _ he)⟩
    have hvs : ∀ r ∈ vs, r.Name = k := hinv.2 (k, vs) (List.mem_cons_self _ _)
    simp only [collectVulns, mapGet]
    by_cases hk : k = N
    · have hnone : mapGet rest N = none :=
        mapGet_eq_none_of_not_mem rest N (hk ▸ hnodup.1)
      rw [if_pos hk]
      split
      · rename_i hlen
        rw [ih _ _ hrest, hnone]
        have : vs = [] := List.length_eq_zero.mp hlen
        simp [this]
      · rw [ih _ _ hrest, hnone, recordsNamed_append, recordsNamed_of_names hvs, if_pos hk]
        simp
    · rw [if_neg hk]
      split
      · rw [ih _ _ hrest]
      · rw [ih _ _ hrest, recordsNamed_append, recordsNamed_of_names hvs, if_neg hk]
        simp

theorem collectVulns_deleted (x : String) :
    ∀ (es : List (String × List claircore.Vulnerability)) (vulns : List claircore.Vulnerability)
      (deleted : List String),
      x ∈ (collectVulns es vulns deleted).2 ↔ x ∈ deleted ∨ (x, []) ∈ es := by
  intro es
  induction es with
  | nil => intro vulns deleted; simp [collectVulns]
  | cons e rest ih =>
    intro vulns deleted
    obtain ⟨k, vs⟩ := e
    simp only [collectVulns]
    split
    · rename_i hlen
      have hvs : vs = [] := List.length_eq_zero.mp hlen
      subst hvs
      rw [ih]
      simp only [List.mem_append, List.mem_singleton, List.mem_cons, Prod.mk.injEq, and_true]
      tauto
    · rename_i hlen
      have hvs : vs ≠ [] := fun h => hlen (by simp [h])
      rw [ih]
      simp only [List.mem_cons, Prod.mk.injEq]
      constructor
      · rintro (h | h)
        · exact Or.inl h
        · exact Or.inr (Or.inr h)
      · rintro (h | ⟨_, h⟩ | h)
        · exact Or.inl h
        · exact absurd h.symm hvs
        · exact Or.inr h

theorem collectVulns_fst_deleted :
    ∀ (es : List (String × List claircore.Vulnerability)) (vulns : List claircore.Vulnerability)
      (deleted deleted2 : List String),
      (collectVulns es vulns deleted).1 = (collectVulns es vulns deleted2).1 := by
  intro es
  induction es with
  | nil => intro vulns deleted deleted2; rfl
  | cons e rest ih =>
    intro vulns deleted deleted2
    obtain ⟨k, vs⟩ := e
    simp only [collectVulns]
    split
    · exact ih _ _ _
    · exact ih _ _ _

theorem Updater.docLoop_append (u : Updater) (env : Env) (fuel : Nat) :
    ∀ (l1 l2 : List (Except GoError csaf.CSAF)) (st : parseState),
      Updater.docLoop u env fuel (l1 ++ l2) st =
        match Updater.docLoop u env fuel l1 st with
        | .ok st1 => Updater.docLoop u env fuel l2 st1
        | .error e => .error e
        | .panic => .panic
        | .diverge => .diverge := by
  intro l1
  induction l1 with
  | nil => intro l2 st; simp [Updater.docLoop]
  | cons x rest ih =>
    intro l2 st
    cases x with
    | error err => simp [Updater.docLoop]
    | ok c =>
      simp only [List.cons_append, Updater.docLoop]
      split
      · exact ih _ _
      · split
        · rfl
        · rfl
        · rfl
        · exact ih _ _

theorem Updater.vulnLoop_nil (u : Updater) (env : Env) (fuel : Nat) (name selfLink : String)
    (cr : creator) (out : List (String × List claircore.Vulnerability)) :
    Updater.vulnLoop u env fuel name selfLink [] cr out = .ok (cr, out) := rfl

/-- The effect of one document that is not deleted on the `out` map: nothing
when it has no vulnerability entry, otherwise the assignment of its result to
its name. -/
theorem Updater.vulnLoop_doc (u : Updater) (env : Env) (fuel : Nat) (d : csaf.CSAF)
    (pc : productCache) (rc : repoCache) (cr2 : creator)
    (out out2 : List (String × List claircore.Vulnerability))
    (h : Updater.vulnLoop u env fuel d.TrackingID (selfLinkOf d) d.Vulnerabilities
      (newCreator d.TrackingID (selfLinkOf d) d pc rc) out = .ok (cr2, out2)) :
    (d.Vulnerabilities = [] → out2 = out) ∧
    (d.Vulnerabilities ≠ [] → ∃ L, (∀ r ∈ L, r.Name = d.TrackingID) ∧
      out2 = mapSet out d.TrackingID L ∧ Updater.docResult u env fuel d pc rc = .ok L) := by
  constructor
  · intro hnil
    rw [hnil, Updater.vulnLoop_nil] at h
    simp only [Res.ok.injEq, Prod.mk.injEq] at h
    exact h.2.symm
  · intro hne
    obtain ⟨L, hL, hall⟩ := Updater.vulnLoop_assigns u env fuel _ _ _ _ _ _ _ hne h
      (by intro r hr; cases hr)
    refine ⟨L, hL, ?_, ?_⟩
    · have := hall out
      rw [h] at this
      simp only [Res.ok.injEq, Prod.mk.injEq] at this
      exact this.2
    · unfold Updater.docResult
      rw [hall []]
      simp [Res.map, mapGet_mapSet]

theorem Updater.docLoop_inv (u : Updater) (env : Env) (fuel : Nat) :
    ∀ (l : List (Except GoError csaf.CSAF)) (st st2 : parseState),
      Updater.docLoop u env fuel l st = .ok st2 → outInv st.out → outInv st2.out := by
  intro l
  induction l with
  | nil =>
    intro st st2 h hinv
    simp only [Updater.docLoop, Res.ok.injEq] at h
    subst h
    exact hinv
  | cons x rest ih =>
    intro st st2 h hinv
    cases x with
    | error err => simp [Updater.docLoop] at h
    | ok c =>
      simp only [Updater.docLoop] at h
      split at h
      · have := ih _ _ h (show outInv _ from hinv)
        exact this
      · split at h
        · cases h
        · cases h
        · cases h
        · rename_i cr1 out1 hv
          refine ih _ _ h ?_
          obtain ⟨h0, h1⟩ := Updater.vulnLoop_doc u env fuel c _ _ _ _ _ hv
          by_cases hvs : c.Vulnerabilities = []
          · rw [h0 hvs]; exact hinv
          · obtain ⟨L, hL, hout, _⟩ := h1 hvs
            show outInv out1
            rw [hout]
            exact outInv_mapSet hinv hL

/-- Documents that are deleted or carry another name leave the list held for
the name `N` as it is. -/
theorem Updater.docLoop_get_other (u : Updater) (env : Env) (fuel : Nat) (N : String) :
    ∀ (l : List (Except GoError csaf.CSAF)) (st st2 : parseState),
      Updater.docLoop u env fuel l st = .ok st2 →
      (∀ d, Except.ok d ∈ l → d.TrackingID = N → d.TrackingStatus = "deleted") →
      mapGet st2.out N = mapGet st.out N := by
  intro l
  induction l with
  | nil =>
    intro st st2 h _
    simp only [Updater.docLoop, Res.ok.injEq] at h
    subst h
    rfl
  | cons x rest ih =>
    intro st st2 h hl
    cases x with
    | error err => simp [Updater.docLoop] at h
    | ok c =>
      have hrest : ∀ d, Except.ok d ∈ rest → d.TrackingID = N → d.TrackingStatus = "deleted" :=
        fun d hd => hl d (List.mem_cons_of_mem _ hd)
      simp only [Updater.docLoop] at h
      split at h
      · have := ih _ _ h hrest
        exact this
      · rename_i hnd
        have hname : c.TrackingID ≠ N := fun hN => hnd (hl c (List.mem_cons_self _ _) hN)
        split at h
        · cases h
        · cases h
        · cases h
        · rename_i cr1 out1 hv
          rw [ih _ _ h hrest]
          show mapGet out1 N = mapGet st.out N
          obtain ⟨h0, h1⟩ := Updater.vulnLoop_doc u env fuel c _ _ _ _ _ hv
          by_cases hvs : c.Vulnerabilities = []
          · rw [h0 hvs]
          · obtain ⟨L, _, hout, _⟩ := h1 hvs
            rw [hout, mapGet_mapSet, if_neg hname]

/-- The deletion list only grows, and takes up the id of every deleted
document. -/
theorem Updater.docLoop_deleted (u : Updater) (env : Env) (fuel : Nat) :
    ∀ (l : List (Except GoError csaf.CSAF)) (st st2 : parseState),
      Updater.docLoop u env fuel l st = .ok st2 →
      (∀ x ∈ st.deleted, x ∈ st2.deleted) ∧
      (∀ d, Except.ok d ∈ l → d.TrackingStatus = "deleted" → d.TrackingID ∈ st2.deleted) := by
  intro l
  induction l with
  | nil =>
    intro st st2 h
    simp only [Updater.docLoop, Res.ok.injEq] at h
    subst h
    exact ⟨fun x hx => hx, fun d hd => by cases hd⟩
  | cons x rest ih =>
    intro st st2 h
    cases x with
    | error err => simp [Updater.docLoop] at h
    | ok c =>
      simp only [Updater.docLoop] at h
      split at h
      · rename_i hdel
        obtain ⟨i1, i2⟩ := ih _ _ h
        refine ⟨fun x hx => i1 x (List.mem_append_left _ hx), ?_⟩
        intro d hd hdd
        rcases List.mem_cons.mp hd with hd | hd
        · simp only [Except.ok.injEq] at hd
          subst hd
          exact i1 _ (List.mem_append_right _ (List.mem_singleton_self _))
        · exact i2 d hd hdd
      · rename_i hnd
        split at h
        · cases h
        · cases h
        · cases h
        · obtain ⟨i1, i2⟩ := ih _ _ h
          refine ⟨fun x hx => i1 x hx, ?_⟩
          intro d hd hdd
          rcases List.mem_cons.mp hd with hd | hd
          · simp only [Except.ok.injEq] at hd
            subst hd
            exact absurd hdd hnd
          · exact i2 d hd hdd

/-- The deletion list does not steer the loop: started with another deletion
list, the loop ends the same way, with the same `out` map and caches. -/
theorem Updater.docLoop_deleted_irrelevant (u : Updater) (env : Env) (fuel : Nat) :
    ∀ (l : List (Except GoError csaf.CSAF)) (st : parseState) (D : List String),
      Res.map (fun s => (s.out, s.pc, s.rc)) (Updater.docLoop u env fuel l { st with deleted := D })
        = Res.map (fun s => (s.out, s.pc, s.rc)) (Updater.docLoop u env fuel l st) := by
  intro l
  induction l with
  | nil => intro st D; rfl
  | cons x rest ih =>
    intro st D
    cases x with
    | error err => simp [Updater.docLoop, Res.map]
    | ok c =>
      simp only [Updater.docLoop]
      split
      · rw [ih { st with deleted := st.deleted ++ [c.TrackingID] } (D ++ [c.TrackingID])]
      · split
        · rfl
        · rfl
        · rfl
        · rename_i cr1 out1 hv
          exact ih { st with out := out1, pc := cr1.pc, rc := cr1.rc } D

/-! ## Claims on the stream merge -/

/-- What a normal return of `DeltaParse` says about the state in which its
loop ended. -/
theorem Updater.DeltaParse_ok (u : Updater) (env : Env) (fuel : Nat)
    (iter : List (String × List claircore.Vulnerability) →
      List (String × List claircore.Vulnerability))
    (hiter : ∀ l, (iter l).Perm l)
    (l : List (Except GoError csaf.CSAF)) (vulns : List claircore.Vulnerability)
    (deleted : List String)
    (h : Updater.DeltaParse u env fuel iter l = .ok (vulns, deleted)) :
    ∃ stf, Updater.docLoop u env fuel l parseState.init = .ok stf ∧ outInv stf.out ∧
      (∀ N, recordsNamed N vulns = (mapGet stf.out N).getD []) ∧
      (∀ x, x ∈ deleted ↔ x ∈ stf.deleted ∨ (x, []) ∈ stf.out) := by
  unfold Updater.DeltaParse at h
  split at h
  · cases h
  · cases h
  · cases h
  · rename_i stf hloop
    simp only [Res.ok.injEq] at h
    have hinv : outInv stf.out := Updater.docLoop_inv u env fuel l _ _ hloop outInv_nil
    have hv : vulns = (collectVulns (iter stf.out) [] stf.deleted).1 := by rw [h]
    have hd : deleted = (collectVulns (iter stf.out) [] stf.deleted).2 := by rw [h]
    refine ⟨stf, hloop, hinv, ?_, ?_⟩
    · intro N
      rw [hv]
      rw [collectVulns_recordsNamed N _ _ _ (outInv_perm (hiter _) hinv)]
      rw [mapGet_perm _ _ (hiter _) hinv.1]
      simp [recordsNamed]
    · intro x
      rw [hd, collectVulns_deleted]
      rw [(hiter stf.out).mem_iff]

/-- The last document of a name that is not deleted and has a vulnerability
entry decides what the stream returns under the name. -/
theorem Updater.DeltaParse_last_doc (u : Updater) (env : Env) (fuel : Nat)
    (iter : List (String × List claircore.Vulnerability) →
      List (String × List claircore.Vulnerability))
    (hiter : ∀ l, (iter l).Perm l)
    (pre post : List (Except GoError csaf.CSAF)) (d : csaf.CSAF)
    (hnd : d.TrackingStatus ≠ "deleted") (hne : d.Vulnerabilities ≠ [])
    (hpost : ∀ d2, Except.ok d2 ∈ post → d2.TrackingID = d.TrackingID →
      d2.TrackingStatus = "deleted")
    (vulns : List claircore.Vulnerability) (deleted : List String)
    (h : Updater.DeltaParse u env fuel iter (pre ++ .ok d :: post) = .ok (vulns, deleted)) :
    ∃ st, Updater.docLoop u env fuel pre parseState.init = .ok st ∧
      Updater.docResult u env fuel d st.pc st.rc = .ok (recordsNamed d.TrackingID vulns) ∧
      (recordsNamed d.TrackingID vulns = [] → d.TrackingID ∈ deleted) := by
  obtain ⟨stf, hloop, hinv, hrec, hdel⟩ := Updater.DeltaParse_ok u env fuel iter hiter _ _ _ h
  rw [Updater.docLoop_append] at hloop
  split at hloop
  · rename_i st1 hpre
    refine ⟨st1, hpre, ?_⟩
    simp only [Updater.docLoop] at hloop
    rw [if_neg hnd] at hloop
    split at hloop
    · cases hloop
    · cases hloop
    · cases hloop
    · rename_i cr1 out1 hv
      obtain ⟨L, _, hout, hres⟩ := (Updater.vulnLoop_doc u env fuel d _ _ _ _ _ hv).2 hne
      have hget := Updater.docLoop_get_other u env fuel d.TrackingID post _ _ hloop hpost
      have hL : mapGet stf.out d.TrackingID = some L := by
        rw [hget]
        show mapGet out1 d.TrackingID = some L
        rw [hout, mapGet_mapSet, if_pos rfl]
      have hrecL : recordsNamed d.TrackingID vulns = L := by
        rw [hrec, hL]; rfl
      refine ⟨by rw [hrecL]; exact hres, ?_⟩
      intro hempty
      rw [hdel]
      right
      rw [hrecL] at hempty
      rw [hempty] at hL
      exact (mapGet_eq_some_iff_mem _ _ _ hinv.1).mp hL
  · cases hloop
  · cases hloop
  · cases hloop

/-- C4, as amended: when the last document of a stream that carries the
advisory name N and is not deleted has at least one vulnerability entry, the
records named N that `DeltaParse` returns are exactly the list which the loop
over that document's entries stores for it (its aggregation result, computed
with the caches as the documents before it left them); nothing of an earlier
document named N is among them. -/
theorem DeltaParse_override (u : Updater) (env : Env) (fuel : Nat)
    (iter : List (String × List claircore.Vulnerability) →
      List (String × List claircore.Vulnerability))
    (hiter : ∀ l, (iter l).Perm l)
    (pre post : List (Except GoError csaf.CSAF)) (d : csaf.CSAF)
    (hnd : d.TrackingStatus ≠ "deleted") (hne : d.Vulnerabilities ≠ [])
    (hpost : ∀ d2, Except.ok d2 ∈ post → d2.TrackingID = d.TrackingID →
      d2.TrackingStatus = "deleted")
    (vulns : List claircore.Vulnerability) (deleted : List String)
    (h : Updater.DeltaParse u env fuel iter (pre ++ .ok d :: post) = .ok (vulns, deleted)) :
    ∃ st, Updater.docLoop u env fuel pre parseState.init = .ok st ∧
      Updater.docResult u env fuel d st.pc st.rc = .ok (recordsNamed d.TrackingID vulns) := by
  obtain ⟨st, h1, h2, _⟩ :=
    Updater.DeltaParse_last_doc u env fuel iter hiter pre post d hnd hne hpost vulns deleted h
  exact ⟨st, h1, h2⟩

/-- C4 at a stream of two documents for CVE-2024-0001: only the record of
the second document is returned. -/
theorem DeltaParse_override_witness :
    Updater.DeltaParse exUpdater exEnv 3 id ([.ok exDocA] ++ .ok exDocLow :: [])
      = .ok ([{ exKnownRecord "CVE-2024-0001" with NormalizedSeverity := .Low }], []) ∧
    ∃ st, Updater.docLoop exUpdater exEnv 3 [.ok exDocA] parseState.init = .ok st ∧
      Updater.docResult exUpdater exEnv 3 exDocLow st.pc st.rc
        = .ok (recordsNamed exDocLow.TrackingID
            [{ exKnownRecord "CVE-2024-0001" with NormalizedSeverity := .Low }]) :=
  ⟨by decide,
    DeltaParse_override exUpdater exEnv 3 id (fun l => List.Perm.refl l) [.ok exDocA] []
      exDocLow (by decide) (by decide) (fun _ hd => by cases hd)
      [{ exKnownRecord "CVE-2024-0001" with NormalizedSeverity := .Low }] [] (by decide)⟩

/-- C4 as stated fails: the stream of a document for CVE-2024-0001 with one
record followed by a document for CVE-2024-0001 that is not deleted and has no
vulnerability entry.  The aggregation result of the last document is the
empty list, yet the record of the earlier document is returned. -/
theorem DeltaParse_override_counterexample :
    exDocA.TrackingID = "CVE-2024-0001" ∧ exDocNoEntries.TrackingID = "CVE-2024-0001" ∧
    exDocA.TrackingStatus ≠ "deleted" ∧ exDocNoEntries.TrackingStatus ≠ "deleted" ∧
    (∀ pc rc, Updater.docResult exUpdater exEnv 3 exDocNoEntries pc rc = .ok []) ∧
    Updater.DeltaParse exUpdater exEnv 3 id [.ok exDocA, .ok exDocNoEntries]
      = .ok ([exKnownRecord "CVE-2024-0001"], []) ∧
    recordsNamed "CVE-2024-0001" [exKnownRecord "CVE-2024-0001"]
      = [exKnownRecord "CVE-2024-0001"] :=
  ⟨by decide, by decide, by decide, by decide, fun _ _ => rfl, by decide, by decide⟩

/-- C5, as amended: when the last document of a stream that carries the
advisory name N and is not deleted has at least one vulnerability entry and
its aggregation result is the empty list, `DeltaParse` returns N in the
deletion list and returns no record named N. -/
theorem DeltaParse_emptying (u : Updater) (env : Env) (fuel : Nat)
    (iter : List (String × List claircore.Vulnerability) →
      List (String × List claircore.Vulnerability))
    (hiter : ∀ l, (iter l).Perm l)
    (pre post : List (Except GoError csaf.CSAF)) (d : csaf.CSAF)
    (hnd : d.TrackingStatus ≠ "deleted") (hne : d.Vulnerabilities ≠ [])
    (hpost : ∀ d2, Except.ok d2 ∈ post → d2.TrackingID = d.TrackingID →
      d2.TrackingStatus = "deleted")
    (hempty : ∀ st, Updater.docLoop u env fuel pre parseState.init = .ok st →
      Updater.docResult u env fuel d st.pc st.rc = .ok [])
    (vulns : List claircore.Vulnerability) (deleted : List String)
    (h : Updater.DeltaParse u env fuel iter (pre ++ .ok d :: post) = .ok (vulns, deleted)) :
    d.TrackingID ∈ deleted ∧ ∀ r ∈ vulns, r.Name ≠ d.TrackingID := by
  obtain ⟨st, h1, h2, h3⟩ :=
    Updater.DeltaParse_last_doc u env fuel iter hiter pre post d hnd hne hpost vulns deleted h
  rw [hempty st h1] at h2
  simp only [Res.ok.injEq] at h2
  refine ⟨h3 h2.symm, ?_⟩
  intro r hr hname
  have : r ∈ recordsNamed d.TrackingID vulns := by
    unfold recordsNamed
    exact List.mem_filter.mpr ⟨hr, by simp [hname]⟩
  rw [← h2] at this
  cases this

/-- C5 at a stream in which the second document for CVE-2024-0001 has a
vulnerability entry that yields no record. -/
theorem DeltaParse_emptying_witness :
    Updater.DeltaParse exUpdater exEnv 3 id ([.ok exDocA] ++ .ok exDocNoRecords :: [])
      = .ok ([], ["CVE-2024-0001"]) ∧
    exDocNoRecords.TrackingID ∈ ["CVE-2024-0001"] ∧
    ∀ r ∈ ([] : List claircore.Vulnerability), r.Name ≠ exDocNoRecords.TrackingID :=
  ⟨by decide,
    DeltaParse_emptying exUpdater exEnv 3 id (fun l => List.Perm.refl l) [.ok exDocA] []
      exDocNoRecords (by decide) (by decide) (fun _ hd => by cases hd) (fun _ _ => rfl)
      [] ["CVE-2024-0001"] (by decide)⟩

/-- C5 as stated fails on the same stream as C4: the last document for
CVE-2024-0001 that is not deleted has no vulnerability entry, so its
aggregation result is the empty list, yet the name is not in the deletion
list and a record with the name is returned. -/
theorem DeltaParse_emptying_counterexample :
    exDocNoEntries.TrackingID = "CVE-2024-0001" ∧ exDocNoEntries.TrackingStatus ≠ "deleted" ∧
    (∀ pc rc, Updater.docResult exUpdater exEnv 3 exDocNoEntries pc rc = .ok []) ∧
    Updater.DeltaParse exUpdater exEnv 3 id [.ok exDocA, .ok exDocNoEntries]
      = .ok ([exKnownRecord "CVE-2024-0001"], []) ∧
    "CVE-2024-0001" ∉ ([] : List String) ∧
    (exKnownRecord "CVE-2024-0001").Name = "CVE-2024-0001" ∧
    Updater.DeltaParse exUpdater exEnv 3 id [.ok exDocNoEntries] = .ok ([], []) :=
  ⟨by decide, by decide, fun _ _ => rfl, by decide, by decide, by decide, by decide⟩

/-- C6: a document whose tracking status is "deleted" contributes no record,
whatever it carries: with and without it the stream ends the same way and
returns the same records; and its tracking id is in the returned deletion
list. -/
theorem DeltaParse_deleted_document (u : Updater) (env : Env) (fuel : Nat)
    (iter : List (String × List claircore.Vulnerability) →
      List (String × List claircore.Vulnerability))
    (pre post : List (Except GoError csaf.CSAF)) (d : csaf.CSAF)
    (hdel : d.TrackingStatus = "deleted") :
    Res.map Prod.fst (Updater.DeltaParse u env fuel iter (pre ++ .ok d :: post))
      = Res.map Prod.fst (Updater.DeltaParse u env fuel iter (pre ++ post)) ∧
    ∀ vulns deleted,
      Updater.DeltaParse u env fuel iter (pre ++ .ok d :: post) = .ok (vulns, deleted) →
      d.TrackingID ∈ deleted := by
  constructor
  · unfold Updater.DeltaParse
    rw [Updater.docLoop_append, Updater.docLoop_append]
    cases hpre : Updater.docLoop u env fuel pre
        { out := [], deleted := [], pc := newProductCache, rc := newRepoCache } with
    | error e => rfl
    | panic => rfl
    | diverge => rfl
    | ok st1 =>
      simp only [Updater.docLoop, hdel, if_true]
      have hirr := Updater.docLoop_deleted_irrelevant u env fuel post st1
        (st1.deleted ++ [d.TrackingID])
      cases h1 : Updater.docLoop u env fuel post
          { st1 with deleted := st1.deleted ++ [d.TrackingID] } with
      | ok sa =>
        cases h2 : Updater.docLoop u env fuel post st1 with
        | ok sb =>
          rw [h1, h2] at hirr
          simp only [Res.map, Res.ok.injEq, Prod.mk.injEq] at hirr
          simp only [Res.map, Res.ok.injEq]
          rw [hirr.1]
          exact collectVulns_fst_deleted _ _ _ _
        | error e => rw [h1, h2] at hirr; cases hirr
        | panic => rw [h1, h2] at hirr; cases hirr
        | diverge => rw [h1, h2] at hirr; cases hirr
      | error e =>
        cases h2 : Updater.docLoop u env fuel post st1 with
        | ok sb => rw [h1, h2] at hirr; cases hirr
        | error e2 =>
          rw [h1, h2] at hirr
          simp only [Res.map, Res.error.injEq] at hirr
          simp [Res.map, hirr]
        | panic => rw [h1, h2] at hirr; cases hirr
        | diverge => rw [h1, h2] at hirr; cases hirr
      | panic =>
        cases h2 : Updater.docLoop u env fuel post st1 with
        | ok sb => rw [h1, h2] at hirr; cases hirr
        | error e2 => rw [h1, h2] at hirr; cases hirr
        | panic => rfl
        | diverge => rw [h1, h2] at hirr; cases hirr
      | diverge =>
        cases h2 : Updater.docLoop u env fuel post st1 with
        | ok sb => rw [h1, h2] at hirr; cases hirr
        | error e2 => rw [h1, h2] at hirr; cases hirr
        | panic => rw [h1, h2] at hirr; cases hirr
        | diverge => rfl
  · intro vulns deleted h
    unfold Updater.DeltaParse at h
    split at h
    · cases h
    · cases h
    · cases h
    · rename_i stf hloop
      simp only [Res.ok.injEq] at h
      have hd : deleted = (collectVulns (iter stf.out) [] stf.deleted).2 := by rw [h]
      rw [hd, collectVulns_deleted]
      left
      exact (Updater.docLoop_deleted u env fuel _ _ _ hloop).2 d
        (List.mem_append_right _ (List.mem_cons_self _ _)) hdel

/-- C6 at a stream that ends with a deleted document for CVE-2024-0001
which carries a vulnerability entry. -/
theorem DeltaParse_deleted_document_witness :
    exDocDeleted.TrackingStatus = "deleted" ∧ exDocDeleted.Vulnerabilities ≠ [] ∧
    Updater.DeltaParse exUpdater exEnv 3 id ([.ok exDocOther] ++ .ok exDocDeleted :: [])
      = .ok ([exKnownRecord "CVE-2024-0002"], ["CVE-2024-0001"]) ∧
    (Res.map Prod.fst
        (Updater.DeltaParse exUpdater exEnv 3 id ([.ok exDocOther] ++ .ok exDocDeleted :: []))
      = Res.map Prod.fst (Updater.DeltaParse exUpdater exEnv 3 id ([.ok exDocOther] ++ [])) ∧
    ∀ vulns deleted,
      Updater.DeltaParse exUpdater exEnv 3 id ([.ok exDocOther] ++ .ok exDocDeleted :: [])
        = .ok (vulns, deleted) →
      exDocDeleted.TrackingID ∈ deleted) :=
  ⟨by decide, by decide, by decide,
    DeltaParse_deleted_document exUpdater exEnv 3 id [.ok exDocOther] [] exDocDeleted
      (by decide)⟩

/-- C7, as amended: when the last document of a stream for the advisory name
N has tracking status "deleted", `DeltaParse` returns N in the deletion list,
and the records named N that it returns are exactly the list which the
documents before the deleted one left in the `out` map under N: the deletion
itself removes nothing.  So no record named N is returned when every document
for N in the stream is deleted. -/
theorem DeltaParse_deletion_last (u : Updater) (env : Env) (fuel : Nat)
    (iter : List (String × List claircore.Vulnerability) →
      List (String × List claircore.Vulnerability))
    (hiter : ∀ l, (iter l).Perm l)
    (pre post : List (Except GoError csaf.CSAF)) (d : csaf.CSAF)
    (hdel : d.TrackingStatus = "deleted")
    (hpost : ∀ d2, Except.ok d2 ∈ post → d2.TrackingID ≠ d.TrackingID)
    (vulns : List claircore.Vulnerability) (deleted : List String)
    (h : Updater.DeltaParse u env fuel iter (pre ++ .ok d :: post) = .ok (vulns, deleted)) :
    d.TrackingID ∈ deleted ∧
    ∃ st, Updater.docLoop u env fuel pre parseState.init = .ok st ∧
      recordsNamed d.TrackingID vulns = (mapGet st.out d.TrackingID).getD [] ∧
      ((∀ d2, Except.ok d2 ∈ pre → d2.TrackingID = d.TrackingID →
          d2.TrackingStatus = "deleted") →
        ∀ r ∈ vulns, r.Name ≠ d.TrackingID) := by
  obtain ⟨stf, hloop, hinv, hrec, hdl⟩ := Updater.DeltaParse_ok u env fuel iter hiter _ _ _ h
  have hmem : d.TrackingID ∈ deleted := by
    rw [hdl]
    left
    exact (Updater.docLoop_deleted u env fuel _ _ _ hloop).2 d
      (List.mem_append_right _ (List.mem_cons_self _ _)) hdel
  refine ⟨hmem, ?_⟩
  rw [Updater.docLoop_append] at hloop
  split at hloop
  · rename_i st1 hpre
    simp only [Updater.docLoop, hdel, if_true] at hloop
    have hget := Updater.docLoop_get_other u env fuel d.TrackingID post _ _ hloop
      (fun d2 hd2 hN => absurd hN (hpost d2 hd2))
    have hrecN : recordsNamed d.TrackingID vulns = (mapGet st1.out d.TrackingID).getD [] := by
      rw [hrec, hget]
    refine ⟨st1, hpre, hrecN, ?_⟩
    intro hall r hr hname
    have hnone := Updater.docLoop_get_other u env fuel d.TrackingID pre _ _ hpre hall
    have hmemr : r ∈ recordsNamed d.TrackingID vulns := by
      unfold recordsNamed
      exact List.mem_filter.mpr ⟨hr, by simp [hname]⟩
    rw [hrecN, hnone] at hmemr
    simp [parseState.init, mapGet] at hmemr
  · cases hloop
  · cases hloop
  · cases hloop

/-- C7 at a stream in which the only document for CVE-2024-0001 is a
deleted one. -/
theorem DeltaParse_deletion_last_witness :
    exDocDeleted.TrackingStatus = "deleted" ∧
    Updater.DeltaParse exUpdater exEnv 3 id ([.ok exDocOther] ++ .ok exDocDeleted :: [])
      = .ok ([exKnownRecord "CVE-2024-0002"], ["CVE-2024-0001"]) ∧
    (exDocDeleted.TrackingID ∈ ["CVE-2024-0001"] ∧
    ∃ st, Updater.docLoop exUpdater exEnv 3 [.ok exDocOther] parseState.init = .ok st ∧
      recordsNamed exDocDeleted.TrackingID [exKnownRecord "CVE-2024-0002"]
        = (mapGet st.out exDocDeleted.TrackingID).getD [] ∧
      ((∀ d2, Except.ok d2 ∈ ([Except.ok exDocOther] : List (Except GoError csaf.CSAF)) → d2.TrackingID = exDocDeleted.TrackingID →
          d2.TrackingStatus = "deleted") →
        ∀ r ∈ [exKnownRecord "CVE-2024-0002"], r.Name ≠ exDocDeleted.TrackingID)) :=
  ⟨by decide, by decide,
    DeltaParse_deletion_last exUpdater exEnv 3 id (fun l => List.Perm.refl l) [.ok exDocOther] []
      exDocDeleted (by decide) (fun _ hd => by cases hd)
      [exKnownRecord "CVE-2024-0002"] ["CVE-2024-0001"] (by decide)⟩

/-- C7 as stated fails: the stream of a document for CVE-2024-0001 with one
record followed by a deleted document for CVE-2024-0001.  The last document
for the name is deleted, the name is in the deletion list, and the record of
the earlier document is returned all the same. -/
theorem DeltaParse_deletion_last_counterexample :
    exDocA.TrackingID = "CVE-2024-0001" ∧ exDocDeleted.TrackingID = "CVE-2024-0001" ∧
    exDocDeleted.TrackingStatus = "deleted" ∧
    Updater.DeltaParse exUpdater exEnv 3 id [.ok exDocA, .ok exDocDeleted]
      = .ok ([exKnownRecord "CVE-2024-0001"], ["CVE-2024-0001"]) ∧
    (exKnownRecord "CVE-2024-0001").Name = "CVE-2024-0001" :=
  ⟨by decide, by decide, by decide, by decide, by decide⟩

/-! ## The product cache answers the same throughout a document -/

theorem productCache.Get_Get (pc : productCache) (doc : csaf.CSAF) (a b : String) :
    ((pc.Get a doc).2.Get b doc).1 = (pc.Get b doc).1 := by
  unfold productCache.Get
  cases ha : mapGet pc.cache a with
  | some p => rfl
  | none =>
    dsimp only
    rw [mapGet_mapSet]
    by_cases hab : a = b
    · subst hab
      simp [ha]
    · simp only [hab, if_false]
      cases mapGet pc.cache b <;> rfl

theorem creator.product_of_Get (c c1 : creator) (a : String) (hc : c1.c = c.c)
    (hpc : c1.pc = (c.pc.Get a c.c).2) : c1.product = c.product := by
  funext b
  unfold creator.product
  rw [hc, hpc]
  exact productCache.Get_Get c.pc c.c a b

theorem creator.packageModule_eq (env : Env) (c : creator) (modName : String) :
    Res.map Prod.fst (c.packageModule env modName) = moduleOf env c.product modName ∧
    ∀ m c2, c.packageModule env modName = .ok (m, c2) → c2.product = c.product := by
  unfold creator.packageModule moduleOf
  by_cases hm : modName = ""
  · simp only [hm, ne_eq, not_true_eq_false, if_false, Res.map, true_and]
    intro m c2 h
    simp only [Res.ok.injEq, Prod.mk.injEq] at h
    rw [← h.2]
  · simp only [ne_eq, hm, not_false_eq_true, if_true]
    have hp : ∀ c2 : creator, c2.c = c.c → c2.pc = (c.pc.Get modName c.c).2 →
        c2.product = c.product := fun c2 h1 h2 => creator.product_of_Get c c2 modName h1 h2
    show Res.map Prod.fst (match createPackageModule env (c.product modName) with
        | .ok m => .ok (m, { c with pc := (c.pc.Get modName c.c).2 })
        | .error _ => .ok ("", { c with pc := (c.pc.Get modName c.c).2 })
        | .panic => .panic
        | .diverge => .diverge) = _ ∧ ∀ m c2, (match createPackageModule env (c.product modName) with
        | .ok m => Res.ok (m, { c with pc := (c.pc.Get modName c.c).2 })
        | .error _ => .ok ("", { c with pc := (c.pc.Get modName c.c).2 })
        | .panic => .panic
        | .diverge => .diverge) = .ok (m, c2) → _
    cases createPackageModule env (c.product modName) with
    | ok m =>
      refine ⟨rfl, fun m2 c2 h => ?_⟩
      simp only [Res.ok.injEq, Prod.mk.injEq] at h
      exact hp c2 (by rw [← h.2]) (by rw [← h.2])
    | error e =>
      refine ⟨rfl, fun m2 c2 h => ?_⟩
      simp only [Res.ok.injEq, Prod.mk.injEq] at h
      exact hp c2 (by rw [← h.2]) (by rw [← h.2])
    | panic => exact ⟨rfl, fun m2 c2 h => by cases h⟩
    | diverge => exact ⟨rfl, fun m2 c2 h => by cases h⟩

/-- The first part of the loop body of `fixedVulnerabilities` depends on the
creator only through the document and the answers of the product cache, and
leaves those answers as they are. -/
theorem creator.fixedResolve_eq (env : Env) (fuel : Nat) (c : creator) (pc : String) :
    Res.map Prod.snd (c.fixedResolve env fuel pc) = fixedTargetOf env fuel c.c c.product pc ∧
    ∀ c2 t, c.fixedResolve env fuel pc = .ok (c2, t) → c2.product = c.product := by
  unfold creator.fixedResolve fixedTargetOf
  cases hw : walkRelationships fuel pc c.c with
  | diverge => exact ⟨rfl, fun c2 t h => by cases h⟩
  | panic => exact ⟨rfl, fun c2 t h => by cases h⟩
  | error e =>
    refine ⟨rfl, fun c2 t h => ?_⟩
    simp only [Res.ok.injEq, Prod.mk.injEq] at h
    rw [← h.1]
  | ok w =>
    obtain ⟨pkgName, modName, repoName⟩ := w
    dsimp only
    have hc1 : ({ c with pc := (c.pc.Get repoName c.c).2 } : creator).product = c.product :=
      creator.product_of_Get c { c with pc := (c.pc.Get repoName c.c).2 } repoName rfl rfl
    have hrepo : c.product repoName = (c.pc.Get repoName c.c).1 := rfl
    rw [hrepo]
    cases hr : (c.pc.Get repoName c.c).1 with
    | none =>
      refine ⟨rfl, fun c2 t h => ?_⟩
      simp only [Res.ok.injEq, Prod.mk.injEq] at h
      rw [← h.1]; exact hc1
    | some repoProd =>
      dsimp only
      cases hcpe : mapGet repoProd.IdentificationHelper "cpe" with
      | none =>
        refine ⟨rfl, fun c2 t h => ?_⟩
        simp only [Res.ok.injEq, Prod.mk.injEq] at h
        rw [← h.1]; exact hc1
      | some cpeHelper =>
        dsimp only
        obtain ⟨hm1, hm2⟩ := creator.packageModule_eq env
          { c with pc := (c.pc.Get repoName c.c).2 } modName
        rw [hc1] at hm1
        rw [← hm1]
        cases hpm : creator.packageModule env { c with pc := (c.pc.Get repoName c.c).2 } modName with
        | diverge => exact ⟨rfl, fun c2 t h => by cases h⟩
        | panic => exact ⟨rfl, fun c2 t h => by cases h⟩
        | error e => exact ⟨rfl, fun c2 t h => by cases h⟩
        | ok mc =>
          obtain ⟨modName1, cm⟩ := mc
          have hcm : cm.product = c.product := (hm2 modName1 cm hpm).trans hc1
          have hc3 : ({ cm with pc := (cm.pc.Get pkgName cm.c).2 } : creator).product
              = c.product :=
            (creator.product_of_Get cm { cm with pc := (cm.pc.Get pkgName cm.c).2 } pkgName
              rfl rfl).trans hcm
          have hpkg : c.product pkgName = (cm.pc.Get pkgName cm.c).1 := by
            rw [← hcm]; rfl
          simp only [Res.map]
          rw [hpkg]
          cases hcomp : (cm.pc.Get pkgName cm.c).1 with
          | none =>
            refine ⟨rfl, fun c2 t h => ?_⟩
            simp only [Res.ok.injEq, Prod.mk.injEq] at h
            rw [← h.1]; exact hc3
          | some compProd =>
            dsimp only
            cases hpurl : mapGet compProd.IdentificationHelper "purl" with
            | none =>
              refine ⟨rfl, fun c2 t h => ?_⟩
              simp only [Res.ok.injEq, Prod.mk.injEq] at h
              rw [← h.1]; exact hc3
            | some purlHelper =>
              dsimp only
              cases hfs : env.FromString purlHelper with
              | mk purl err =>
                cases err with
                | some e =>
                  refine ⟨rfl, fun c2 t h => ?_⟩
                  simp only [Res.ok.injEq, Prod.mk.injEq] at h
                  rw [← h.1]; exact hc3
                | none =>
                  dsimp only
                  by_cases hk : hasPrefix purl.Name "kernel" = true
                  · simp only [if_pos hk]
                    refine ⟨trivial, fun c2 t h => ?_⟩
                    simp only [Res.ok.injEq, Prod.mk.injEq] at h
                    rw [← h.1]; exact hc3
                  · simp only [if_neg hk]
                    by_cases hf : purl.Typ ≠ packageurl.TypeRPM ∨ purl.Namespace ≠ "redhat"
                    · simp only [if_pos hf]
                      refine ⟨trivial, fun c2 t h => ?_⟩
                      simp only [Res.ok.injEq, Prod.mk.injEq] at h
                      rw [← h.1]; exact hc3
                    · simp only [if_neg hf]
                      refine ⟨trivial, fun c2 t h => ?_⟩
                      simp only [Res.ok.injEq, Prod.mk.injEq] at h
                      rw [← h.1]; exact hc3

/-! ## One entry of `fixedVulnerabilities`, by its dedup key -/

/-- A normal return of the record part, told apart by whether the dedup key
was already filed: a new key appends one record with the package, fixed-in
version and architecture of the entry; a known key rewrites its one record,
and an entry with an architecture appends it to the record's architecture
string after a "|". -/
theorem creator.fixedRecord_cases {env : Env} {c c2 : creator}
    {proto : claircore.Vulnerability} {pc : String} {t : fixedTarget}
    (h : c.fixedRecord env proto pc t = .ok c2) :
    c2.c = c.c ∧ c2.pc = c.pc ∧
    (mapGet c.uniqueVulnsIdx t.vulnKey = none →
      c2.uniqueVulnsIdx = mapSet c.uniqueVulnsIdx t.vulnKey c.fixedVulns.length ∧
      ∃ r, c2.fixedVulns = c.fixedVulns ++ [r] ∧
        r.Package = some ⟨t.purl.Name, .BINARY, t.modName, t.arch⟩ ∧
        r.FixedInVersion = epochVersion t.purl ∧
        r.ArchOperation = if t.arch ≠ "" then .OpPatternMatch else proto.ArchOperation) ∧
    (∀ i, mapGet c.uniqueVulnsIdx t.vulnKey = some i →
      c2.uniqueVulnsIdx = c.uniqueVulnsIdx ∧
      ∃ r r2, c.fixedVulns.get? i = some r ∧ c2.fixedVulns = c.fixedVulns.set i r2 ∧
        (t.arch ≠ "" → ∃ pkg, r.Package = some pkg ∧
          r2 = { r with Package := some { pkg with Arch := pkg.Arch ++ "|" ++ t.arch } }) ∧
        (t.arch = "" → r2.Package = some ⟨t.purl.Name, .BINARY, t.modName, ""⟩)) := by
  obtain ⟨vuln, vuln2, hget, hset, hidx, hc, hpc, _, _, _, hmerge, hnew⟩ :=
    creator.fixedRecord_ok h
  refine ⟨hc, hpc, ?_, ?_⟩
  · intro hnone
    have hl : c.lookupVulnerability t.vulnKey proto
        = ({ c with
              fixedVulns := c.fixedVulns ++ [proto]
              uniqueVulnsIdx := mapSet c.uniqueVulnsIdx t.vulnKey c.fixedVulns.length },
            c.fixedVulns.length, false) := by
      unfold creator.lookupVulnerability
      rw [hnone]
    rw [hl] at hget hset hidx hnew
    dsimp only at hget hset hidx hnew
    have hv : vuln = proto := by
      rw [List.get?_eq_getElem?, List.getElem?_append_right (le_refl _)] at hget
      simpa using hget.symm
    refine ⟨hidx, vuln2, ?_, ?_⟩
    · rw [hset]
      simp
    · have := hnew (by simp)
      rw [hv] at this
      exact this
  · intro i hsome
    have hl : c.lookupVulnerability t.vulnKey proto = (c, i, true) := by
      unfold creator.lookupVulnerability
      rw [hsome]
    rw [hl] at hget hset hidx hmerge hnew
    dsimp only at hget hset hidx hmerge hnew
    refine ⟨hidx, vuln, vuln2, hget, hset, ?_, ?_⟩
    · intro ha
      exact hmerge ⟨rfl, ha⟩
    · intro ha
      have := (hnew (by simp [ha])).1
      rw [ha] at this
      exact this

/-- One turn of the loop of `fixedVulnerabilities` that returns normally: the
document and the answers of the product cache stay, an entry that does not
pass the filters changes neither `fixedVulns` nor the index map, and an entry
that passes them runs the record part on these. -/
theorem creator.fixedEntry_step {env : Env} {fuel : Nat} {c c2 : creator}
    {proto : claircore.Vulnerability} {pc : String}
    (h : c.fixedEntry env fuel proto pc = .ok c2) :
    c2.c = c.c ∧ c2.product = c.product ∧
    ((fixedTargetOf env fuel c.c c.product pc = .ok none ∧
        c2.fixedVulns = c.fixedVulns ∧ c2.uniqueVulnsIdx = c.uniqueVulnsIdx) ∨
     (∃ (t : fixedTarget) (c3 : creator),
        fixedTargetOf env fuel c.c c.product pc = .ok (some t) ∧
        c3.fixedVulns = c.fixedVulns ∧ c3.uniqueVulnsIdx = c.uniqueVulnsIdx ∧
        c3.fixedRecord env proto pc t = .ok c2)) := by
  obtain ⟨heq, hprod⟩ := creator.fixedResolve_eq env fuel c pc
  unfold creator.fixedEntry at h
  split at h
  · cases h
  · cases h
  · cases h
  · rename_i c3 hres
    simp only [Res.ok.injEq] at h
    subst h
    have hfr := creator.fixedResolve_frame hres
    rw [hres] at heq
    refine ⟨hfr.2.2.2.2.1, hprod _ _ hres, Or.inl ⟨heq.symm, hfr.2.2.2.1, hfr.2.2.1⟩⟩
  · rename_i c3 t hres
    have hfr := creator.fixedResolve_frame hres
    rw [hres] at heq
    obtain ⟨hc, hpc, _, _⟩ := creator.fixedRecord_cases h
    have hp3 := hprod _ _ hres
    refine ⟨hc.trans hfr.2.2.2.2.1, ?_, Or.inr ⟨t, c3, heq.symm, hfr.2.2.2.1, hfr.2.2.1, h⟩⟩
    rw [← hp3]
    funext b
    unfold creator.product
    rw [hc, hpc]

theorem creator.idxInv_of_new {c c2 : creator} {k : String} {r : claircore.Vulnerability}
    (hinv : c.idxInv) (hnone : mapGet c.uniqueVulnsIdx k = none)
    (hidx : c2.uniqueVulnsIdx = mapSet c.uniqueVulnsIdx k c.fixedVulns.length)
    (hfx : c2.fixedVulns = c.fixedVulns ++ [r]) : c2.idxInv := by
  obtain ⟨hb, hi, hs⟩ := hinv
  refine ⟨?_, ?_, ?_⟩
  · intro k1 i h1
    rw [hidx, mapGet_mapSet] at h1
    rw [hfx, List.length_append, List.length_singleton]
    by_cases hk : k = k1
    · rw [if_pos hk] at h1
      simp only [Option.some.injEq] at h1
      omega
    · rw [if_neg hk] at h1
      have := hb k1 i h1
      omega
  · intro k1 k2 i h1 h2
    rw [hidx, mapGet_mapSet] at h1 h2
    by_cases hk1 : k = k1
    · by_cases hk2 : k = k2
      · exact hk1.symm.trans hk2
      · rw [if_pos hk1] at h1
        rw [if_neg hk2] at h2
        simp only [Option.some.injEq] at h1
        have := hb k2 i h2
        omega
    · by_cases hk2 : k = k2
      · rw [if_neg hk1] at h1
        rw [if_pos hk2] at h2
        simp only [Option.some.injEq] at h2
        have := hb k1 i h1
        omega
      · rw [if_neg hk1] at h1
        rw [if_neg hk2] at h2
        exact hi k1 k2 i h1 h2
  · intro i hi2
    rw [hfx, List.length_append, List.length_singleton] at hi2
    by_cases hlt : i < c.fixedVulns.length
    · obtain ⟨k1, hk1⟩ := hs i hlt
      refine ⟨k1, ?_⟩
      rw [hidx, mapGet_mapSet]
      have hne : k ≠ k1 := by
        intro hk
        rw [hk, hk1] at hnone
        cases hnone
      rw [if_neg hne]
      exact hk1
    · refine ⟨k, ?_⟩
      rw [hidx, mapGet_mapSet, if_pos rfl]
      congr 1
      omega

theorem creator.idxInv_of_set {c c2 : creator} {i : Nat} {r : claircore.Vulnerability}
    (hinv : c.idxInv) (hidx : c2.uniqueVulnsIdx = c.uniqueVulnsIdx)
    (hfx : c2.fixedVulns = c.fixedVulns.set i r) : c2.idxInv := by
  unfold creator.idxInv
  rw [hidx, hfx, List.length_set]
  exact hinv

/-- One turn of the loop keeps the index map and `fixedVulns` matched. -/
theorem creator.fixedEntry_idxInv {env : Env} {fuel : Nat} {c c2 : creator}
    {proto : claircore.Vulnerability} {pc : String}
    (h : c.fixedEntry env fuel proto pc = .ok c2) (hinv : c.idxInv) : c2.idxInv := by
  obtain ⟨_, _, hcase⟩ := creator.fixedEntry_step h
  rcases hcase with ⟨_, hfx, hidx⟩ | ⟨t, c3, _, hfx3, hidx3, hrec⟩
  · unfold creator.idxInv
    rw [hfx, hidx]
    exact hinv
  · have hinv3 : c3.idxInv := by
      unfold creator.idxInv
      rw [hfx3, hidx3]
      exact hinv
    obtain ⟨_, _, hnew, hold⟩ := creator.fixedRecord_cases hrec
    cases hk : mapGet c3.uniqueVulnsIdx t.vulnKey with
    | none =>
      obtain ⟨hidx, r, hfx, _⟩ := hnew hk
      exact creator.idxInv_of_new hinv3 hk hidx hfx
    | some i =>
      obtain ⟨hidx, r, r2, _, hfx, _⟩ := hold i hk
      exact creator.idxInv_of_set hinv3 hidx hfx

/-- A turn of the loop for an entry that does not resolve to the dedup key
`k` leaves what is filed under `k` as it is. -/
theorem creator.fixedEntry_other_key {env : Env} {fuel : Nat} {c c2 : creator}
    {proto : claircore.Vulnerability} {pc k : String}
    (h : c.fixedEntry env fuel proto pc = .ok c2) (hinv : c.idxInv)
    (hk : ∀ t, fixedTargetOf env fuel c.c c.product pc = .ok (some t) → t.vulnKey ≠ k) :
    mapGet c2.uniqueVulnsIdx k = mapGet c.uniqueVulnsIdx k ∧
    ∀ i, mapGet c.uniqueVulnsIdx k = some i → c2.fixedVulns.get? i = c.fixedVulns.get? i := by
  obtain ⟨_, _, hcase⟩ := creator.fixedEntry_step h
  rcases hcase with ⟨_, hfx, hidx⟩ | ⟨t, c3, ht, hfx3, hidx3, hrec⟩
  · rw [hfx, hidx]
    exact ⟨rfl, fun _ _ => rfl⟩
  · have hne : t.vulnKey ≠ k := hk t ht
    obtain ⟨_, _, hnew, hold⟩ := creator.fixedRecord_cases hrec
    rw [hidx3, hfx3] at hnew hold
    cases hkey : mapGet c.uniqueVulnsIdx t.vulnKey with
    | none =>
      obtain ⟨hidx, r, hfx, _⟩ := hnew hkey
      refine ⟨by rw [hidx, mapGet_mapSet, if_neg hne], fun i hi => ?_⟩
      rw [hfx, List.get?_eq_getElem?, List.get?_eq_getElem?,
        List.getElem?_append_left (hinv.1 k i hi)]
    | some j =>
      obtain ⟨hidx, r, r2, _, hfx, _⟩ := hold j hkey
      refine ⟨by rw [hidx], fun i hi => ?_⟩
      have hij : j ≠ i := by
        intro hji
        rw [hji] at hkey
        exact hne (hinv.2.1 _ _ _ hkey hi)
      rw [hfx, List.get?_eq_getElem?, List.get?_eq_getElem?, List.getElem?_set_ne hij]

theorem creator.fixedLoop_cons {env : Env} {fuel : Nat} {proto : claircore.Vulnerability}
    {pc : String} {rest : List String} {c c2 : creator}
    (h : creator.fixedLoop env fuel proto (pc :: rest) c = .ok c2) :
    ∃ c1, c.fixedEntry env fuel proto pc = .ok c1 ∧
      creator.fixedLoop env fuel proto rest c1 = .ok c2 := by
  simp only [creator.fixedLoop] at h
  split at h
  · rename_i c1 he
    exact ⟨c1, he, h⟩
  · cases h
  · cases h
  · cases h

theorem creator.fixedLoop_append {env : Env} {fuel : Nat} {proto : claircore.Vulnerability} :
    ∀ (a b : List String) (c c2 : creator),
      creator.fixedLoop env fuel proto (a ++ b) c = .ok c2 →
      ∃ c1, creator.fixedLoop env fuel proto a c = .ok c1 ∧
        creator.fixedLoop env fuel proto b c1 = .ok c2 := by
  intro a
  induction a with
  | nil => intro b c c2 h; exact ⟨c, rfl, h⟩
  | cons x rest ih =>
    intro b c c2 h
    obtain ⟨c1, he, hl⟩ := creator.fixedLoop_cons h
    obtain ⟨c1b, h1, h2⟩ := ih b c1 c2 hl
    refine ⟨c1b, ?_, h2⟩
    simp only [creator.fixedLoop, he]
    exact h1

/-- The loop of `fixedVulnerabilities` keeps the document, the answers of the
product cache, and the match of index map and `fixedVulns`. -/
theorem creator.fixedLoop_inv {env : Env} {fuel : Nat} {proto : claircore.Vulnerability} :
    ∀ (ids : List String) (c c2 : creator),
      creator.fixedLoop env fuel proto ids c = .ok c2 → c.idxInv →
      c2.c = c.c ∧ c2.product = c.product ∧ c2.idxInv := by
  intro ids
  induction ids with
  | nil =>
    intro c c2 h hinv
    simp only [creator.fixedLoop, Res.ok.injEq] at h
    subst h
    exact ⟨rfl, rfl, hinv⟩
  | cons x rest ih =>
    intro c c2 h hinv
    obtain ⟨c1, he, hl⟩ := creator.fixedLoop_cons h
    obtain ⟨hc, hp, _⟩ := creator.fixedEntry_step he
    obtain ⟨hc2, hp2, hinv2⟩ := ih c1 c2 hl (creator.fixedEntry_idxInv he hinv)
    exact ⟨hc2.trans hc, hp2.trans hp, hinv2⟩

/-- A run of the loop over entries none of which resolves to the dedup key
`k` leaves what is filed under `k` as it is. -/
theorem creator.fixedLoop_other_key {env : Env} {fuel : Nat}
    {proto : claircore.Vulnerability} {k : String} :
    ∀ (ids : List String) (c c2 : creator),
      creator.fixedLoop env fuel proto ids c = .ok c2 → c.idxInv →
      (∀ p ∈ ids, ∀ t, fixedTargetOf env fuel c.c c.product p = .ok (some t) →
        t.vulnKey ≠ k) →
      mapGet c2.uniqueVulnsIdx k = mapGet c.uniqueVulnsIdx k ∧
      ∀ i, mapGet c.uniqueVulnsIdx k = some i →
        c2.fixedVulns.get? i = c.fixedVulns.get? i := by
  intro ids
  induction ids with
  | nil =>
    intro c c2 h _ _
    simp only [creator.fixedLoop, Res.ok.injEq] at h
    subst h
    exact ⟨rfl, fun _ _ => rfl⟩
  | cons x rest ih =>
    intro c c2 h hinv hk
    obtain ⟨c1, he, hl⟩ := creator.fixedLoop_cons h
    obtain ⟨hc, hp, _⟩ := creator.fixedEntry_step he
    obtain ⟨h1, h2⟩ := creator.fixedEntry_other_key he hinv (hk x (List.mem_cons_self _ _))
    have hk1 : ∀ p ∈ rest, ∀ t, fixedTargetOf env fuel c1.c c1.product p = .ok (some t) →
        t.vulnKey ≠ k := by
      intro p hp1 t ht
      rw [hc, hp] at ht
      exact hk p (List.mem_cons_of_mem _ hp1) t ht
    obtain ⟨h3, h4⟩ := ih c1 c2 hl (creator.fixedEntry_idxInv he hinv) hk1
    refine ⟨h3.trans h1, fun i hi => ?_⟩
    rw [h4 i (h1.trans hi), h2 i hi]

/-! ## Claims on the aggregator: the dedup law -/

theorem newCreator_idxInv (vulnName vulnLink : String) (doc : csaf.CSAF) (pc : productCache)
    (rc : repoCache) : (newCreator vulnName vulnLink doc pc rc).idxInv := by
  refine ⟨?_, ?_, ?_⟩
  · intro k i h; simp [newCreator, mapGet] at h
  · intro k k2 i h; simp [newCreator, mapGet] at h
  · intro i h; simp [newCreator] at h

/-- The dedup law where it holds: in a call of `fixedVulnerabilities` that
returns normally, on a creator whose index map matches its `fixedVulns` (as it
does from `newCreator` on) and does not hold the key yet, let two "fixed"
product ids pass the filters and resolve to the same dedup key, with
architectures a1 (the earlier id) and a2, a2 not empty, and let no other id
of the list resolve to that key.  Then the index map files the key at one index of the returned list, no
other key is filed there, the record at that index has the package name,
module and fixed-in version of the entries and `Package.Arch` "a1|a2"; and
every returned record is filed under exactly one key. -/
theorem fixedVulnerabilities_dedup (env : Env) (fuel : Nat) (c : creator)
    (v : csaf.Vulnerability) (proto : claircore.Vulnerability)
    (l0 l1 l2 : List String) (p1 p2 : String) (t1 t2 : fixedTarget)
    (hinv : c.idxInv) (hk0 : mapGet c.uniqueVulnsIdx t1.vulnKey = none)
    (hids : productStatus v "fixed" = l0 ++ p1 :: (l1 ++ p2 :: l2))
    (h1 : fixedTargetOf env fuel c.c c.product p1 = .ok (some t1))
    (h2 : fixedTargetOf env fuel c.c c.product p2 = .ok (some t2))
    (hkey : t2.vulnKey = t1.vulnKey) (ha2 : t2.arch ≠ "")
    (hothers : ∀ p, p ∈ l0 ∨ p ∈ l1 ∨ p ∈ l2 → ∀ t,
      fixedTargetOf env fuel c.c c.product p = .ok (some t) → t.vulnKey ≠ t1.vulnKey)
    (c2 : creator) (out : List claircore.Vulnerability)
    (hok : c.fixedVulnerabilities env fuel v proto = .ok (c2, out)) :
    ∃ i r, mapGet c2.uniqueVulnsIdx t1.vulnKey = some i ∧ out.get? i = some r ∧
      r.Package = some ⟨t1.purl.Name, .BINARY, t1.modName, t1.arch ++ "|" ++ t2.arch⟩ ∧
      r.FixedInVersion = epochVersion t1.purl ∧
      (∀ k, mapGet c2.uniqueVulnsIdx k = some i → k = t1.vulnKey) ∧
      (∀ j, j < out.length → ∃ k, mapGet c2.uniqueVulnsIdx k = some j ∧
        ∀ k2, mapGet c2.uniqueVulnsIdx k2 = some j → k2 = k) := by
  unfold creator.fixedVulnerabilities at hok
  split at hok
  · rename_i cf hloop
    simp only [Res.ok.injEq, Prod.mk.injEq] at hok
    obtain ⟨rfl, rfl⟩ := hok
    rw [hids] at hloop
    obtain ⟨ca, hl0, hrest⟩ := creator.fixedLoop_append _ _ _ _ hloop
    obtain ⟨cb, he1, hrest⟩ := creator.fixedLoop_cons hrest
    obtain ⟨cc, hl1, hrest⟩ := creator.fixedLoop_append _ _ _ _ hrest
    obtain ⟨cd, he2, hl2⟩ := creator.fixedLoop_cons hrest
    -- the ids before the first entry of the key
    obtain ⟨hac, hap, hainv⟩ := creator.fixedLoop_inv _ _ _ hl0 hinv
    obtain ⟨hak, _⟩ := creator.fixedLoop_other_key (k := t1.vulnKey) _ _ _ hl0 hinv
      (fun p hp t ht => hothers p (Or.inl hp) t ht)
    rw [hk0] at hak
    -- the first entry of the key
    obtain ⟨hbc, hbp, hb⟩ := creator.fixedEntry_step he1
    have hbinv := creator.fixedEntry_idxInv he1 hainv
    rw [hac, hap, h1] at hb
    rcases hb with ⟨hb, _⟩ | ⟨t, c3, ht, hfx3, hidx3, hrec⟩
    · cases hb
    simp only [Res.ok.injEq, Option.some.injEq] at ht
    subst ht
    obtain ⟨_, _, hnew, _⟩ := creator.fixedRecord_cases hrec
    rw [hidx3, hfx3] at hnew
    obtain ⟨hbidx, r, hbfx, hrpkg, hrfix, _⟩ := hnew hak
    have hbk : mapGet cb.uniqueVulnsIdx t1.vulnKey = some ca.fixedVulns.length := by
      rw [hbidx, mapGet_mapSet, if_pos rfl]
    have hbget : cb.fixedVulns.get? ca.fixedVulns.length = some r := by
      rw [hbfx, List.get?_eq_getElem?, List.getElem?_append_right (le_refl _)]
      simp
    -- the ids between the two entries
    obtain ⟨hcc2, hcp, hcinv⟩ := creator.fixedLoop_inv _ _ _ hl1 hbinv
    obtain ⟨hck, hcget⟩ := creator.fixedLoop_other_key (k := t1.vulnKey) _ _ _ hl1 hbinv
      (fun p hp t ht => hothers p (Or.inr (Or.inl hp)) t
        (by rw [hbc, hbp, hac, hap] at ht; exact ht))
    rw [hbk] at hck
    have hcget2 := (hcget _ hbk).trans hbget
    -- the second entry of the key
    obtain ⟨hdc, hdp, hd⟩ := creator.fixedEntry_step he2
    have hdinv := creator.fixedEntry_idxInv he2 hcinv
    rw [hcc2, hcp, hbc, hbp, hac, hap, h2] at hd
    rcases hd with ⟨hd, _⟩ | ⟨t, c4, ht, hfx4, hidx4, hrec2⟩
    · cases hd
    simp only [Res.ok.injEq, Option.some.injEq] at ht
    subst ht
    obtain ⟨_, _, _, hold⟩ := creator.fixedRecord_cases hrec2
    rw [hidx4, hfx4, hkey] at hold
    obtain ⟨hdidx, r1, r2, hr1, hdfx, hmerge, _⟩ := hold _ hck
    rw [hcget2] at hr1
    simp only [Option.some.injEq] at hr1
    subst hr1
    obtain ⟨pkg, hpkg, hr2⟩ := hmerge ha2
    rw [hrpkg] at hpkg
    simp only [Option.some.injEq] at hpkg
    subst hpkg
    have hlen : ca.fixedVulns.length < cc.fixedVulns.length := by
      have := hcget2
      rw [List.get?_eq_some] at this
      exact this.1
    have hdk : mapGet cd.uniqueVulnsIdx t1.vulnKey = some ca.fixedVulns.length := by
      rw [hdidx]; exact hck
    have hdget : cd.fixedVulns.get? ca.fixedVulns.length = some r2 := by
      rw [hdfx, List.get?_eq_getElem?, List.getElem?_set_self hlen]
    -- the ids after the second entry
    obtain ⟨_, _, hfinv⟩ := creator.fixedLoop_inv _ _ _ hl2 hdinv
    obtain ⟨hfk, hfget⟩ := creator.fixedLoop_other_key (k := t1.vulnKey) _ _ _ hl2 hdinv
      (fun p hp t ht => hothers p (Or.inr (Or.inr hp)) t
        (by rw [hdc, hdp, hcc2, hcp, hbc, hbp, hac, hap] at ht; exact ht))
    rw [hdk] at hfk
    refine ⟨ca.fixedVulns.length, r2, hfk, (hfget _ hdk).trans hdget, ?_, ?_, ?_, ?_⟩
    · rw [hr2]
    · rw [hr2]; exact hrfix
    · intro k hk
      exact hfinv.2.1 _ _ _ hk hfk
    · intro j hj
      obtain ⟨k, hk⟩ := hfinv.2.2 j hj
      exact ⟨k, hk, fun k2 hk2 => hfinv.2.1 _ _ _ hk2 hk⟩
  · cases hok
  · cases hok
  · cases hok

/-- The dedup law at `exDocArch`: `bash` fixed in `BaseOS-9` for x86_64 and
aarch64, and for no other id, gives one record with architecture
"x86_64|aarch64". -/
theorem fixedVulnerabilities_dedup_witness :
    (exTargetArch "x86_64").arch = "x86_64" ∧ (exTargetArch "aarch64").arch = "aarch64" ∧
    (exTargetArch "x86_64").vulnKey = "BaseOS-9::bash-0:5.1.8-6.el9" ∧
    ∃ c2,
      (newCreator "CVE-2024-0004" (selfLinkOf exDocArch) exDocArch newProductCache
          newRepoCache).fixedVulnerabilities exEnv 3 exEntryArch
        (protoVuln exUpdater "CVE-2024-0004" (selfLinkOf exDocArch) exEntryArch)
        = .ok (c2, [exArchRecord]) ∧
      ∃ i r, mapGet c2.uniqueVulnsIdx (exTargetArch "x86_64").vulnKey = some i ∧
        [exArchRecord].get? i = some r ∧
        r.Package = some ⟨(exTargetArch "x86_64").purl.Name, .BINARY,
          (exTargetArch "x86_64").modName,
          (exTargetArch "x86_64").arch ++ "|" ++ (exTargetArch "aarch64").arch⟩ ∧
        r.FixedInVersion = epochVersion (exTargetArch "x86_64").purl ∧
        (∀ k, mapGet c2.uniqueVulnsIdx k = some i → k = (exTargetArch "x86_64").vulnKey) ∧
        (∀ j, j < [exArchRecord].length → ∃ k, mapGet c2.uniqueVulnsIdx k = some j ∧
          ∀ k2, mapGet c2.uniqueVulnsIdx k2 = some j → k2 = k) := by
  refine ⟨by decide, by decide, by decide, ?_⟩
  have hev : Res.map Prod.snd
      ((newCreator "CVE-2024-0004" (selfLinkOf exDocArch) exDocArch newProductCache
          newRepoCache).fixedVulnerabilities exEnv 3 exEntryArch
        (protoVuln exUpdater "CVE-2024-0004" (selfLinkOf exDocArch) exEntryArch))
      = .ok [exArchRecord] := by decide
  cases hres : (newCreator "CVE-2024-0004" (selfLinkOf exDocArch) exDocArch newProductCache
      newRepoCache).fixedVulnerabilities exEnv 3 exEntryArch
      (protoVuln exUpdater "CVE-2024-0004" (selfLinkOf exDocArch) exEntryArch) with
  | error e => rw [hres] at hev; cases hev
  | panic => rw [hres] at hev; cases hev
  | diverge => rw [hres] at hev; cases hev
  | ok p =>
    obtain ⟨c2, out⟩ := p
    rw [hres] at hev
    simp only [Res.map, Res.ok.injEq] at hev
    subst hev
    exact ⟨c2, rfl,
      fixedVulnerabilities_dedup exEnv 3
        (newCreator "CVE-2024-0004" (selfLinkOf exDocArch) exDocArch newProductCache
          newRepoCache) exEntryArch
        (protoVuln exUpdater "CVE-2024-0004" (selfLinkOf exDocArch) exEntryArch)
        [] [] [] "BaseOS-9:bash.x86_64" "BaseOS-9:bash.aarch64"
        (exTargetArch "x86_64") (exTargetArch "aarch64")
        (newCreator_idxInv _ _ _ _ _) (by decide)
        (by decide) (by decide) (by decide) (by decide) (by decide)
        (fun p hp => by rcases hp with h | h | h <;> cases h) c2 _ hres⟩

/-- C8 fails on the code: in `exDocFixed` the "fixed" product ids
`BaseOS-9:bash.x86_64` and `BaseOS-9:bash.aarch64` pass the filters and
resolve to one dedup key with the different, non-empty architectures x86_64
and aarch64, x86_64 first.  With the id `BaseOS-9:bash` of the same key, whose
purl has no "arch" qualifier, between them, `fixedVulnerabilities` returns
one record for the key with `Package.Arch` "|aarch64", not "x86_64|aarch64":
the entry without architecture rewrites the package of the record.  With
that id after them the record has the empty architecture. -/
theorem fixedVulnerabilities_dedup_arch_lost :
    exIdsNoArchBetween = ["BaseOS-9:bash.x86_64", "BaseOS-9:bash", "BaseOS-9:bash.aarch64"] ∧
    fixedTargetOf exEnv 3 (exDocFixed exIdsNoArchBetween)
        (exCreatorOf (exDocFixed exIdsNoArchBetween)).product "BaseOS-9:bash.x86_64"
      = .ok (some (exTargetArch "x86_64")) ∧
    fixedTargetOf exEnv 3 (exDocFixed exIdsNoArchBetween)
        (exCreatorOf (exDocFixed exIdsNoArchBetween)).product "BaseOS-9:bash.aarch64"
      = .ok (some (exTargetArch "aarch64")) ∧
    (exTargetArch "aarch64").vulnKey = (exTargetArch "x86_64").vulnKey ∧
    (exTargetArch "x86_64").arch = "x86_64" ∧ (exTargetArch "aarch64").arch = "aarch64" ∧
    Res.map Prod.snd
        ((exCreatorOf (exDocFixed exIdsNoArchBetween)).fixedVulnerabilities exEnv 3
          (exEntry exIdsNoArchBetween [])
          (exProtoOf (exDocFixed exIdsNoArchBetween) (exEntry exIdsNoArchBetween [])))
      = .ok [exRecord "CVE-2024-0010"
              { Name := "bash", Kind := .BINARY, Module := "", Arch := "|aarch64" }
              "0:5.1.8-6.el9" .OpPatternMatch] ∧
    ("|aarch64" : String) ≠ "x86_64" ++ "|" ++ "aarch64" ∧
    Res.map Prod.snd
        ((exCreatorOf (exDocFixed exIdsNoArchLast)).fixedVulnerabilities exEnv 3
          (exEntry exIdsNoArchLast [])
          (exProtoOf (exDocFixed exIdsNoArchLast) (exEntry exIdsNoArchLast [])))
      = .ok [exRecord "CVE-2024-0010"
              { Name := "bash", Kind := .BINARY, Module := "", Arch := "" }
              "0:5.1.8-6.el9" .OpPatternMatch] :=
  ⟨rfl, by decide, by decide, by decide, by decide, by decide, by decide, by decide, by decide⟩

/-- Both aggregator functions keep the index map and `fixedVulns` matched, so
every creator that `DeltaParse` hands to `fixedVulnerabilities` is matched. -/
theorem creator.aggregator_idxInv {env : Env} {fuel : Nat} {c c2 : creator}
    {v : csaf.Vulnerability} {proto : claircore.Vulnerability}
    {out : List claircore.Vulnerability} (hinv : c.idxInv) :
    (c.fixedVulnerabilities env fuel v proto = .ok (c2, out) → c2.idxInv) ∧
    (c.knownAffectedVulnerabilities env fuel v proto = .ok (c2, out) → c2.idxInv) := by
  constructor
  · intro h
    unfold creator.fixedVulnerabilities at h
    split at h
    · rename_i c1 hl
      simp only [Res.ok.injEq, Prod.mk.injEq] at h
      rw [← h.1]
      exact (creator.fixedLoop_inv _ _ _ hl hinv).2.2
    · cases h
    · cases h
    · cases h
  · intro h
    have hfr := (creator.knownAffectedLoop_frame proto.Name rfl _ _ _ _ _ h (by simp)).1
    unfold creator.idxInv
    rw [hfr.2.2.1, hfr.2.2.2.1]
    exact hinv

/-! ## Claims on the aggregator: the base-score-zero exclusion -/

/-- C9 fails on the code: the "fixed" product id `BaseOS-9:bash.x86_64` of
`exDocZero` has no "impact" threat and a scoring object with base score 0.0,
and `fixedVulnerabilities` returns a record created from it, as does
`DeltaParse`; the same id under "known_affected" gets no record.  The
`continue` of the source comes after `lookupVulnerability` has appended the
record to `fixedVulns`. -/
theorem fixedVulnerabilities_zero_score_kept :
    (exCreatorZero ["BaseOS-9:bash.x86_64"] []).c.FindThreat "BaseOS-9:bash.x86_64" "impact"
      = none ∧
    (exCreatorZero ["BaseOS-9:bash.x86_64"] []).c.FindScore "BaseOS-9:bash.x86_64"
      = some exZeroScore ∧
    cvssBaseScoreFromScore exZeroScore = 0 ∧
    Res.map Prod.snd ((exCreatorZero ["BaseOS-9:bash.x86_64"] []).fixedVulnerabilities exEnv 3
      (exEntryZero ["BaseOS-9:bash.x86_64"] []) (exProtoZero ["BaseOS-9:bash.x86_64"] []))
      = .ok [exFixedZeroRecord] ∧
    Updater.DeltaParse exUpdater exEnv 3 id [.ok (exDocZero ["BaseOS-9:bash.x86_64"] [])]
      = .ok ([exFixedZeroRecord], []) ∧
    Updater.DeltaParse exUpdater exEnv 3 id [.ok (exDocZero [] ["BaseOS-9:bash.x86_64"])]
      = .ok ([], ["CVE-2024-0003"]) :=
  ⟨by decide, by decide, by decide, by decide, by decide, by decide⟩


theorem creator.knownAffectedRecord_excluded {env : Env} {c c2 : creator}
    {proto : claircore.Vulnerability} {pc : String} {t : knownAffectedTarget}
    {sc : csaf.Score} {r : Option claircore.Vulnerability}
    (hthreat : c.c.FindThreat pc "impact" = none) (hscore : c.c.FindScore pc = some sc)
    (hzero : cvssBaseScoreFromScore sc = 0)
    (h : c.knownAffectedRecord env proto pc t = .ok (c2, r)) : r = none := by
  unfold creator.knownAffectedRecord at h
  dsimp only at h
  rw [hthreat, hscore] at h
  split at h
  · cases h
  · split at h
    · cases h
    · dsimp only at h
      rw [if_pos hzero] at h
      simp only [Res.ok.injEq, Prod.mk.injEq] at h
      exact h.2.symm

theorem creator.knownAffectedRecord_error {env : Env} {c : creator}
    {proto : claircore.Vulnerability} {pc : String} {t : knownAffectedTarget} {e : GoError}
    (h : c.knownAffectedRecord env proto pc t = .error e) :
    (∃ ch err, e = .wrapf "could not unbind cpe: %s %w" [ch] err) ∨
    (∃ sc err, c.c.FindScore pc = some sc ∧ cvssVectorFromScore env sc = .error err ∧
      e = .wrapf "could not parse CVSS score: %w, file: %s" [c.vulnLink] err) := by
  unfold creator.knownAffectedRecord at h
  dsimp only at h
  split at h
  · simp only [Res.error.injEq] at h
    exact Or.inl ⟨_, _, h.symm⟩
  · split at h
    · rename_i e2 hsev
      simp only [Res.error.injEq] at h
      subst h
      right
      unfold withSeverity at hsev
      split at hsev
      · cases hsev
      · rename_i s hs
        split at hsev
        · rename_i err herr
          simp only [Except.error.injEq] at hsev
          exact ⟨s, err, hs, herr, hsev.symm⟩
        · cases hsev
    · repeat' split at h
      all_goals cases h

/-- C10: a "known_affected" product id that has no "impact" threat and whose
scoring object has base score 0.0 gets no record.  The loop body never yields
a record for it, in whatever state of the caches; a normal return of
`knownAffectedVulnerabilities` is the run over the ids before it, a
`continue` at the id (a normal step, no error), and the run over the ids after
it on the unchanged list of records; and the loop body can only fail at the id
because its CPE does not unbind or its vector does not validate. -/
theorem knownAffected_zero_score_excluded (env : Env) (fuel : Nat) (c : creator)
    (v : csaf.Vulnerability) (proto : claircore.Vulnerability)
    (pre post : List String) (pc : String) (sc : csaf.Score)
    (hids : productStatus v "known_affected" = pre ++ pc :: post)
    (hthreat : c.c.FindThreat pc "impact" = none) (hscore : c.c.FindScore pc = some sc)
    (hzero : cvssBaseScoreFromScore sc = 0) :
    (∀ (c1 c2 : creator) (r : claircore.Vulnerability), c1.c = c.c →
      c1.knownAffectedEntry env fuel proto pc ≠ .ok (c2, some r)) ∧
    (∀ c2 out, c.knownAffectedVulnerabilities env fuel v proto = .ok (c2, out) →
      ∃ c1 o1 c1b,
        creator.knownAffectedLoop env fuel proto pre c [] = .ok (c1, o1) ∧
        c1.knownAffectedEntry env fuel proto pc = .ok (c1b, none) ∧
        creator.knownAffectedLoop env fuel proto post c1b o1 = .ok (c2, out)) ∧
    (∀ (c1 : creator) (e : GoError), c1.c = c.c →
      c1.knownAffectedEntry env fuel proto pc = .error e →
      (∃ ch err, e = .wrapf "could not unbind cpe: %s %w" [ch] err) ∨
      (∃ err, cvssVectorFromScore env sc = .error err ∧
        e = .wrapf "could not parse CVSS score: %w, file: %s" [c1.vulnLink] err)) := by
  have hentry : ∀ (c1 c2 : creator) (r : Option claircore.Vulnerability), c1.c = c.c →
      c1.knownAffectedEntry env fuel proto pc = .ok (c2, r) → r = none := by
    intro c1 c2 r hc1 h
    unfold creator.knownAffectedEntry at h
    split at h
    · cases h
    · cases h
    · cases h
    · simp only [Res.ok.injEq, Prod.mk.injEq] at h
      exact h.2.symm
    · rename_i c3 t hres
      have hc3 : c3.c = c.c := (creator.knownAffectedResolve_frame hres).2.2.2.2.1.trans hc1
      exact creator.knownAffectedRecord_excluded (hc3 ▸ hthreat) (hc3 ▸ hscore) hzero h
  refine ⟨?_, ?_, ?_⟩
  · intro c1 c2 r hc1 h
    have := hentry c1 c2 _ hc1 h
    cases this
  · intro c2 out h
    unfold creator.knownAffectedVulnerabilities at h
    rw [hids] at h
    have hsplit : ∀ (l : List String) (ca : creator) (oa : List claircore.Vulnerability),
        creator.knownAffectedLoop env fuel proto (l ++ pc :: post) ca oa = .ok (c2, out) →
        ca.c = c.c →
        ∃ c1 o1 c1b,
          creator.knownAffectedLoop env fuel proto l ca oa = .ok (c1, o1) ∧
          c1.knownAffectedEntry env fuel proto pc = .ok (c1b, none) ∧
          creator.knownAffectedLoop env fuel proto post c1b o1 = .ok (c2, out) := by
      intro l
      induction l with
      | nil =>
        intro ca oa hl hca
        simp only [List.nil_append, creator.knownAffectedLoop] at hl
        split at hl
        · rename_i cb he
          exact ⟨ca, oa, cb, rfl, he, hl⟩
        · rename_i cb vuln he
          have := hentry ca cb _ hca he
          cases this
        · cases hl
        · cases hl
        · cases hl
      | cons x rest ih =>
        intro ca oa hl hca
        simp only [List.cons_append, creator.knownAffectedLoop] at hl
        split at hl
        · rename_i cb he
          have hcb : cb.c = c.c := (creator.knownAffectedEntry_frame he).1.2.2.2.2.trans hca
          obtain ⟨c1, o1, c1b, h1, h2, h3⟩ := ih cb oa hl hcb
          refine ⟨c1, o1, c1b, ?_, h2, h3⟩
          simp only [creator.knownAffectedLoop, he]
          exact h1
        · rename_i cb vuln he
          have hcb : cb.c = c.c := (creator.knownAffectedEntry_frame he).1.2.2.2.2.trans hca
          obtain ⟨c1, o1, c1b, h1, h2, h3⟩ := ih cb _ hl hcb
          refine ⟨c1, o1, c1b, ?_, h2, h3⟩
          simp only [creator.knownAffectedLoop, he]
          exact h1
        · cases hl
        · cases hl
        · cases hl
    exact hsplit pre c [] h rfl
  · intro c1 e hc1 h
    unfold creator.knownAffectedEntry at h
    split at h
    · cases h
    · cases h
    · rename_i e2 hres
      exfalso
      unfold creator.knownAffectedResolve at hres
      repeat' (first | (dsimp only at hres; split at hres) | split at hres)
      all_goals try (cases hres; done)
      all_goals
        rename_i hmod
        unfold creator.packageModule at hmod
        repeat' (first | (dsimp only at hmod; split at hmod) | split at hmod)
        all_goals cases hmod
    · cases h
    · rename_i c3 t hres
      have hfr := creator.knownAffectedResolve_frame hres
      have hc3 : c3.c = c.c := hfr.2.2.2.2.1.trans hc1
      rcases creator.knownAffectedRecord_error h with hu | ⟨s, err, hs, herr, he⟩
      · exact Or.inl hu
      · right
        rw [hc3, hscore] at hs
        simp only [Option.some.injEq] at hs
        subst hs
        rw [hfr.2.1] at he
        exact ⟨err, herr, he⟩

/-- C10 at `exDocZero`: the only "known_affected" id has base score 0.0 and
no threat, and no record is returned. -/
theorem knownAffected_zero_score_excluded_witness :
    productStatus (exEntryZero [] ["BaseOS-9:bash"]) "known_affected" = [] ++ "BaseOS-9:bash" :: [] ∧
    (exCreatorZero [] ["BaseOS-9:bash"]).c.FindThreat "BaseOS-9:bash" "impact" = none ∧
    (exCreatorZero [] ["BaseOS-9:bash"]).c.FindScore "BaseOS-9:bash" = some exZeroScore ∧
    cvssBaseScoreFromScore exZeroScore = 0 ∧
    Res.map Prod.snd ((exCreatorZero [] ["BaseOS-9:bash"]).knownAffectedVulnerabilities exEnv 3
      (exEntryZero [] ["BaseOS-9:bash"]) (exProtoZero [] ["BaseOS-9:bash"])) = .ok [] ∧
    (∀ (c1 c2 : creator) (r : claircore.Vulnerability),
      c1.c = (exCreatorZero [] ["BaseOS-9:bash"]).c →
      c1.knownAffectedEntry exEnv 3 (exProtoZero [] ["BaseOS-9:bash"]) "BaseOS-9:bash"
        ≠ .ok (c2, some r)) :=
  ⟨by decide, by decide, by decide, by decide, by decide,
    (knownAffected_zero_score_excluded exEnv 3 (exCreatorZero [] ["BaseOS-9:bash"])
      (exEntryZero [] ["BaseOS-9:bash"]) (exProtoZero [] ["BaseOS-9:bash"]) [] []
      "BaseOS-9:bash" exZeroScore (by decide) (by decide) (by decide) (by decide)).1⟩

/-! ## Enough recursion depth: `DeltaParse` returns on acyclic documents -/

theorem walkRelationships_returns {c : csaf.CSAF} (hac : Acyclic c) (productID : String) :
    ∃ n, ∀ fuel, n ≤ fuel → walkRelationships fuel productID c ≠ .diverge := by
  cases hrel : c.FindRelationship productID "default_component_of" with
  | none =>
    refine ⟨0, fun fuel _ h => ?_⟩
    simp [walkRelationships, hrel] at h
  | some rel =>
    obtain ⟨lp, hp⟩ := Leaves.exists_of_acyclic hac rel.ProductRef
    obtain ⟨lr, hr⟩ := Leaves.exists_of_acyclic hac rel.RelatesToProductRef
    obtain ⟨n, hn⟩ := extractProductNames_of_leaves hp hr
    refine ⟨n, fun fuel hfuel h => ?_⟩
    rw [walkRelationships_of_extract hrel (hn fuel hfuel [])] at h
    split_ifs at h

theorem exists_bound_of_forall_mem {α : Type} (P : α → Nat → Prop)
    (hmono : ∀ a n m, n ≤ m → P a n → P a m) :
    ∀ l : List α, (∀ a ∈ l, ∃ n, P a n) → ∃ n, ∀ a ∈ l, P a n := by
  intro l
  induction l with
  | nil => intro _; exact ⟨0, fun a ha => by cases ha⟩
  | cons x rest ih =>
    intro h
    obtain ⟨n1, h1⟩ := h x (List.mem_cons_self _ _)
    obtain ⟨n2, h2⟩ := ih (fun a ha => h a (List.mem_cons_of_mem _ ha))
    refine ⟨max n1 n2, fun a ha => ?_⟩
    rcases List.mem_cons.mp ha with rfl | ha
    · exact hmono _ _ _ (le_max_left _ _) h1
    · exact hmono _ _ _ (le_max_right _ _) (h2 a ha)

theorem createPackageModule_ne_diverge (env : Env) (p : Option csaf.Product) :
    createPackageModule env p ≠ .diverge := by
  unfold createPackageModule
  intro h
  repeat' split at h
  all_goals cases h

theorem creator.packageModule_ne_diverge (env : Env) (c : creator) (modName : String) :
    c.packageModule env modName ≠ .diverge := by
  unfold creator.packageModule
  intro h
  split at h
  · dsimp only at h
    split at h
    · cases h
    · cases h
    · cases h
    · rename_i hd
      exact createPackageModule_ne_diverge _ _ hd
  · cases h

theorem creator.fixedResolve_diverge {env : Env} {fuel : Nat} {c : creator} {pc : String}
    (h : c.fixedResolve env fuel pc = .diverge) : walkRelationships fuel pc c.c = .diverge := by
  unfold creator.fixedResolve at h
  split at h
  · assumption
  · cases h
  · cases h
  · exfalso
    repeat' (first | (dsimp only at h; split at h) | split at h)
    all_goals try (cases h; done)
    all_goals exact creator.packageModule_ne_diverge _ _ _ (by assumption)

theorem creator.knownAffectedResolve_diverge {env : Env} {fuel : Nat} {c : creator}
    {pc : String} (h : c.knownAffectedResolve env fuel pc = .diverge) :
    walkRelationships fuel pc c.c = .diverge := by
  unfold creator.knownAffectedResolve at h
  split at h
  · assumption
  · cases h
  · cases h
  · exfalso
    repeat' (first | (dsimp only at h; split at h) | split at h)
    all_goals try (cases h; done)
    all_goals exact creator.packageModule_ne_diverge _ _ _ (by assumption)

theorem creator.fixedRecord_ne_diverge (env : Env) (c : creator)
    (proto : claircore.Vulnerability) (pc : String) (t : fixedTarget) :
    c.fixedRecord env proto pc t ≠ .diverge := by
  unfold creator.fixedRecord
  intro h
  repeat' (first | (dsimp only at h; split at h) | split at h)
  all_goals cases h

theorem creator.knownAffectedRecord_ne_diverge (env : Env) (c : creator)
    (proto : claircore.Vulnerability) (pc : String) (t : knownAffectedTarget) :
    c.knownAffectedRecord env proto pc t ≠ .diverge := by
  unfold creator.knownAffectedRecord
  intro h
  repeat' (first | (dsimp only at h; split at h) | split at h)
  all_goals cases h

theorem creator.fixedLoop_diverge {env : Env} {fuel : Nat} {proto : claircore.Vulnerability} :
    ∀ (ids : List String) (c : creator),
      creator.fixedLoop env fuel proto ids c = .diverge →
      ∃ p ∈ ids, walkRelationships fuel p c.c = .diverge := by
  intro ids
  induction ids with
  | nil => intro c h; cases h
  | cons x rest ih =>
    intro c h
    simp only [creator.fixedLoop] at h
    split at h
    · rename_i c1 he
      obtain ⟨p, hp, hw⟩ := ih c1 h
      rw [(creator.fixedEntry_step he).1] at hw
      exact ⟨p, List.mem_cons_of_mem _ hp, hw⟩
    · cases h
    · cases h
    · rename_i he
      refine ⟨x, List.mem_cons_self _ _, ?_⟩
      unfold creator.fixedEntry at he
      split at he
      · exact creator.fixedResolve_diverge (by assumption)
      · cases he
      · cases he
      · cases he
      · rename_i c3 t hres
        rw [← (creator.fixedResolve_frame hres).2.2.2.2.1]
        exact absurd he (creator.fixedRecord_ne_diverge _ _ _ _ _)

theorem creator.knownAffectedLoop_diverge {env : Env} {fuel : Nat}
    {proto : claircore.Vulnerability} :
    ∀ (ids : List String) (c : creator) (out : List claircore.Vulnerability),
      creator.knownAffectedLoop env fuel proto ids c out = .diverge →
      ∃ p ∈ ids, walkRelationships fuel p c.c = .diverge := by
  intro ids
  induction ids with
  | nil => intro c out h; cases h
  | cons x rest ih =>
    intro c out h
    simp only [creator.knownAffectedLoop] at h
    split at h
    · rename_i c1 he
      obtain ⟨p, hp, hw⟩ := ih c1 _ h
      rw [(creator.knownAffectedEntry_frame he).1.2.2.2.2] at hw
      exact ⟨p, List.mem_cons_of_mem _ hp, hw⟩
    · rename_i c1 vuln he
      obtain ⟨p, hp, hw⟩ := ih c1 _ h
      rw [(creator.knownAffectedEntry_frame he).1.2.2.2.2] at hw
      exact ⟨p, List.mem_cons_of_mem _ hp, hw⟩
    · cases h
    · cases h
    · rename_i he
      refine ⟨x, List.mem_cons_self _ _, ?_⟩
      unfold creator.knownAffectedEntry at he
      split at he
      · exact creator.knownAffectedResolve_diverge (by assumption)
      · cases he
      · cases he
      · cases he
      · rename_i c3 t hres
        rw [← (creator.knownAffectedResolve_frame hres).2.2.2.2.1]
        exact absurd he (creator.knownAffectedRecord_ne_diverge _ _ _ _ _)

theorem creator.fixedLoop_doc {env : Env} {fuel : Nat} {proto : claircore.Vulnerability} :
    ∀ (ids : List String) (c c2 : creator),
      creator.fixedLoop env fuel proto ids c = .ok c2 → c2.c = c.c := by
  intro ids
  induction ids with
  | nil =>
    intro c c2 h
    simp only [creator.fixedLoop, Res.ok.injEq] at h
    rw [h]
  | cons x rest ih =>
    intro c c2 h
    obtain ⟨c1, he, hl⟩ := creator.fixedLoop_cons h
    exact (ih c1 c2 hl).trans (creator.fixedEntry_step he).1

theorem Updater.vulnLoop_diverge (u : Updater) (env : Env) (fuel : Nat) (name selfLink : String) :
    ∀ (vs : List csaf.Vulnerability) (cr : creator)
      (out : List (String × List claircore.Vulnerability)),
      Updater.vulnLoop u env fuel name selfLink vs cr out = .diverge →
      ∃ v ∈ vs, ∃ p, (p ∈ productStatus v "fixed" ∨ p ∈ productStatus v "known_affected") ∧
        walkRelationships fuel p cr.c = .diverge := by
  intro vs
  induction vs with
  | nil => intro cr out h; cases h
  | cons v rest ih =>
    intro cr out h
    simp only [Updater.vulnLoop] at h
    split at h
    · cases h
    · cases h
    · rename_i hfix
      unfold creator.fixedVulnerabilities at hfix
      split at hfix
      · cases hfix
      · cases hfix
      · cases hfix
      · rename_i hl
        obtain ⟨p, hp, hw⟩ := creator.fixedLoop_diverge _ _ hl
        exact ⟨v, List.mem_cons_self _ _, p, Or.inl hp, hw⟩
    · rename_i cr1 fixedVulns hfix
      have hc1 : cr1.c = cr.c := by
        unfold creator.fixedVulnerabilities at hfix
        split at hfix
        · rename_i c1 hl
          simp only [Res.ok.injEq, Prod.mk.injEq] at hfix
          rw [← hfix.1]
          exact creator.fixedLoop_doc _ _ _ hl
        · cases hfix
        · cases hfix
        · cases hfix
      split at h
      · cases h
      · cases h
      · rename_i hk
        obtain ⟨p, hp, hw⟩ := creator.knownAffectedLoop_diverge _ _ _ hk
        rw [hc1] at hw
        exact ⟨v, List.mem_cons_self _ _, p, Or.inr hp, hw⟩
      · rename_i cr2 known hk
        have hc2 : cr2.c = cr1.c :=
          (creator.knownAffectedLoop_frame (protoVuln u name selfLink v).Name rfl _ _ _ _ _ hk
            (by simp)).1.2.2.2.2
        obtain ⟨v2, hv2, p, hp, hw⟩ := ih cr2 _ h
        rw [hc2, hc1] at hw
        exact ⟨v2, List.mem_cons_of_mem _ hv2, p, hp, hw⟩

theorem Updater.docLoop_diverge (u : Updater) (env : Env) (fuel : Nat) :
    ∀ (l : List (Except GoError csaf.CSAF)) (st : parseState),
      Updater.docLoop u env fuel l st = .diverge →
      ∃ d, Except.ok d ∈ l ∧ ∃ v ∈ d.Vulnerabilities, ∃ p,
        (p ∈ productStatus v "fixed" ∨ p ∈ productStatus v "known_affected") ∧
        walkRelationships fuel p d = .diverge := by
  intro l
  induction l with
  | nil => intro st h; cases h
  | cons x rest ih =>
    intro st h
    cases x with
    | error err => simp [Updater.docLoop] at h
    | ok c =>
      simp only [Updater.docLoop] at h
      split at h
      · obtain ⟨d, hd, hrest⟩ := ih _ h
        exact ⟨d, List.mem_cons_of_mem _ hd, hrest⟩
      · split at h
        · cases h
        · cases h
        · rename_i hv
          obtain ⟨v, hv1, p, hp, hw⟩ := Updater.vulnLoop_diverge u env fuel _ _ _ _ _ hv
          exact ⟨c, List.mem_cons_self _ _, v, hv1, p, hp, hw⟩
        · obtain ⟨d, hd, hrest⟩ := ih _ h
          exact ⟨d, List.mem_cons_of_mem _ hd, hrest⟩

/-- On a stream whose documents have acyclic relationship tables `DeltaParse`
returns (normally, with an error, or with a panic) once the recursion bound
is large enough: the bound is an artefact of the model and is not reached. -/
theorem Updater.DeltaParse_returns (u : Updater) (env : Env)
    (iter : List (String × List claircore.Vulnerability) →
      List (String × List claircore.Vulnerability))
    (contents : List (Except GoError csaf.CSAF))
    (hac : ∀ d, Except.ok d ∈ contents → Acyclic d) :
    ∃ n, ∀ fuel, n ≤ fuel → Updater.DeltaParse u env fuel iter contents ≠ .diverge := by
  have hids : ∀ (d : csaf.CSAF), Acyclic d → ∀ ids : List String,
      ∃ n, ∀ p ∈ ids, ∀ fuel, n ≤ fuel → walkRelationships fuel p d ≠ .diverge := by
    intro d hd ids
    exact exists_bound_of_forall_mem
      (fun p n => ∀ fuel, n ≤ fuel → walkRelationships fuel p d ≠ .diverge)
      (fun p n m hnm h fuel hf => h fuel (le_trans hnm hf)) ids
      (fun p _ => walkRelationships_returns hd p)
  have hvs : ∀ (d : csaf.CSAF), Acyclic d → ∀ vs : List csaf.Vulnerability,
      ∃ n, ∀ v ∈ vs, ∀ p,
        (p ∈ productStatus v "fixed" ∨ p ∈ productStatus v "known_affected") →
        ∀ fuel, n ≤ fuel → walkRelationships fuel p d ≠ .diverge := by
    intro d hd vs
    refine exists_bound_of_forall_mem
      (fun v n => ∀ p, (p ∈ productStatus v "fixed" ∨ p ∈ productStatus v "known_affected") →
        ∀ fuel, n ≤ fuel → walkRelationships fuel p d ≠ .diverge)
      (fun v n m hnm h p hp fuel hf => h p hp fuel (le_trans hnm hf)) vs ?_
    intro v _
    obtain ⟨n1, h1⟩ := hids d hd (productStatus v "fixed")
    obtain ⟨n2, h2⟩ := hids d hd (productStatus v "known_affected")
    refine ⟨max n1 n2, fun p hp fuel hf => ?_⟩
    rcases hp with hp | hp
    · exact h1 p hp fuel (le_trans (le_max_left _ _) hf)
    · exact h2 p hp fuel (le_trans (le_max_right _ _) hf)
  have hdocs : ∃ n, ∀ x ∈ contents, ∀ d, x = Except.ok d → ∀ v ∈ d.Vulnerabilities, ∀ p,
      (p ∈ productStatus v "fixed" ∨ p ∈ productStatus v "known_affected") →
      ∀ fuel, n ≤ fuel → walkRelationships fuel p d ≠ .diverge := by
    refine exists_bound_of_forall_mem
      (fun (x : Except GoError csaf.CSAF) n => ∀ d, x = Except.ok d → ∀ v ∈ d.Vulnerabilities,
        ∀ p, (p ∈ productStatus v "fixed" ∨ p ∈ productStatus v "known_affected") →
        ∀ fuel, n ≤ fuel → walkRelationships fuel p d ≠ .diverge)
      (fun x n m hnm h d hx v hv p hp fuel hf => h d hx v hv p hp fuel (le_trans hnm hf))
      contents ?_
    intro x hx
    cases x with
    | error e => exact ⟨0, fun d hd => by cases hd⟩
    | ok d0 =>
      obtain ⟨n, hn⟩ := hvs d0 (hac d0 hx) d0.Vulnerabilities
      refine ⟨n, fun d hd => ?_⟩
      simp only [Except.ok.injEq] at hd
      subst hd
      exact hn
  obtain ⟨n, hn⟩ := hdocs
  refine ⟨n, fun fuel hf h => ?_⟩
  unfold Updater.DeltaParse at h
  split at h
  · cases h
  · cases h
  · rename_i hloop
    obtain ⟨d, hd, v, hv, p, hp, hw⟩ := Updater.docLoop_diverge u env fuel _ _ hloop
    exact hn _ hd d rfl v hv p hp fuel hf hw
  · cases h

/-! ## The recursion bound does not matter once a call returns -/

theorem walkRelationships_stable {fuel fuel2 : Nat} (hle : fuel ≤ fuel2) (p : String)
    (c : csaf.CSAF) (h : walkRelationships fuel p c ≠ .diverge) :
    walkRelationships fuel2 p c = walkRelationships fuel p c := by
  unfold walkRelationships at h ⊢
  cases hrel : c.FindRelationship p "default_component_of" with
  | none => rfl
  | some rel =>
    simp only [hrel] at h ⊢
    cases hL : extractProductNames fuel rel.ProductRef rel.RelatesToProductRef [] c with
    | none => simp [hL] at h
    | some L => rw [extractProductNames_mono_le c fuel fuel2 hle _ _ _ _ hL]

theorem creator.fixedEntry_stable {env : Env} {fuel fuel2 : Nat} (hle : fuel ≤ fuel2)
    (c : creator) (proto : claircore.Vulnerability) (pc : String)
    (h : c.fixedEntry env fuel proto pc ≠ .diverge) :
    c.fixedEntry env fuel2 proto pc = c.fixedEntry env fuel proto pc := by
  have hw : walkRelationships fuel pc c.c ≠ .diverge := by
    intro hd
    apply h
    unfold creator.fixedEntry creator.fixedResolve
    rw [hd]
  unfold creator.fixedEntry creator.fixedResolve
  rw [walkRelationships_stable hle pc c.c hw]

theorem creator.knownAffectedEntry_stable {env : Env} {fuel fuel2 : Nat} (hle : fuel ≤ fuel2)
    (c : creator) (proto : claircore.Vulnerability) (pc : String)
    (h : c.knownAffectedEntry env fuel proto pc ≠ .diverge) :
    c.knownAffectedEntry env fuel2 proto pc = c.knownAffectedEntry env fuel proto pc := by
  have hw : walkRelationships fuel pc c.c ≠ .diverge := by
    intro hd
    apply h
    unfold creator.knownAffectedEntry creator.knownAffectedResolve
    rw [hd]
  unfold creator.knownAffectedEntry creator.knownAffectedResolve
  rw [walkRelationships_stable hle pc c.c hw]

theorem creator.fixedLoop_stable {env : Env} {fuel fuel2 : Nat} (hle : fuel ≤ fuel2)
    (proto : claircore.Vulnerability) :
    ∀ (ids : List String) (c : creator),
      creator.fixedLoop env fuel proto ids c ≠ .diverge →
      creator.fixedLoop env fuel2 proto ids c = creator.fixedLoop env fuel proto ids c := by
  intro ids
  induction ids with
  | nil => intro c _; rfl
  | cons x rest ih =>
    intro c h
    have he : c.fixedEntry env fuel proto x ≠ .diverge := by
      intro hd
      apply h
      simp only [creator.fixedLoop, hd]
    simp only [creator.fixedLoop, creator.fixedEntry_stable hle c proto x he] at h ⊢
    cases hres : c.fixedEntry env fuel proto x with
    | ok c1 =>
      simp only [hres] at h ⊢
      exact ih c1 h
    | error e => rfl
    | panic => rfl
    | diverge => rfl

theorem creator.knownAffectedLoop_stable {env : Env} {fuel fuel2 : Nat} (hle : fuel ≤ fuel2)
    (proto : claircore.Vulnerability) :
    ∀ (ids : List String) (c : creator) (out : List claircore.Vulnerability),
      creator.knownAffectedLoop env fuel proto ids c out ≠ .diverge →
      creator.knownAffectedLoop env fuel2 proto ids c out
        = creator.knownAffectedLoop env fuel proto ids c out := by
  intro ids
  induction ids with
  | nil => intro c out _; rfl
  | cons x rest ih =>
    intro c out h
    have he : c.knownAffectedEntry env fuel proto x ≠ .diverge := by
      intro hd
      apply h
      simp only [creator.knownAffectedLoop, hd]
    simp only [creator.knownAffectedLoop, creator.knownAffectedEntry_stable hle c proto x he]
      at h ⊢
    cases hres : c.knownAffectedEntry env fuel proto x with
    | ok r =>
      obtain ⟨c1, o⟩ := r
      cases o with
      | none =>
        simp only [hres] at h ⊢
        exact ih c1 out h
      | some vuln =>
        simp only [hres] at h ⊢
        exact ih c1 _ h
    | error e => rfl
    | panic => rfl
    | diverge => rfl

theorem Updater.vulnLoop_stable (u : Updater) (env : Env) {fuel fuel2 : Nat} (hle : fuel ≤ fuel2)
    (name selfLink : String) :
    ∀ (vs : List csaf.Vulnerability) (cr : creator)
      (out : List (String × List claircore.Vulnerability)),
      Updater.vulnLoop u env fuel name selfLink vs cr out ≠ .diverge →
      Updater.vulnLoop u env fuel2 name selfLink vs cr out
        = Updater.vulnLoop u env fuel name selfLink vs cr out := by
  intro vs
  induction vs with
  | nil => intro cr out _; rfl
  | cons v rest ih =>
    intro cr out h
    have hf : creator.fixedLoop env fuel (protoVuln u name selfLink v) (productStatus v "fixed") cr
        ≠ .diverge := by
      intro hd
      apply h
      simp only [Updater.vulnLoop, creator.fixedVulnerabilities, hd]
    simp only [Updater.vulnLoop, creator.fixedVulnerabilities,
      creator.fixedLoop_stable hle _ _ cr hf] at h ⊢
    cases hres : creator.fixedLoop env fuel (protoVuln u name selfLink v)
        (productStatus v "fixed") cr with
    | error e => rfl
    | panic => rfl
    | diverge => rfl
    | ok cr1 =>
      simp only [hres] at h ⊢
      have hk : creator.knownAffectedLoop env fuel (protoVuln u name selfLink v)
          (productStatus v "known_affected") cr1 [] ≠ .diverge := by
        intro hd
        apply h
        simp only [creator.knownAffectedVulnerabilities, hd]
      simp only [creator.knownAffectedVulnerabilities,
        creator.knownAffectedLoop_stable hle _ _ cr1 [] hk] at h ⊢
      cases hres2 : creator.knownAffectedLoop env fuel (protoVuln u name selfLink v)
          (productStatus v "known_affected") cr1 [] with
      | error e => rfl
      | panic => rfl
      | diverge => rfl
      | ok r =>
        simp only [hres2] at h ⊢
        exact ih _ _ h

theorem Updater.docLoop_stable (u : Updater) (env : Env) {fuel fuel2 : Nat} (hle : fuel ≤ fuel2) :
    ∀ (l : List (Except GoError csaf.CSAF)) (st : parseState),
      Updater.docLoop u env fuel l st ≠ .diverge →
      Updater.docLoop u env fuel2 l st = Updater.docLoop u env fuel l st := by
  intro l
  induction l with
  | nil => intro st _; rfl
  | cons x rest ih =>
    intro st h
    cases x with
    | error err => rfl
    | ok c =>
      simp only [Updater.docLoop] at h ⊢
      by_cases hdel : c.TrackingStatus = "deleted"
      · simp only [hdel, if_true] at h ⊢
        exact ih _ h
      · simp only [hdel, if_false] at h ⊢
        have hv : Updater.vulnLoop u env fuel c.TrackingID (selfLinkOf c) c.Vulnerabilities
            (newCreator c.TrackingID (selfLinkOf c) c st.pc st.rc) st.out ≠ .diverge := by
          intro hd
          apply h
          simp only [hd]
        rw [Updater.vulnLoop_stable u env hle _ _ _ _ _ hv]
        cases hres : Updater.vulnLoop u env fuel c.TrackingID (selfLinkOf c) c.Vulnerabilities
            (newCreator c.TrackingID (selfLinkOf c) c st.pc st.rc) st.out with
        | error e => rfl
        | panic => rfl
        | diverge => rfl
        | ok r =>
          simp only [hres] at h ⊢
          exact ih _ h

/-- Once `DeltaParse` returns within a recursion bound, every larger bound
gives the same outcome. -/
theorem Updater.DeltaParse_stable (u : Updater) (env : Env) {fuel fuel2 : Nat}
    (hle : fuel ≤ fuel2)
    (iter : List (String × List claircore.Vulnerability) →
      List (String × List claircore.Vulnerability))
    (contents : List (Except GoError csaf.CSAF))
    (h : Updater.DeltaParse u env fuel iter contents ≠ .diverge) :
    Updater.DeltaParse u env fuel2 iter contents = Updater.DeltaParse u env fuel iter contents := by
  have hl : Updater.docLoop u env fuel contents
      { out := [], deleted := [], pc := newProductCache, rc := newRepoCache } ≠ .diverge := by
    intro hd
    apply h
    simp only [Updater.DeltaParse, hd]
  unfold Updater.DeltaParse
  rw [Updater.docLoop_stable u env hle _ _ hl]

/-! ## Claims on the helpers: CVSS vector, dedup key, module qualifier -/

/-- C18: `cvssVectorFromScore` takes the newest populated version in the
order v4, v3, v2, whatever older version is populated too, asks that
version's parser about that version's vector string, and returns the vector
string unchanged when the parser accepts it and an error when it does not;
with no version populated it returns an error. -/
theorem cvssVectorFromScore_selects (env : Env) (sc : csaf.Score) :
    (∀ v4, sc.CVSSV4 = some v4 →
      (env.ParseV4 v4.VectorString = none → cvssVectorFromScore env sc = .ok v4.VectorString) ∧
      (env.ParseV4 v4.VectorString ≠ none → ∃ e, cvssVectorFromScore env sc = .error e)) ∧
    (sc.CVSSV4 = none → ∀ v3, sc.CVSSV3 = some v3 →
      (env.ParseV3 v3.VectorString = none → cvssVectorFromScore env sc = .ok v3.VectorString) ∧
      (env.ParseV3 v3.VectorString ≠ none → ∃ e, cvssVectorFromScore env sc = .error e)) ∧
    (sc.CVSSV4 = none → sc.CVSSV3 = none → ∀ v2, sc.CVSSV2 = some v2 →
      (env.ParseV2 v2.VectorString = none → cvssVectorFromScore env sc = .ok v2.VectorString) ∧
      (env.ParseV2 v2.VectorString ≠ none → ∃ e, cvssVectorFromScore env sc = .error e)) ∧
    (sc.CVSSV4 = none → sc.CVSSV3 = none → sc.CVSSV2 = none →
      ∃ e, cvssVectorFromScore env sc = .error e) := by
  refine ⟨?_, ?_, ?_, ?_⟩
  · intro v4 h4
    unfold cvssVectorFromScore
    rw [h4]
    dsimp only
    constructor
    · intro hp; simp only [hp]
    · intro hp
      cases hq : env.ParseV4 v4.VectorString with
      | none => exact absurd hq hp
      | some err => exact ⟨_, rfl⟩
  · intro h4 v3 h3
    unfold cvssVectorFromScore
    rw [h4, h3]
    dsimp only
    constructor
    · intro hp; simp only [hp]
    · intro hp
      cases hq : env.ParseV3 v3.VectorString with
      | none => exact absurd hq hp
      | some err => exact ⟨_, rfl⟩
  · intro h4 h3 v2 h2
    unfold cvssVectorFromScore
    rw [h4, h3, h2]
    dsimp only
    constructor
    · intro hp; simp only [hp]
    · intro hp
      cases hq : env.ParseV2 v2.VectorString with
      | none => exact absurd hq hp
      | some err => exact ⟨_, rfl⟩
  · intro h4 h3 h2
    unfold cvssVectorFromScore
    rw [h4, h3, h2]
    exact ⟨_, rfl⟩

/-- C18 at scoring objects with complete vectors (v4 wins over a populated
v2, and the vector is returned as it is), at one with a vector cut short, and
at the empty scoring object. -/
theorem cvssVectorFromScore_selects_witness :
    cvssVectorFromScore exEnvStrict exScoreV4
      = .ok "CVSS:4.0/AV:N/AC:L/AT:N/PR:N/UI:N/VC:H/VI:H/VA:H/SC:N/SI:N/SA:N" ∧
    cvssVectorFromScore exEnvStrict exScoreV3
      = .ok "CVSS:3.1/AV:N/AC:L/PR:N/UI:N/S:U/C:H/I:H/A:H" ∧
    cvssVectorFromScore exEnvStrict exScoreV2 = .ok "AV:N/AC:L/Au:N/C:P/I:P/A:P" ∧
    (∃ e, cvssVectorFromScore exEnvStrict (exScoreBad 4) = .error e) ∧
    (∃ e, cvssVectorFromScore exEnvStrict { CVSSV2 := none, CVSSV3 := none, CVSSV4 := none }
      = .error e) :=
  ⟨((cvssVectorFromScore_selects exEnvStrict exScoreV4).1 _ rfl).1 (by decide),
    ((cvssVectorFromScore_selects exEnvStrict exScoreV3).2.1 rfl _ rfl).1 (by decide),
    ((cvssVectorFromScore_selects exEnvStrict exScoreV2).2.2.1 rfl rfl _ rfl).1 (by decide),
    ((cvssVectorFromScore_selects exEnvStrict (exScoreBad 4)).1 _ rfl).2 (by decide),
    (cvssVectorFromScore_selects exEnvStrict
      { CVSSV2 := none, CVSSV3 := none, CVSSV4 := none }).2.2.2 rfl rfl rfl⟩

/-- C19 fails on the code: for a scoring object with only CVSS v2 populated
and a vector that the v2 parser rejects, the error of `cvssVectorFromScore`
names CVSSv4, not CVSSv2.  The errors of the v4 and v3 branches name their
own version. -/
theorem cvssVectorFromScore_v2_names_v4 :
    (exScoreBad 2).CVSSV4 = none ∧ (exScoreBad 2).CVSSV3 = none ∧
    (exScoreBad 2).CVSSV2 = some { VectorString := "AV:N", BaseScore := 15 / 2 } ∧
    exEnvStrict.ParseV2 "AV:N" = some (.external "invalid vector") ∧
    cvssVectorFromScore exEnvStrict (exScoreBad 2)
      = .error (.wrapf "could not parse CVSSv4 vector string %w" [] (.external "invalid vector")) ∧
    cvssVectorFromScore exEnvStrict (exScoreBad 3)
      = .error (.wrapf "could not parse CVSSv3 vector string %w" [] (.external "invalid vector")) ∧
    cvssVectorFromScore exEnvStrict (exScoreBad 4)
      = .error (.wrapf "could not parse CVSSv4 vector string %w" [] (.external "invalid vector")) :=
  ⟨by decide, by decide, rfl, by decide, rfl, rfl, rfl⟩

/-! ### `strings.Cut` and `strings.HasPrefix` in terms of lists -/

theorem cutChars_spec (sep : Char) (l : List Char) :
    (cutChars sep l).1 = l.takeWhile (fun ch => decide (ch ≠ sep)) ∧
    (cutChars sep l).2.1 = (l.dropWhile (fun ch => decide (ch ≠ sep))).drop 1 := by
  induction l with
  | nil => exact ⟨rfl, rfl⟩
  | cons c cs ih =>
    unfold cutChars
    by_cases hc : c = sep
    · simp [hc]
    · simp only [if_neg hc]
      have hd : decide (c ≠ sep) = true := by simp [hc]
      rw [List.takeWhile_cons, List.dropWhile_cons, hd]
      simp only [if_true]
      by_cases hf : (cutChars sep cs).2.2 = true
      · simp only [if_pos hf]
        exact ⟨by rw [ih.1], ih.2⟩
      · simp only [if_neg hf]
        -- the separator does not occur: both readings keep everything
        have hnot : ∀ l : List Char, (cutChars sep l).2.2 = false →
            l.takeWhile (fun ch => decide (ch ≠ sep)) = l ∧
            l.dropWhile (fun ch => decide (ch ≠ sep)) = [] := by
          intro l
          induction l with
          | nil => intro _; exact ⟨rfl, rfl⟩
          | cons d ds ihd =>
            intro h
            unfold cutChars at h
            by_cases hd2 : d = sep
            · simp [hd2] at h
            · simp only [if_neg hd2] at h
              by_cases hg : (cutChars sep ds).2.2 = true
              · simp [hg] at h
              · have hdd : decide (d ≠ sep) = true := by simp [hd2]
                rw [List.takeWhile_cons, List.dropWhile_cons, hdd]
                simp only [if_true]
                have := ihd (by simpa using hg)
                exact ⟨by rw [this.1], this.2⟩
        have := hnot cs (by simpa using hf)
        exact ⟨by rw [this.1], by rw [this.2]; rfl⟩

theorem cut_fst (s : String) (sep : Char) : (cut s sep).1 = upToFirst sep s := by
  unfold cut upToFirst
  simp only [(cutChars_spec sep s.data).1]

theorem cut_snd (s : String) (sep : Char) : (cut s sep).2.1 = afterFirst sep s := by
  unfold cut afterFirst
  simp only [(cutChars_spec sep s.data).2]

theorem hasPrefix_iff (s pre : String) :
    hasPrefix s pre = true ↔ ∃ rest : String, s = pre ++ rest := by
  unfold hasPrefix
  rw [List.isPrefixOf_iff_prefix]
  constructor
  · rintro ⟨t, ht⟩
    refine ⟨String.mk t, ?_⟩
    apply String.ext
    rw [String.data_append, ht]
  · rintro ⟨rest, rfl⟩
    exact ⟨rest.data, by rw [String.data_append]⟩

/-- C17: `createPackageModule` on a module product: no purl helper gives the
empty qualifier without error; a purl that does not parse, or whose type is
not `rpmmod`, gives an error; namespace `redhat` gives the name, a colon and
the version up to its first colon; a namespace that begins with `redhat/`
gives the part of the namespace after its first slash; every other namespace
gives an error. -/
theorem createPackageModule_cases (env : Env) (p : csaf.Product) :
    (mapGet p.IdentificationHelper "purl" = none → createPackageModule env (some p) = .ok "") ∧
    (∀ helper, mapGet p.IdentificationHelper "purl" = some helper →
      ((env.FromString helper).2 ≠ none → ∃ e, createPackageModule env (some p) = .error e) ∧
      ((env.FromString helper).2 = none →
        ((env.FromString helper).1.Typ ≠ "rpmmod" →
          ∃ e, createPackageModule env (some p) = .error e) ∧
        ((env.FromString helper).1.Typ = "rpmmod" →
          ((env.FromString helper).1.Namespace = "redhat" →
            createPackageModule env (some p)
              = .ok ((env.FromString helper).1.Name ++ ":"
                      ++ upToFirst ':' (env.FromString helper).1.Version)) ∧
          ((∃ rest : String, (env.FromString helper).1.Namespace = "redhat/" ++ rest) →
            createPackageModule env (some p)
              = .ok (afterFirst '/' (env.FromString helper).1.Namespace)) ∧
          ((env.FromString helper).1.Namespace ≠ "redhat" →
            (¬ ∃ rest : String, (env.FromString helper).1.Namespace = "redhat/" ++ rest) →
            ∃ e, createPackageModule env (some p) = .error e)))) := by
  refine ⟨?_, ?_⟩
  · intro h
    unfold createPackageModule
    simp only [h]
  · intro helper h
    unfold createPackageModule
    simp only [h]
    rcases hfs : env.FromString helper with ⟨purl, oerr⟩
    refine ⟨?_, ?_⟩
    · intro herr
      cases oerr with
      | none => exact absurd rfl herr
      | some err => exact ⟨_, rfl⟩
    · intro herr
      simp only at herr
      subst herr
      simp only
      refine ⟨?_, ?_⟩
      · intro ht
        rw [if_pos ht]
        exact ⟨_, rfl⟩
      · intro ht
        rw [if_neg (not_not.mpr ht)]
        refine ⟨?_, ?_, ?_⟩
        · intro hns
          rw [if_pos hns, cut_fst]
        · intro hpre
          have hne : purl.Namespace ≠ "redhat" := by
            rcases hpre with ⟨rest, hrest⟩
            intro hcon
            have := congrArg String.length hcon
            rw [hrest, String.length_append] at this
            have h7 : ("redhat/" : String).length = 7 := by decide
            have h6 : ("redhat" : String).length = 6 := by decide
            omega
          rw [if_neg hne, if_pos ((hasPrefix_iff _ _).mpr hpre), cut_snd]
        · intro hne hnpre
          rw [if_neg hne, if_neg (fun hp => hnpre ((hasPrefix_iff _ _).mp hp))]
          exact ⟨_, rfl⟩

/-- C17 at the unconventional module purl of the source comment, at a
conventional one, at a purl of another type and at a purl that does not
parse. -/
theorem createPackageModule_cases_witness :
    createPackageModule exEnvModule
        (some (exModuleProduct "pkg:rpmmod/redhat/postgresql:15/postgresql"))
      = .ok "postgresql:15" ∧
    afterFirst '/' "redhat/postgresql:15" = "postgresql:15" ∧
    createPackageModule exEnvModule
        (some (exModuleProduct "pkg:rpmmod/redhat/postgresql@15:8080020230822203025:63b34585"))
      = .ok "postgresql:15" ∧
    (∃ e, createPackageModule exEnvModule (some (exModuleProduct "pkg:rpm/redhat/postgresql@15"))
      = .error e) ∧
    (∃ e, createPackageModule exEnvModule (some (exModuleProduct "postgresql")) = .error e) ∧
    createPackageModule exEnvModule (some { ID := "postgresql:15", IdentificationHelper := [] })
      = .ok "" :=
  ⟨(((createPackageModule_cases exEnvModule
        (exModuleProduct "pkg:rpmmod/redhat/postgresql:15/postgresql")).2 _ rfl).2 rfl).2 rfl
      |>.2.1 ⟨"postgresql:15", by decide⟩,
    by decide,
    (((createPackageModule_cases exEnvModule
        (exModuleProduct "pkg:rpmmod/redhat/postgresql@15:8080020230822203025:63b34585")).2 _
        rfl).2 rfl).2 rfl |>.1 (by decide),
    (((createPackageModule_cases exEnvModule
        (exModuleProduct "pkg:rpm/redhat/postgresql@15")).2 _ rfl).2 rfl).1 (by decide),
    ((createPackageModule_cases exEnvModule (exModuleProduct "postgresql")).2 _ rfl).1 (by decide),
    (createPackageModule_cases exEnvModule
      { ID := "postgresql:15", IdentificationHelper := [] }).1 rfl⟩

/-- C20 fails on the code: `createPackageKey` joins its four arguments with
separators that may occur in them, so different tuples get the same key.  The
key has the format of the source comment.  In `exDocPython` the "fixed"
product ids of the packages `python3-idle` (no epoch) and `python3` (epoch
qualifier `idle-0`) get the same key, and `fixedVulnerabilities` files one
record for both, under the name `python3-idle`. -/
theorem createPackageKey_collision :
    createPackageKey "AppStream-8.2.0.Z.TUS" "a_module" "python3-idle" "0:3.6.8-24.el8_2.2"
      = "AppStream-8.2.0.Z.TUS:a_module:python3-idle-0:3.6.8-24.el8_2.2" ∧
    createPackageKey "AppStream" "postgresql:15" "postgresql" "0:15.2-1.el8"
      = createPackageKey "AppStream:postgresql" "15" "postgresql" "0:15.2-1.el8" ∧
    ("AppStream", "postgresql:15") ≠ ("AppStream:postgresql", "15") ∧
    createPackageKey "BaseOS-9" "" "python3-idle" "0:3.6.8-24.el8"
      = createPackageKey "BaseOS-9" "" "python3" "idle-0:3.6.8-24.el8" ∧
    ("python3-idle", "0:3.6.8-24.el8") ≠ ("python3", "idle-0:3.6.8-24.el8") ∧
    Res.map (fun t => t.map (fun x => (x.purl.Name, epochVersion x.purl, x.vulnKey)))
        (fixedTargetOf exEnvMore 3 exDocPython (exCreatorOf exDocPython).product
          "BaseOS-9:python3-idle.x86_64")
      = .ok (some ("python3-idle", "0:3.6.8-24.el8", "BaseOS-9::python3-idle-0:3.6.8-24.el8")) ∧
    Res.map (fun t => t.map (fun x => (x.purl.Name, epochVersion x.purl, x.vulnKey)))
        (fixedTargetOf exEnvMore 3 exDocPython (exCreatorOf exDocPython).product
          "BaseOS-9:python3.aarch64")
      = .ok (some ("python3", "idle-0:3.6.8-24.el8", "BaseOS-9::python3-idle-0:3.6.8-24.el8")) ∧
    Res.map Prod.snd ((exCreatorOf exDocPython).fixedVulnerabilities exEnvMore 3
        (exEntry ["BaseOS-9:python3-idle.x86_64", "BaseOS-9:python3.aarch64"] [])
        (exProtoOf exDocPython
          (exEntry ["BaseOS-9:python3-idle.x86_64", "BaseOS-9:python3.aarch64"] [])))
      = .ok [exRecord "CVE-2024-0007"
              { Name := "python3-idle", Kind := .BINARY, Module := "", Arch := "x86_64|aarch64" }
              "0:3.6.8-24.el8" .OpPatternMatch] ∧
    Updater.DeltaParse exUpdater exEnvMore 3 id [.ok exDocPython]
      = .ok ([exRecord "CVE-2024-0007"
              { Name := "python3-idle", Kind := .BINARY, Module := "", Arch := "x86_64|aarch64" }
              "0:3.6.8-24.el8" .OpPatternMatch], []) :=
  ⟨by decide, by decide, by decide, by decide, by decide, by decide, by decide, by decide,
    by decide⟩

/-! ## Claims on the aggregator: the kernel filter, the entries of a document -/

/-- C11 fails on the code: `knownAffectedVulnerabilities` tests the component
product id that `walkRelationships` returns for the prefix `kernel`, and
takes the package name from the purl afterwards.  In `exDocKernel` the
product id `BaseOS-9:kh` resolves to the component `kh`, whose purl names the
package `kernel-headers`: under "known_affected" it gets a record with
`Package.Name` "kernel-headers", from `knownAffectedVulnerabilities` and from
`DeltaParse`; under "fixed" it gets none. -/
theorem knownAffected_kernel_headers_kept :
    walkRelationships 3 "BaseOS-9:kh" (exDocKernel [] ["BaseOS-9:kh"])
      = .ok ("kh", "", "BaseOS-9") ∧
    hasPrefix "kh" "kernel" = false ∧
    hasPrefix "kernel-headers" "kernel" = true ∧
    Res.map Prod.snd ((exCreatorOf (exDocKernel [] ["BaseOS-9:kh"])).knownAffectedVulnerabilities
        exEnvMore 3 (exEntry [] ["BaseOS-9:kh"])
        (exProtoOf (exDocKernel [] ["BaseOS-9:kh"]) (exEntry [] ["BaseOS-9:kh"])))
      = .ok [exRecord "CVE-2024-0006"
              { Name := "kernel-headers", Kind := .SOURCE, Module := "", Arch := "" }
              "" .unset] ∧
    Updater.DeltaParse exUpdater exEnvMore 3 id [.ok (exDocKernel [] ["BaseOS-9:kh"])]
      = .ok ([exRecord "CVE-2024-0006"
              { Name := "kernel-headers", Kind := .SOURCE, Module := "", Arch := "" }
              "" .unset], []) ∧
    Res.map Prod.snd ((exCreatorOf (exDocKernel ["BaseOS-9:kh"] [])).fixedVulnerabilities
        exEnvMore 3 (exEntry ["BaseOS-9:kh"] [])
        (exProtoOf (exDocKernel ["BaseOS-9:kh"] []) (exEntry ["BaseOS-9:kh"] [])))
      = .ok [] :=
  ⟨by decide, by decide, by decide, by decide, by decide, by decide⟩

/-- C13 fails on the code: `DeltaParse` assigns the combined list of an entry
to the name of the document, so the "known_affected" records of every entry
but the last are lost.  `exDocTwoEntries` has a "known_affected" product id
in its first entry and a "fixed" one in its second: the stored list holds the
"fixed" record only.  In `exDocTwoEntriesEmpty` the second entry names no
product: the stored list is empty and the advisory is reported as deleted.
The "known_affected" result of the first entry alone is one record. -/
theorem DeltaParse_drops_earlier_known_affected :
    Res.map Prod.snd ((exCreatorOf exDocTwoEntries).knownAffectedVulnerabilities exEnv 3
        (exEntry [] ["BaseOS-9:bash"]) (exProtoOf exDocTwoEntries (exEntry [] ["BaseOS-9:bash"])))
      = .ok [exKnownRecord "CVE-2024-0008"] ∧
    Updater.docResult exUpdater exEnv 3 exDocTwoEntries newProductCache newRepoCache
      = .ok [exRecord "CVE-2024-0008"
              { Name := "bash", Kind := .BINARY, Module := "", Arch := "x86_64" }
              "0:5.1.8-6.el9" .OpPatternMatch] ∧
    Updater.DeltaParse exUpdater exEnv 3 id [.ok exDocTwoEntries]
      = .ok ([exRecord "CVE-2024-0008"
              { Name := "bash", Kind := .BINARY, Module := "", Arch := "x86_64" }
              "0:5.1.8-6.el9" .OpPatternMatch], []) ∧
    Updater.docResult exUpdater exEnv 3 exDocTwoEntriesEmpty newProductCache newRepoCache
      = .ok [] ∧
    Updater.DeltaParse exUpdater exEnv 3 id [.ok exDocTwoEntriesEmpty]
      = .ok ([], ["CVE-2024-0008"]) :=
  ⟨by decide, by decide, by decide, by decide, by decide⟩

/-! ## Claims on the aggregator: the record of a new "fixed" entry -/

/-- C16: a "fixed" product id that passes the filters with package purl
`t.purl`, whose dedup key is not filed yet, and whose turn of the loop returns
normally, appends one record: its `FixedInVersion` is the "epoch" qualifier of
the purl ("0" when the purl has none), a colon and the version of the purl;
its package has the name of the purl and binary kind; and with a non-empty
"arch" qualifier the package has that architecture and the record the
pattern-match operation. -/
theorem fixedEntry_new_record {env : Env} {fuel : Nat} {c c2 : creator}
    {proto : claircore.Vulnerability} {pc : String} {t : fixedTarget}
    (ht : fixedTargetOf env fuel c.c c.product pc = .ok (some t))
    (hnew : mapGet c.uniqueVulnsIdx t.vulnKey = none)
    (h : c.fixedEntry env fuel proto pc = .ok c2) :
    ∃ r pkg, c2.fixedVulns = c.fixedVulns ++ [r] ∧
      r.FixedInVersion
        = (mapGet t.purl.QualifiersMap "epoch").getD "0" ++ ":" ++ t.purl.Version ∧
      r.Package = some pkg ∧ pkg.Name = t.purl.Name ∧ pkg.Kind = .BINARY ∧
      (∀ a, mapGet t.purl.QualifiersMap "arch" = some a → a ≠ "" →
        pkg.Arch = a ∧ r.ArchOperation = .OpPatternMatch) := by
  obtain ⟨_, _, hstep⟩ := creator.fixedEntry_step h
  rcases hstep with ⟨hnone, _, _⟩ | ⟨t2, c3, ht2, hf3, hi3, hrec⟩
  · rw [ht] at hnone
    cases hnone
  · rw [ht] at ht2
    simp only [Res.ok.injEq, Option.some.injEq] at ht2
    subst ht2
    obtain ⟨_, _, hcase, _⟩ := creator.fixedRecord_cases hrec
    rw [hi3] at hcase
    obtain ⟨_, r, hfv, hpkg, hfix, hop⟩ := hcase hnew
    refine ⟨r, _, by rw [hfv, hf3], ?_, hpkg, rfl, rfl, ?_⟩
    · rw [hfix]
      unfold epochVersion
      cases mapGet t.purl.QualifiersMap "epoch" <;> rfl
    · intro a ha hne
      have harch : t.arch = a := by
        unfold fixedTarget.arch
        rw [ha]
        rfl
      refine ⟨harch, ?_⟩
      rw [hop, harch, if_pos hne]

/-- C16 at `exDocBash`: the purl `pkg:rpm/redhat/bash@5.1.8-6.el9?arch=x86_64`
in the repository of CPE `cpe:/o:redhat:enterprise_linux:9` gives one record
with `FixedInVersion` "0:5.1.8-6.el9", architecture "x86_64" and the
pattern-match operation. -/
theorem fixedEntry_new_record_witness :
    Updater.DeltaParse exUpdater exEnv 3 id [.ok exDocBash]
      = .ok ([exRecord "CVE-2024-0009"
              { Name := "bash", Kind := .BINARY, Module := "", Arch := "x86_64" }
              "0:5.1.8-6.el9" .OpPatternMatch], []) ∧
    ∃ c2, (exCreatorOf exDocBash).fixedEntry exEnv 3
        (exProtoOf exDocBash (exEntry ["BaseOS-9:bash.x86_64"] [])) "BaseOS-9:bash.x86_64"
        = .ok c2 ∧
      ∃ r pkg, c2.fixedVulns = [] ++ [r] ∧
        r.FixedInVersion = "0:5.1.8-6.el9" ∧
        r.Package = some pkg ∧ pkg.Name = "bash" ∧ pkg.Kind = .BINARY ∧
        (∀ a, mapGet (exTargetArch "x86_64").purl.QualifiersMap "arch" = some a → a ≠ "" →
          pkg.Arch = a ∧ r.ArchOperation = .OpPatternMatch) := by
  refine ⟨by decide, ?_⟩
  have hev : Res.map (fun c => c.fixedVulns) ((exCreatorOf exDocBash).fixedEntry exEnv 3
      (exProtoOf exDocBash (exEntry ["BaseOS-9:bash.x86_64"] [])) "BaseOS-9:bash.x86_64")
      = .ok [exRecord "CVE-2024-0009"
              { Name := "bash", Kind := .BINARY, Module := "", Arch := "x86_64" }
              "0:5.1.8-6.el9" .OpPatternMatch] := by decide
  cases hres : (exCreatorOf exDocBash).fixedEntry exEnv 3
      (exProtoOf exDocBash (exEntry ["BaseOS-9:bash.x86_64"] [])) "BaseOS-9:bash.x86_64" with
  | error e => rw [hres] at hev; cases hev
  | panic => rw [hres] at hev; cases hev
  | diverge => rw [hres] at hev; cases hev
  | ok c2 =>
    exact ⟨c2, rfl,
      fixedEntry_new_record (t := exTargetArch "x86_64") (by decide) (by decide) hres⟩

/-! ### The kernel filter of `fixedVulnerabilities` -/

/-- A "fixed" product id that passes the filters has a package purl whose
name does not begin with `kernel`. -/
theorem fixedTargetOf_not_kernel {env : Env} {fuel : Nat} {doc : csaf.CSAF}
    {product : String → Option csaf.Product} {pc : String} {t : fixedTarget}
    (h : fixedTargetOf env fuel doc product pc = .ok (some t)) :
    hasPrefix t.purl.Name "kernel" = false := by
  unfold fixedTargetOf at h
  repeat' (split at h)
  all_goals try (cases h; done)
  all_goals
    simp only [Res.ok.injEq, Option.some.injEq] at h
    subst h
    simp only [Bool.not_eq_true] at *
    assumption

theorem creator.fixedEntry_noKernel {env : Env} {fuel : Nat} {c c2 : creator}
    {proto : claircore.Vulnerability} {pc : String}
    (h : c.fixedEntry env fuel proto pc = .ok c2) (hinv : c.noKernel) : c2.noKernel := by
  obtain ⟨_, _, hstep⟩ := creator.fixedEntry_step h
  rcases hstep with ⟨_, hfv, _⟩ | ⟨t, c3, ht, hf3, _, hrec⟩
  · intro r hr
    rw [hfv] at hr
    exact hinv r hr
  · have hk := fixedTargetOf_not_kernel ht
    obtain ⟨_, _, hnew, hold⟩ := creator.fixedRecord_cases hrec
    cases hm : mapGet c3.uniqueVulnsIdx t.vulnKey with
    | none =>
      obtain ⟨_, r0, hfv, hpkg, _, _⟩ := hnew hm
      intro r hr pkg hp
      rw [hfv, hf3] at hr
      rcases List.mem_append.mp hr with h1 | h1
      · exact hinv r h1 pkg hp
      · rw [List.mem_singleton] at h1
        subst h1
        rw [hpkg] at hp
        simp only [Option.some.injEq] at hp
        rw [← hp]
        exact hk
    | some i =>
      obtain ⟨_, r0, r2, hget, hfv, harch, hnoarch⟩ := hold i hm
      have hr0 : r0 ∈ c.fixedVulns := by
        rw [← hf3]
        exact List.get?_mem hget
      intro r hr pkg hp
      rw [hfv, hf3] at hr
      rcases List.mem_or_eq_of_mem_set hr with h1 | h1
      · exact hinv r h1 pkg hp
      · subst h1
        by_cases ha : t.arch = ""
        · rw [hnoarch ha] at hp
          simp only [Option.some.injEq] at hp
          rw [← hp]
          exact hk
        · obtain ⟨pkg0, hp0, hr2⟩ := harch ha
          rw [hr2] at hp
          simp only [Option.some.injEq] at hp
          rw [← hp]
          exact hinv r0 hr0 pkg0 hp0

theorem creator.fixedLoop_noKernel {env : Env} {fuel : Nat} {proto : claircore.Vulnerability}
    (ids : List String) :
    ∀ (c c2 : creator), creator.fixedLoop env fuel proto ids c = .ok c2 → c.noKernel →
      c2.noKernel := by
  induction ids with
  | nil =>
    intro c c2 h hinv
    simp only [creator.fixedLoop, Res.ok.injEq] at h
    rw [← h]
    exact hinv
  | cons pc rest ih =>
    intro c c2 h hinv
    unfold creator.fixedLoop at h
    split at h
    · rename_i c1 hent
      exact ih c1 c2 h (creator.fixedEntry_noKernel hent hinv)
    · cases h
    · cases h
    · cases h

/-- The half of the kernel filter that holds: no record that
`fixedVulnerabilities` returns for a creator without records has a package
whose name begins with `kernel`. -/
theorem creator.fixedVulnerabilities_noKernel {env : Env} {fuel : Nat} {c c2 : creator}
    {v : csaf.Vulnerability} {proto : claircore.Vulnerability}
    {out : List claircore.Vulnerability} (hinv : c.noKernel)
    (h : c.fixedVulnerabilities env fuel v proto = .ok (c2, out)) :
    ∀ r ∈ out, ∀ pkg, r.Package = some pkg → hasPrefix pkg.Name "kernel" = false := by
  unfold creator.fixedVulnerabilities at h
  split at h
  · rename_i c1 hloop
    simp only [Res.ok.injEq, Prod.mk.injEq] at h
    rw [← h.2]
    exact creator.fixedLoop_noKernel _ c c1 hloop hinv
  · cases h
  · cases h
  · cases h

/-! ### Documents with one vulnerability entry -/

/-- For a document with one vulnerability entry the stored list is the
"fixed" result of the entry followed by its "known_affected" result. -/
theorem Updater.docResult_single (u : Updater) (env : Env) (fuel : Nat) (d : csaf.CSAF)
    (pc : productCache) (rc : repoCache) (v : csaf.Vulnerability)
    (hv : d.Vulnerabilities = [v]) (c1 c2 : creator)
    (fixedVulns knownAffectedVulns : List claircore.Vulnerability)
    (hf : (newCreator d.TrackingID (selfLinkOf d) d pc rc).fixedVulnerabilities env fuel v
        (protoVuln u d.TrackingID (selfLinkOf d) v) = .ok (c1, fixedVulns))
    (hk : c1.knownAffectedVulnerabilities env fuel v
        (protoVuln u d.TrackingID (selfLinkOf d) v) = .ok (c2, knownAffectedVulns)) :
    Updater.docResult u env fuel d pc rc = .ok (fixedVulns ++ knownAffectedVulns) := by
  unfold Updater.docResult
  rw [hv]
  unfold Updater.vulnLoop
  rw [hf]
  dsimp only
  rw [hk]
  simp only [Updater.vulnLoop, Res.map, mapGet_mapSet, if_true, Option.getD_some]

/-! ## `escapeCPE` -/

/-! ### Splitting and joining -/

theorem splitChars_cons_sep (sep : Char) (cs : List Char) :
    splitChars sep (sep :: cs) = [] :: splitChars sep cs := by
  simp [splitChars]

theorem splitChars_cons_ne (sep c : Char) (cs : List Char) (h : c ≠ sep) :
    splitChars sep (c :: cs)
      = match splitChars sep cs with
        | [] => [[c]]
        | s :: ss => (c :: s) :: ss := by
  simp [splitChars, h]

theorem splitChars_ne_nil (sep : Char) (l : List Char) : splitChars sep l ≠ [] := by
  induction l with
  | nil => simp [splitChars]
  | cons c cs ih =>
    unfold splitChars
    split
    · simp
    · split <;> simp

theorem splitChars_of_not_mem (sep : Char) (l : List Char) (h : sep ∉ l) :
    splitChars sep l = [l] := by
  induction l with
  | nil => rfl
  | cons c cs ih =>
    have hc : c ≠ sep := fun hc => h (by simp [hc])
    have hcs : sep ∉ cs := fun hm => h (List.mem_cons_of_mem _ hm)
    unfold splitChars
    rw [if_neg hc, ih hcs]

theorem splitChars_append_sep (sep : Char) (a rest : List Char) (h : sep ∉ a) :
    splitChars sep (a ++ sep :: rest) = a :: splitChars sep rest := by
  induction a with
  | nil =>
    exact splitChars_cons_sep sep rest
  | cons c cs ih =>
    have hc : c ≠ sep := fun hc => h (by simp [hc])
    have hcs : sep ∉ cs := fun hm => h (List.mem_cons_of_mem _ hm)
    show splitChars sep (c :: (cs ++ sep :: rest)) = _
    rw [splitChars_cons_ne sep c _ hc, ih hcs]

theorem splitChars_mem_not_sep (sep : Char) (l : List Char) :
    ∀ seg ∈ splitChars sep l, sep ∉ seg := by
  induction l with
  | nil =>
    intro seg hseg
    simp [splitChars] at hseg
    subst hseg
    simp
  | cons c cs ih =>
    intro seg hseg
    unfold splitChars at hseg
    by_cases hc : c = sep
    · rw [if_pos hc] at hseg
      rcases List.mem_cons.mp hseg with h | h
      · subst h; simp
      · exact ih seg h
    · rw [if_neg hc] at hseg
      cases hs : splitChars sep cs with
      | nil => exact absurd hs (splitChars_ne_nil sep cs)
      | cons s ss =>
        rw [hs] at hseg ih
        rcases List.mem_cons.mp hseg with h | h
        · subst h
          intro hm
          rcases List.mem_cons.mp hm with h1 | h1
          · exact hc h1.symm
          · exact ih s (List.mem_cons_self _ _) h1
        · exact ih seg (List.mem_cons_of_mem _ h)

theorem splitChars_mem_subset (sep : Char) (l : List Char) :
    ∀ seg ∈ splitChars sep l, ∀ ch ∈ seg, ch ∈ l := by
  induction l with
  | nil =>
    intro seg hseg ch hch
    simp [splitChars] at hseg
    subst hseg
    cases hch
  | cons c cs ih =>
    intro seg hseg ch hch
    unfold splitChars at hseg
    by_cases hc : c = sep
    · rw [if_pos hc] at hseg
      rcases List.mem_cons.mp hseg with h | h
      · subst h; cases hch
      · exact List.mem_cons_of_mem _ (ih seg h ch hch)
    · rw [if_neg hc] at hseg
      cases hs : splitChars sep cs with
      | nil => exact absurd hs (splitChars_ne_nil sep cs)
      | cons s ss =>
        rw [hs] at hseg ih
        rcases List.mem_cons.mp hseg with h | h
        · subst h
          rcases List.mem_cons.mp hch with h1 | h1
          · subst h1; exact List.mem_cons_self _ _
          · exact List.mem_cons_of_mem _ (ih s (List.mem_cons_self _ _) ch h1)
        · exact List.mem_cons_of_mem _ (ih seg (List.mem_cons_of_mem _ h) ch hch)

theorem joinColon_data (xs : List String) :
    (joinColon xs).data = joinChars ':' (xs.map String.data) := by
  unfold joinColon
  induction xs with
  | nil => rfl
  | cons x rest ih =>
    cases rest with
    | nil => rfl
    | cons y rest2 =>
      show (x ++ ":" ++ joinWith ":" (y :: rest2)).data = _
      rw [String.data_append, String.data_append, ih]
      simp [joinChars]

theorem joinChars_splitChars (sep : Char) (l : List Char) :
    joinChars sep (splitChars sep l) = l := by
  induction l with
  | nil => rfl
  | cons c cs ih =>
    unfold splitChars
    by_cases hc : c = sep
    · rw [if_pos hc]
      cases hs : splitChars sep cs with
      | nil => exact absurd hs (splitChars_ne_nil sep cs)
      | cons s ss =>
        rw [hs] at ih
        simp only [joinChars, List.nil_append]
        rw [ih, hc]
    · rw [if_neg hc]
      cases hs : splitChars sep cs with
      | nil => exact absurd hs (splitChars_ne_nil sep cs)
      | cons s ss =>
        rw [hs] at ih
        cases ss with
        | nil =>
          simp only [joinChars] at ih ⊢
          rw [ih]
        | cons s2 ss2 =>
          simp only [joinChars] at ih ⊢
          rw [List.cons_append, ih]

theorem splitChars_joinChars (sep : Char) (xs : List (List Char)) (hne : xs ≠ [])
    (h : ∀ seg ∈ xs, sep ∉ seg) : splitChars sep (joinChars sep xs) = xs := by
  induction xs with
  | nil => exact absurd rfl hne
  | cons x rest ih =>
    cases rest with
    | nil =>
      simp only [joinChars]
      exact splitChars_of_not_mem sep x (h x (List.mem_cons_self _ _))
    | cons y rest2 =>
      simp only [joinChars]
      rw [splitChars_append_sep sep x _ (h x (List.mem_cons_self _ _))]
      rw [ih (by simp) (fun seg hseg => h seg (List.mem_cons_of_mem _ hseg))]

theorem joinColon_splitColon (s : String) : joinColon (splitColon s) = s := by
  apply String.ext
  rw [joinColon_data]
  unfold splitColon
  rw [List.map_map]
  have : (String.data ∘ String.mk) = id := by
    funext l
    rfl
  rw [this, List.map_id, joinChars_splitChars]

theorem splitColon_joinColon (xs : List String) (hne : xs ≠ [])
    (h : ∀ seg ∈ xs, ':' ∉ seg.data) : splitColon (joinColon xs) = xs := by
  unfold splitColon
  rw [joinColon_data, splitChars_joinChars ':' _ (by simpa using hne)]
  · rw [List.map_map]
    have : (String.mk ∘ String.data) = id := by
      funext l
      rfl
    rw [this, List.map_id]
  · intro seg hseg
    obtain ⟨x, hx, rfl⟩ := List.mem_map.mp hseg
    exact h x hx

/-! ### One segment -/

theorem replaceQuestion_eq_spec (l : List Char) : replaceQuestion l = replaceQuestionSpec l := by
  induction l with
  | nil => rfl
  | cons c cs ih =>
    unfold replaceQuestion replaceQuestionSpec
    rw [List.foldr_cons]
    by_cases hc : c = '?'
    · rw [if_pos hc, if_pos hc, ih]
      rfl
    · rw [if_neg hc, if_neg hc, ih]
      rfl

theorem replaceQuestion_cons (c : Char) (cs : List Char) :
    replaceQuestion (c :: cs)
      = if c = '?' then '%' :: '0' :: '1' :: replaceQuestion cs else c :: replaceQuestion cs :=
  rfl

theorem replaceQuestion_append (a b : List Char) :
    replaceQuestion (a ++ b) = replaceQuestion a ++ replaceQuestion b := by
  induction a with
  | nil => rfl
  | cons c cs ih =>
    show replaceQuestion (c :: (cs ++ b)) = replaceQuestion (c :: cs) ++ replaceQuestion b
    rw [replaceQuestion_cons, replaceQuestion_cons, ih]
    by_cases hc : c = '?'
    · rw [if_pos hc, if_pos hc]
      rfl
    · rw [if_neg hc, if_neg hc]
      rfl

theorem replaceQuestion_mem (l : List Char) (ch : Char) (h : ch ∈ replaceQuestion l) :
    (ch ∈ l ∧ ch ≠ '?') ∨ ch = '%' ∨ ch = '0' ∨ ch = '1' := by
  induction l with
  | nil => cases h
  | cons c cs ih =>
    unfold replaceQuestion at h
    by_cases hc : c = '?'
    · rw [if_pos hc] at h
      simp only [List.mem_cons] at h
      rcases h with h | h | h | h
      · exact Or.inr (Or.inl h)
      · exact Or.inr (Or.inr (Or.inl h))
      · exact Or.inr (Or.inr (Or.inr h))
      · rcases ih h with ⟨h1, h2⟩ | h1
        · exact Or.inl ⟨List.mem_cons_of_mem _ h1, h2⟩
        · exact Or.inr h1
    · rw [if_neg hc] at h
      rcases List.mem_cons.mp h with h | h
      · subst h
        exact Or.inl ⟨List.mem_cons_self _ _, hc⟩
      · rcases ih h with ⟨h1, h2⟩ | h1
        · exact Or.inl ⟨List.mem_cons_of_mem _ h1, h2⟩
        · exact Or.inr h1

theorem replaceQuestion_id (l : List Char) (h : '?' ∉ l) : replaceQuestion l = l := by
  induction l with
  | nil => rfl
  | cons c cs ih =>
    have hc : c ≠ '?' := fun hc => h (by simp [hc])
    have hcs : '?' ∉ cs := fun hm => h (List.mem_cons_of_mem _ hm)
    unfold replaceQuestion
    rw [if_neg hc, ih hcs]

theorem replaceQuestion_getLast (l : List Char) (h : (replaceQuestion l).getLast? = some '*') :
    l.getLast? = some '*' := by
  rcases List.eq_nil_or_concat l with hl | ⟨init, c, hl⟩
  · subst hl
    cases h
  · subst hl
    rw [List.concat_eq_append] at h ⊢
    rw [replaceQuestion_append] at h
    by_cases hc : c = '?'
    · subst hc
      have : replaceQuestion ['?'] = ['%', '0'] ++ ['1'] := rfl
      rw [this, ← List.append_assoc, List.getLast?_append] at h
      simp at h
    · have : replaceQuestion [c] = [c] := replaceQuestion_id [c] (by simpa using Ne.symm hc)
      rw [this, List.getLast?_append] at h
      rw [List.getLast?_append]
      exact h

theorem hasSuffix_star_iff (seg : String) :
    hasSuffix seg "*" = true ↔ seg.data.getLast? = some '*' := by
  unfold hasSuffix
  rw [List.isSuffixOf_iff_suffix]
  constructor
  · rintro ⟨t, ht⟩
    rw [← ht]
    show (t ++ ['*']).getLast? = _
    simp
  · intro h
    exact ⟨seg.data.dropLast, List.dropLast_append_getLast? _ h⟩

theorem escapeSegment_data (seg : String) :
    (escapeSegment seg).data = escapeSegmentSpec seg.data := by
  unfold escapeSegment escapeSegmentSpec
  rw [← replaceQuestion_eq_spec]
  by_cases h : seg.data.getLast? = some '*'
  · simp only [if_pos ((hasSuffix_star_iff seg).mpr h), if_pos h]
    rw [String.data_append, List.dropLast_eq_take]
  · have h2 : ¬ hasSuffix seg "*" = true := fun hs => h ((hasSuffix_star_iff seg).mp hs)
    simp only [if_neg h2, if_neg h]

theorem escapeSegment_mem (seg : String) (ch : Char) (h : ch ∈ (escapeSegment seg).data) :
    (ch ∈ seg.data ∧ ch ≠ '?') ∨ ch = '%' ∨ ch = '0' ∨ ch = '1' ∨ ch = '2' := by
  rw [escapeSegment_data] at h
  unfold escapeSegmentSpec at h
  rw [← replaceQuestion_eq_spec] at h
  rcases replaceQuestion_mem _ _ h with ⟨h1, h2⟩ | h1 | h1 | h1
  · by_cases hl : seg.data.getLast? = some '*'
    · rw [if_pos hl] at h1
      rcases List.mem_append.mp h1 with h3 | h3
      · exact Or.inl ⟨List.dropLast_subset _ h3, h2⟩
      · simp only [List.mem_cons, List.mem_singleton] at h3
        rcases h3 with h3 | h3 | h3 | h3
        · exact Or.inr (Or.inl h3)
        · exact Or.inr (Or.inr (Or.inl h3))
        · exact Or.inr (Or.inr (Or.inr (Or.inr h3)))
        · cases h3
    · rw [if_neg hl] at h1
      exact Or.inl ⟨h1, h2⟩
  · exact Or.inr (Or.inl h1)
  · exact Or.inr (Or.inr (Or.inl h1))
  · exact Or.inr (Or.inr (Or.inr (Or.inl h1)))

theorem escapeSegment_no_colon (seg : String) (h : ':' ∉ seg.data) :
    ':' ∉ (escapeSegment seg).data := by
  intro hm
  rcases escapeSegment_mem seg ':' hm with ⟨h1, _⟩ | h1 | h1 | h1 | h1
  · exact h h1
  all_goals exact absurd h1 (by decide)

theorem escapeSegment_no_question (seg : String) : '?' ∉ (escapeSegment seg).data := by
  intro hm
  rcases escapeSegment_mem seg '?' hm with ⟨_, h1⟩ | h1 | h1 | h1 | h1
  · exact h1 rfl
  all_goals exact absurd h1 (by decide)

theorem escapeSegment_no_final_star (seg : String) :
    (escapeSegment seg).data.getLast? ≠ some '*' := by
  intro h
  rw [escapeSegment_data] at h
  unfold escapeSegmentSpec at h
  rw [← replaceQuestion_eq_spec] at h
  have h2 := replaceQuestion_getLast _ h
  by_cases hl : seg.data.getLast? = some '*'
  · rw [if_pos hl] at h2
    have : seg.data.dropLast ++ ['%', '0', '2'] = (seg.data.dropLast ++ ['%', '0']) ++ ['2'] := by
      simp
    rw [this, List.getLast?_append] at h2
    simp at h2
  · rw [if_neg hl] at h2
    exact hl h2

theorem escapeSegment_id (seg : String) (hq : '?' ∉ seg.data)
    (hs : seg.data.getLast? ≠ some '*') : escapeSegment seg = seg := by
  apply String.ext
  rw [escapeSegment_data]
  unfold escapeSegmentSpec
  rw [if_neg hs, ← replaceQuestion_eq_spec, replaceQuestion_id _ hq]

theorem joinChars_mem (sep : Char) (xs : List (List Char)) (ch : Char)
    (h : ch ∈ joinChars sep xs) : ch = sep ∨ ∃ seg ∈ xs, ch ∈ seg := by
  induction xs with
  | nil => cases h
  | cons x rest ih =>
    cases rest with
    | nil => exact Or.inr ⟨x, List.mem_cons_self _ _, h⟩
    | cons y rest2 =>
      simp only [joinChars] at h
      rcases List.mem_append.mp h with h1 | h1
      · exact Or.inr ⟨x, List.mem_cons_self _ _, h1⟩
      · rcases List.mem_cons.mp h1 with h2 | h2
        · exact Or.inl h2
        · rcases ih h2 with h3 | ⟨seg, hseg, h3⟩
          · exact Or.inl h3
          · exact Or.inr ⟨seg, List.mem_cons_of_mem _ hseg, h3⟩

theorem splitColon_ne_nil (s : String) : splitColon s ≠ [] := by
  unfold splitColon
  intro h
  exact splitChars_ne_nil ':' s.data (List.map_eq_nil_iff.mp h)

theorem splitColon_mem_no_colon (s : String) : ∀ seg ∈ splitColon s, ':' ∉ seg.data := by
  intro seg hseg
  unfold splitColon at hseg
  obtain ⟨l, hl, rfl⟩ := List.mem_map.mp hseg
  exact splitChars_mem_not_sep ':' s.data l hl

theorem splitColon_mem_subset (s : String) :
    ∀ seg ∈ splitColon s, ∀ ch ∈ seg.data, ch ∈ s.data := by
  intro seg hseg
  unfold splitColon at hseg
  obtain ⟨l, hl, rfl⟩ := List.mem_map.mp hseg
  exact splitChars_mem_subset ':' s.data l hl

/-- The segments of the result of `escapeCPE` are the escaped segments of
the argument. -/
theorem splitColon_escapeCPE (s : String) :
    splitColon (escapeCPE s) = (splitColon s).map escapeSegment := by
  unfold escapeCPE
  apply splitColon_joinColon
  · intro h
    exact splitColon_ne_nil s (List.map_eq_nil_iff.mp h)
  · intro seg hseg
    obtain ⟨x, hx, rfl⟩ := List.mem_map.mp hseg
    exact escapeSegment_no_colon x (splitColon_mem_no_colon s x hx)

/-- C14: `escapeCPE` joins with colons the transformed segments of its
argument between colons, where the transformation of a segment replaces a
final `*` by `%02` and then every `?` by `%01` and leaves every other
character; the segments of the result are the transformed segments, so the
result has as many segments as the argument.  The two strings of the contract
are escaped as it says. -/
theorem escapeCPE_segments (s : String) :
    escapeCPE s
      = joinColon ((splitColon s).map (fun seg => String.mk (escapeSegmentSpec seg.data))) ∧
    splitColon (escapeCPE s)
      = (splitColon s).map (fun seg => String.mk (escapeSegmentSpec seg.data)) ∧
    (splitColon (escapeCPE s)).length = (splitColon s).length ∧
    escapeCPE "cpe:2.3:a:vendor:product:*" = "cpe:2.3:a:vendor:product:%02" ∧
    escapeCPE "cpe:2.3:a:ven?or:product:1.0" = "cpe:2.3:a:ven%01or:product:1.0" := by
  have hseg : escapeSegment = fun seg => String.mk (escapeSegmentSpec seg.data) := by
    funext seg
    apply String.ext
    exact escapeSegment_data seg
  refine ⟨?_, ?_, ?_, by decide, by decide⟩
  · rw [← hseg]
    rfl
  · rw [← hseg]
    exact splitColon_escapeCPE s
  · rw [splitColon_escapeCPE, List.length_map]

/-- C15: `escapeCPE` leaves a string without `*` and `?` as it is, and
applying it twice gives what applying it once gives: the result of
`escapeCPE` has no `?` and none of its segments ends in `*`. -/
theorem escapeCPE_idempotent (s : String) :
    ('*' ∉ s.data → '?' ∉ s.data → escapeCPE s = s) ∧
    escapeCPE (escapeCPE s) = escapeCPE s ∧
    '?' ∉ (escapeCPE s).data ∧
    (∀ seg ∈ splitColon (escapeCPE s), seg.data.getLast? ≠ some '*') := by
  refine ⟨?_, ?_, ?_, ?_⟩
  · intro hstar hq
    have hmap : (splitColon s).map escapeSegment = splitColon s := by
      conv_rhs => rw [← List.map_id (splitColon s)]
      apply List.map_congr_left
      intro seg hseg
      apply escapeSegment_id
      · exact fun hm => hq (splitColon_mem_subset s seg hseg _ hm)
      · intro hl
        exact hstar (splitColon_mem_subset s seg hseg _ (List.mem_of_mem_getLast? hl))
    unfold escapeCPE
    rw [hmap, joinColon_splitColon]
  · have hmap : ((splitColon s).map escapeSegment).map escapeSegment
        = (splitColon s).map escapeSegment := by
      rw [List.map_map]
      apply List.map_congr_left
      intro seg _
      exact escapeSegment_id _ (escapeSegment_no_question seg) (escapeSegment_no_final_star seg)
    show joinColon ((splitColon (escapeCPE s)).map escapeSegment) = escapeCPE s
    rw [splitColon_escapeCPE, hmap]
    rfl
  · intro hm
    unfold escapeCPE at hm
    rw [joinColon_data] at hm
    rcases joinChars_mem _ _ _ hm with h | ⟨seg, hseg, h⟩
    · exact absurd h (by decide)
    · rw [List.map_map] at hseg
      obtain ⟨x, _, rfl⟩ := List.mem_map.mp hseg
      exact escapeSegment_no_question x h
  · intro seg hseg
    rw [splitColon_escapeCPE] at hseg
    obtain ⟨x, _, rfl⟩ := List.mem_map.mp hseg
    exact escapeSegment_no_final_star x

/-- C15 at the CPE of the example documents, which has neither `*` nor `?`,
and at a string with both. -/
theorem escapeCPE_idempotent_witness :
    escapeCPE "cpe:/o:redhat:enterprise_linux:9" = "cpe:/o:redhat:enterprise_linux:9" ∧
    escapeCPE "cpe:/a:redhat:rhel_e?s:8.*::appstream:*" = "cpe:/a:redhat:rhel_e%01s:8.%02::appstream:%02" ∧
    escapeCPE (escapeCPE "cpe:/a:redhat:rhel_e?s:8.*::appstream:*")
      = escapeCPE "cpe:/a:redhat:rhel_e?s:8.*::appstream:*" :=
  ⟨(escapeCPE_idempotent "cpe:/o:redhat:enterprise_linux:9").1 (by decide) (by decide),
    by decide,
    (escapeCPE_idempotent "cpe:/a:redhat:rhel_e?s:8.*::appstream:*").2.1⟩

/-! ## The caches across documents -/

/-- The first part of the loop body of `knownAffectedVulnerabilities` depends
on the creator only through the document and the answers of the product
cache, and leaves those answers as they are. -/
theorem creator.knownAffectedResolve_eq (env : Env) (fuel : Nat) (c : creator) (pc : String) :
    Res.map Prod.snd (c.knownAffectedResolve env fuel pc)
      = knownTargetOf env fuel c.c c.product pc ∧
    ∀ c2 t, c.knownAffectedResolve env fuel pc = .ok (c2, t) → c2.product = c.product := by
  unfold creator.knownAffectedResolve knownTargetOf
  cases hw : walkRelationships fuel pc c.c with
  | diverge => exact ⟨rfl, fun c2 t h => by cases h⟩
  | panic => exact ⟨rfl, fun c2 t h => by cases h⟩
  | error e =>
    refine ⟨rfl, fun c2 t h => ?_⟩
    simp only [Res.ok.injEq, Prod.mk.injEq] at h
    rw [← h.1]
  | ok w =>
    obtain ⟨pkgName, modName, repoName⟩ := w
    dsimp only
    by_cases hk : hasPrefix pkgName "kernel" = true
    · simp only [if_pos hk]
      refine ⟨rfl, fun c2 t h => ?_⟩
      simp only [Res.ok.injEq, Prod.mk.injEq] at h
      rw [← h.1]
    · simp only [if_neg hk]
      have hc1 : ({ c with pc := (c.pc.Get repoName c.c).2 } : creator).product = c.product :=
        creator.product_of_Get c { c with pc := (c.pc.Get repoName c.c).2 } repoName rfl rfl
      have hrepo : c.product repoName = (c.pc.Get repoName c.c).1 := rfl
      rw [hrepo]
      cases hr : (c.pc.Get repoName c.c).1 with
      | none =>
        refine ⟨rfl, fun c2 t h => ?_⟩
        simp only [Res.ok.injEq, Prod.mk.injEq] at h
        rw [← h.1]; exact hc1
      | some repoProd =>
        dsimp only
        cases hcpe : mapGet repoProd.IdentificationHelper "cpe" with
        | none =>
          refine ⟨rfl, fun c2 t h => ?_⟩
          simp only [Res.ok.injEq, Prod.mk.injEq] at h
          rw [← h.1]; exact hc1
        | some cpeHelper =>
          dsimp only
          obtain ⟨hm1, hm2⟩ := creator.packageModule_eq env
            { c with pc := (c.pc.Get repoName c.c).2 } modName
          rw [hc1] at hm1
          rw [← hm1]
          cases hpm : creator.packageModule env
              { c with pc := (c.pc.Get repoName c.c).2 } modName with
          | diverge => exact ⟨rfl, fun c2 t h => by cases h⟩
          | panic => exact ⟨rfl, fun c2 t h => by cases h⟩
          | error e => exact ⟨rfl, fun c2 t h => by cases h⟩
          | ok mc =>
            obtain ⟨modName1, cm⟩ := mc
            have hcm : cm.product = c.product := (hm2 modName1 cm hpm).trans hc1
            have hc3 : ({ cm with pc := (cm.pc.Get pkgName cm.c).2 } : creator).product
                = c.product :=
              (creator.product_of_Get cm { cm with pc := (cm.pc.Get pkgName cm.c).2 } pkgName
                rfl rfl).trans hcm
            have hpkg : c.product pkgName = (cm.pc.Get pkgName cm.c).1 := by
              rw [← hcm]; rfl
            simp only [Res.map]
            rw [hpkg]
            cases hcomp : (cm.pc.Get pkgName cm.c).1 with
            | none =>
              refine ⟨rfl, fun c2 t h => ?_⟩
              simp only [Res.ok.injEq, Prod.mk.injEq] at h
              rw [← h.1]; exact hc3
            | some compProd =>
              dsimp only
              cases hpurl : mapGet compProd.IdentificationHelper "purl" with
              | none =>
                refine ⟨rfl, fun c2 t h => ?_⟩
                simp only [Res.ok.injEq, Prod.mk.injEq] at h
                rw [← h.1]; exact hc3
              | some purlHelper =>
                dsimp only
                by_cases hf : (env.FromString purlHelper).1.Typ ≠ packageurl.TypeRPM ∨
                    (env.FromString purlHelper).1.Namespace ≠ "redhat"
                · simp only [if_pos hf]
                  refine ⟨trivial, fun c2 t h => ?_⟩
                  simp only [Res.ok.injEq, Prod.mk.injEq] at h
                  rw [← h.1]; exact hc3
                · simp only [if_neg hf]
                  refine ⟨trivial, fun c2 t h => ?_⟩
                  simp only [Res.ok.injEq, Prod.mk.injEq] at h
                  rw [← h.1]; exact hc3

theorem Res.rel_map_eq {α β γ : Type} (f : α → γ) (g : β → γ) (r : Res α) (r2 : Res β)
    (h : Res.rel (fun x y => f x = g y) r r2) : Res.map f r = Res.map g r2 := by
  cases r <;> cases r2 <;> simp only [Res.rel] at h <;> simp [Res.map, h]

theorem Res.rel_of_map_eq {α β γ : Type} (f : α → γ) (g : β → γ) (r : Res α) (r2 : Res β)
    (h : Res.map f r = Res.map g r2) : Res.rel (fun x y => f x = g y) r r2 := by
  cases r <;> cases r2 <;> simp_all [Res.map, Res.rel]

theorem repoCache.Get_twice (env : Env) (rc : repoCache) (a b : cpe.WFN) :
    ((rc.Get env a).2.Get env b).1
      = if env.wfnString a = env.wfnString b then (rc.Get env a).1 else (rc.Get env b).1 := by
  unfold repoCache.Get
  cases ha : mapGet rc.cache (env.wfnString a) with
  | some r =>
    dsimp only
    by_cases hab : env.wfnString a = env.wfnString b
    · rw [if_pos hab, ← hab, ha]
    · rw [if_neg hab]
  | none =>
    dsimp only
    rw [mapGet_mapSet]
    by_cases hab : env.wfnString a = env.wfnString b
    · simp only [if_pos hab]
    · simp only [if_neg hab]
      cases mapGet rc.cache (env.wfnString b) <;> rfl

/-- Equal answers of two repository caches stay equal after the same lookup
in both. -/
theorem repoCache.Get_agree (env : Env) (rc1 rc2 : repoCache) (a : cpe.WFN)
    (h : ∀ s wfn, env.Unbind s = .ok wfn → (rc2.Get env wfn).1 = (rc1.Get env wfn).1)
    (s0 : String) (ha : env.Unbind s0 = .ok a) :
    ∀ s wfn, env.Unbind s = .ok wfn →
      ((rc2.Get env a).2.Get env wfn).1 = ((rc1.Get env a).2.Get env wfn).1 := by
  intro s wfn hs
  rw [repoCache.Get_twice, repoCache.Get_twice, h s0 a ha, h s wfn hs]

theorem creator.fixedResolve_sim {env : Env} {c c2 : creator} (fuel : Nat) (pc : String)
    (hs : creator.sim env c c2) :
    Res.rel (fun x y => creator.sim env x.1 y.1 ∧ x.2 = y.2)
      (c.fixedResolve env fuel pc) (c2.fixedResolve env fuel pc) := by
  obtain ⟨⟨h1, h2, h3, h4, h5⟩, hprod, hrepo⟩ := hs
  obtain ⟨he, hp⟩ := creator.fixedResolve_eq env fuel c pc
  obtain ⟨he2, hp2⟩ := creator.fixedResolve_eq env fuel c2 pc
  rw [h5, hprod, ← he] at he2
  have hrel := Res.rel_of_map_eq _ _ _ _ he2.symm
  cases hr : c.fixedResolve env fuel pc <;> cases hr2 : c2.fixedResolve env fuel pc <;>
    rw [hr, hr2] at hrel <;> simp only [Res.rel] at hrel ⊢ <;> try exact hrel
  rename_i x y
  obtain ⟨x1, x2⟩ := x
  obtain ⟨y1, y2⟩ := y
  have fx := creator.fixedResolve_frame hr
  have fy := creator.fixedResolve_frame hr2
  obtain ⟨a1, a2, a3, a4, a5, a6⟩ := fx
  obtain ⟨b1, b2, b3, b4, b5, b6⟩ := fy
  refine ⟨⟨⟨?_, ?_, ?_, ?_, ?_⟩, ?_, ?_⟩, hrel⟩
  · rw [b1, h1, a1]
  · rw [b2, h2, a2]
  · rw [b3, h3, a3]
  · rw [b4, h4, a4]
  · rw [b5, h5, a5]
  · rw [hp2 _ _ hr2, hprod, hp _ _ hr]
  · intro s wfn hu
    have := hrepo s wfn hu
    unfold creator.repo at this ⊢
    rw [b6, a6]
    exact this

theorem creator.knownAffectedResolve_sim {env : Env} {c c2 : creator} (fuel : Nat)
    (pc : String) (hs : creator.sim env c c2) :
    Res.rel (fun x y => creator.sim env x.1 y.1 ∧ x.2 = y.2)
      (c.knownAffectedResolve env fuel pc) (c2.knownAffectedResolve env fuel pc) := by
  obtain ⟨⟨h1, h2, h3, h4, h5⟩, hprod, hrepo⟩ := hs
  obtain ⟨he, hp⟩ := creator.knownAffectedResolve_eq env fuel c pc
  obtain ⟨he2, hp2⟩ := creator.knownAffectedResolve_eq env fuel c2 pc
  rw [h5, hprod, ← he] at he2
  have hrel := Res.rel_of_map_eq _ _ _ _ he2.symm
  cases hr : c.knownAffectedResolve env fuel pc <;>
    cases hr2 : c2.knownAffectedResolve env fuel pc <;>
    rw [hr, hr2] at hrel <;> simp only [Res.rel] at hrel ⊢ <;> try exact hrel
  rename_i x y
  obtain ⟨x1, x2⟩ := x
  obtain ⟨y1, y2⟩ := y
  have fx := creator.knownAffectedResolve_frame hr
  have fy := creator.knownAffectedResolve_frame hr2
  obtain ⟨a1, a2, a3, a4, a5, a6⟩ := fx
  obtain ⟨b1, b2, b3, b4, b5, b6⟩ := fy
  refine ⟨⟨⟨?_, ?_, ?_, ?_, ?_⟩, ?_, ?_⟩, hrel⟩
  · rw [b1, h1, a1]
  · rw [b2, h2, a2]
  · rw [b3, h3, a3]
  · rw [b4, h4, a4]
  · rw [b5, h5, a5]
  · rw [hp2 _ _ hr2, hprod, hp _ _ hr]
  · intro s wfn hu
    have := hrepo s wfn hu
    unfold creator.repo at this ⊢
    rw [b6, a6]
    exact this

theorem creator.fixedRecord_sim {env : Env} {c c2 : creator} (proto : claircore.Vulnerability)
    (pc : String) (t : fixedTarget) (hs : creator.sim env c c2) :
    Res.rel (creator.sim env) (c.fixedRecord env proto pc t) (c2.fixedRecord env proto pc t) := by
  obtain ⟨⟨h1, h2, h3, h4, h5⟩, hprod, hrepo⟩ := hs
  obtain ⟨vn, vl, idx, fv, d, pc1, rc1⟩ := c
  obtain ⟨vn2, vl2, idx2, fv2, d2, pc2, rc2⟩ := c2
  dsimp only at h1 h2 h3 h4 h5
  subst h1 h2 h3 h4 h5
  have hrepo2 : ∀ s wfn, env.Unbind s = .ok wfn → (rc2.Get env wfn).1 = (rc1.Get env wfn).1 :=
    hrepo
  unfold creator.fixedRecord creator.lookupVulnerability
  dsimp only
  cases hu : env.Unbind (escapeCPE t.cpeHelper) with
  | error e =>
    cases hm : mapGet idx2 t.vulnKey <;> dsimp only <;>
    repeat' (split <;> try simp only [*])
    all_goals first
      | exact trivial
      | exact rfl
      | exact ⟨⟨rfl, rfl, rfl, rfl, rfl⟩, hprod, hrepo⟩
  | ok wfn =>
    have hr := hrepo2 _ _ hu
    have hstep := repoCache.Get_agree env rc1 rc2 wfn hrepo2 _ hu
    simp only [hr]
    cases hm : mapGet idx2 t.vulnKey <;> dsimp only <;>
    repeat' (split <;> try simp only [*])
    all_goals first
      | exact trivial
      | exact rfl
      | exact ⟨⟨rfl, rfl, rfl, rfl, rfl⟩, hprod, hrepo⟩
      | exact ⟨⟨rfl, rfl, rfl, rfl, rfl⟩, hprod, hstep⟩

theorem creator.knownAffectedRecord_sim {env : Env} {c c2 : creator}
    (proto : claircore.Vulnerability) (pc : String) (t : knownAffectedTarget)
    (hs : creator.sim env c c2) :
    Res.rel (fun x y => creator.sim env x.1 y.1 ∧ x.2 = y.2)
      (c.knownAffectedRecord env proto pc t) (c2.knownAffectedRecord env proto pc t) := by
  obtain ⟨⟨h1, h2, h3, h4, h5⟩, hprod, hrepo⟩ := hs
  obtain ⟨vn, vl, idx, fv, d, pc1, rc1⟩ := c
  obtain ⟨vn2, vl2, idx2, fv2, d2, pc2, rc2⟩ := c2
  dsimp only at h1 h2 h3 h4 h5
  subst h1 h2 h3 h4 h5
  have hrepo2 : ∀ s wfn, env.Unbind s = .ok wfn → (rc2.Get env wfn).1 = (rc1.Get env wfn).1 :=
    hrepo
  unfold creator.knownAffectedRecord
  dsimp only
  cases hu : env.Unbind (escapeCPE t.cpeHelper) with
  | error e => exact rfl
  | ok wfn =>
    have hr := hrepo2 _ _ hu
    have hstep := repoCache.Get_agree env rc1 rc2 wfn hrepo2 _ hu
    simp only [hr]
    repeat' (split <;> try simp only [*])
    all_goals first
      | exact trivial
      | exact rfl
      | exact ⟨⟨⟨rfl, rfl, rfl, rfl, rfl⟩, hprod, hstep⟩, rfl⟩

theorem creator.fixedEntry_sim {env : Env} {c c2 : creator} (fuel : Nat)
    (proto : claircore.Vulnerability) (pc : String) (hs : creator.sim env c c2) :
    Res.rel (creator.sim env) (c.fixedEntry env fuel proto pc)
      (c2.fixedEntry env fuel proto pc) := by
  have hres := creator.fixedResolve_sim fuel pc hs
  unfold creator.fixedEntry
  cases hr : c.fixedResolve env fuel pc <;> cases hr2 : c2.fixedResolve env fuel pc <;>
    rw [hr, hr2] at hres <;> simp only [Res.rel] at hres ⊢ <;> try exact hres
  rename_i x y
  obtain ⟨x1, x2⟩ := x
  obtain ⟨y1, y2⟩ := y
  obtain ⟨hsim, ht⟩ := hres
  dsimp only at ht
  subst ht
  cases x2 with
  | none => exact hsim
  | some t => exact creator.fixedRecord_sim proto pc t hsim

theorem creator.knownAffectedEntry_sim {env : Env} {c c2 : creator} (fuel : Nat)
    (proto : claircore.Vulnerability) (pc : String) (hs : creator.sim env c c2) :
    Res.rel (fun x y => creator.sim env x.1 y.1 ∧ x.2 = y.2)
      (c.knownAffectedEntry env fuel proto pc) (c2.knownAffectedEntry env fuel proto pc) := by
  have hres := creator.knownAffectedResolve_sim fuel pc hs
  unfold creator.knownAffectedEntry
  cases hr : c.knownAffectedResolve env fuel pc <;>
    cases hr2 : c2.knownAffectedResolve env fuel pc <;>
    rw [hr, hr2] at hres <;> simp only [Res.rel] at hres ⊢ <;> try exact hres
  rename_i x y
  obtain ⟨x1, x2⟩ := x
  obtain ⟨y1, y2⟩ := y
  obtain ⟨hsim, ht⟩ := hres
  dsimp only at ht
  subst ht
  cases x2 with
  | none => exact ⟨hsim, rfl⟩
  | some t => exact creator.knownAffectedRecord_sim proto pc t hsim

theorem creator.fixedLoop_sim {env : Env} (fuel : Nat) (proto : claircore.Vulnerability)
    (ids : List String) :
    ∀ (c c2 : creator), creator.sim env c c2 →
      Res.rel (creator.sim env) (creator.fixedLoop env fuel proto ids c)
        (creator.fixedLoop env fuel proto ids c2) := by
  induction ids with
  | nil => intro c c2 hs; exact hs
  | cons pc rest ih =>
    intro c c2 hs
    have he := creator.fixedEntry_sim fuel proto pc hs
    unfold creator.fixedLoop
    cases hr : c.fixedEntry env fuel proto pc <;> cases hr2 : c2.fixedEntry env fuel proto pc <;>
      rw [hr, hr2] at he <;> simp only [Res.rel] at he ⊢ <;> try exact he
    exact ih _ _ he

theorem creator.knownAffectedLoop_sim {env : Env} (fuel : Nat) (proto : claircore.Vulnerability)
    (ids : List String) :
    ∀ (c c2 : creator) (out : List claircore.Vulnerability), creator.sim env c c2 →
      Res.rel (fun x y => creator.sim env x.1 y.1 ∧ x.2 = y.2)
        (creator.knownAffectedLoop env fuel proto ids c out)
        (creator.knownAffectedLoop env fuel proto ids c2 out) := by
  induction ids with
  | nil => intro c c2 out hs; exact ⟨hs, rfl⟩
  | cons pc rest ih =>
    intro c c2 out hs
    have he := creator.knownAffectedEntry_sim fuel proto pc hs
    unfold creator.knownAffectedLoop
    cases hr : c.knownAffectedEntry env fuel proto pc <;>
      cases hr2 : c2.knownAffectedEntry env fuel proto pc <;>
      rw [hr, hr2] at he <;> simp only [Res.rel] at he ⊢ <;> try exact he
    rename_i x y
    obtain ⟨x1, x2⟩ := x
    obtain ⟨y1, y2⟩ := y
    obtain ⟨hsim, ht⟩ := he
    dsimp only at ht
    subst ht
    cases x2 with
    | none => exact ih _ _ _ hsim
    | some v => exact ih _ _ _ hsim

theorem mem_of_mapGet {V : Type} (m : List (String × V)) (k : String) (v : V)
    (h : mapGet m k = some v) : (k, v) ∈ m := by
  induction m with
  | nil => cases h
  | cons e rest ih =>
    obtain ⟨k2, v2⟩ := e
    unfold mapGet at h
    by_cases hk : k2 = k
    · rw [if_pos hk] at h
      simp only [Option.some.injEq] at h
      rw [hk, h]
      exact List.mem_cons_self _ _
    · rw [if_neg hk] at h
      exact List.mem_cons_of_mem _ (ih h)

theorem Updater.vulnLoop_sim {env : Env} (u : Updater) (fuel : Nat) (name selfLink : String)
    (vs : List csaf.Vulnerability) :
    ∀ (c c2 : creator) (out : List (String × List claircore.Vulnerability)),
      creator.sim env c c2 →
      Res.rel (fun x y => creator.sim env x.1 y.1 ∧ x.2 = y.2)
        (Updater.vulnLoop u env fuel name selfLink vs c out)
        (Updater.vulnLoop u env fuel name selfLink vs c2 out) := by
  induction vs with
  | nil => intro c c2 out hs; exact ⟨hs, rfl⟩
  | cons v rest ih =>
    intro c c2 out hs
    have hf := creator.fixedLoop_sim fuel (protoVuln u name selfLink v) (productStatus v "fixed")
      c c2 hs
    unfold Updater.vulnLoop creator.fixedVulnerabilities
    cases hr : creator.fixedLoop env fuel (protoVuln u name selfLink v) (productStatus v "fixed") c
      <;> cases hr2 : creator.fixedLoop env fuel (protoVuln u name selfLink v)
        (productStatus v "fixed") c2
      <;> rw [hr, hr2] at hf <;> simp only [Res.rel] at hf ⊢ <;> try exact hf
    rename_i x y
    have hfv : y.fixedVulns = x.fixedVulns := hf.1.2.2.2.1
    have hk := creator.knownAffectedLoop_sim fuel (protoVuln u name selfLink v)
      (productStatus v "known_affected") x y [] hf
    unfold creator.knownAffectedVulnerabilities
    rw [hfv]
    cases hq : creator.knownAffectedLoop env fuel (protoVuln u name selfLink v)
        (productStatus v "known_affected") x []
      <;> cases hq2 : creator.knownAffectedLoop env fuel (protoVuln u name selfLink v)
        (productStatus v "known_affected") y []
      <;> rw [hq, hq2] at hk <;> simp only [Res.rel] at hk ⊢ <;> try exact hk
    rename_i a b
    obtain ⟨a1, a2⟩ := a
    obtain ⟨b1, b2⟩ := b
    obtain ⟨hsim, hab⟩ := hk
    dsimp only at hab
    subst hab
    exact ih _ _ _ hsim

theorem productCache.Get_of_agrees (pc : productCache) (d : csaf.CSAF) (h : pc.agrees d)
    (productID : String) : (pc.Get productID d).1 = d.FindProductByID productID := by
  unfold productCache.Get
  cases hm : mapGet pc.cache productID with
  | none => rfl
  | some p => exact h _ (mem_of_mapGet _ _ _ hm)

theorem repoCache.Get_of_rc_agrees (env : Env) (rc : repoCache) (h : rc.agrees env)
    (s : String) (wfn : cpe.WFN) (hu : env.Unbind s = .ok wfn) :
    (rc.Get env wfn).1 = { CPE := wfn, Name := env.wfnString wfn, Key := env.repoKey } := by
  unfold repoCache.Get
  cases hm : mapGet rc.cache (env.wfnString wfn) with
  | none => rfl
  | some r => exact h _ (mem_of_mapGet _ _ _ hm) s wfn hu rfl

/-- With caches that agree with the document, a document is aggregated as
with empty caches. -/
theorem Updater.docResult_caches (u : Updater) (env : Env) (fuel : Nat) (d : csaf.CSAF)
    (pc : productCache) (rc : repoCache) (hpc : pc.agrees d) (hrc : rc.agrees env) :
    Updater.docResult u env fuel d pc rc
      = Updater.docResult u env fuel d newProductCache newRepoCache := by
  have hs : creator.sim env (newCreator d.TrackingID (selfLinkOf d) d pc rc)
      (newCreator d.TrackingID (selfLinkOf d) d newProductCache newRepoCache) := by
    refine ⟨⟨rfl, rfl, rfl, rfl, rfl⟩, ?_, ?_⟩
    · funext productID
      show (newProductCache.Get productID d).1 = (pc.Get productID d).1
      rw [productCache.Get_of_agrees pc d hpc]
      rfl
    · intro s wfn hu
      show (newRepoCache.Get env wfn).1 = (rc.Get env wfn).1
      rw [repoCache.Get_of_rc_agrees env rc hrc s wfn hu]
      rfl
  have hl := Updater.vulnLoop_sim u fuel d.TrackingID (selfLinkOf d) d.Vulnerabilities _ _ [] hs
  unfold Updater.docResult
  apply Res.rel_map_eq
  cases hr : Updater.vulnLoop u env fuel d.TrackingID (selfLinkOf d) d.Vulnerabilities
      (newCreator d.TrackingID (selfLinkOf d) d pc rc) []
    <;> cases hr2 : Updater.vulnLoop u env fuel d.TrackingID (selfLinkOf d) d.Vulnerabilities
      (newCreator d.TrackingID (selfLinkOf d) d newProductCache newRepoCache) []
    <;> rw [hr, hr2] at hl <;> simp only [Res.rel] at hl ⊢ <;> try exact hl
  rw [hl.2]

/-- C12, as amended: the product cache and the repository cache are made
once per call of `DeltaParse` and handed to the creator of every document, so
a lookup returns what an earlier document of the stream left.  When every
cached product is the entry of the product tree of document `d` for its id,
and every cached repository is the one built from its CPE name, then `d` is
aggregated as it is alone with empty caches, every product lookup returns the
entry of the product tree of `d`, and the records that `DeltaParse` returns
under the name of `d`, when `d` is the last document of its name, is not
deleted and has a vulnerability entry, are those of `d` alone. -/
theorem DeltaParse_cache_agreement (u : Updater) (env : Env) (fuel : Nat)
    (pre : List (Except GoError csaf.CSAF)) (d : csaf.CSAF) (st : parseState)
    (hpre : Updater.docLoop u env fuel pre parseState.init = .ok st)
    (hpc : st.pc.agrees d) (hrc : st.rc.agrees env) :
    Updater.docResult u env fuel d st.pc st.rc
      = Updater.docResult u env fuel d newProductCache newRepoCache ∧
    (∀ productID, (st.pc.Get productID d).1 = d.FindProductByID productID) ∧
    (∀ (iter : List (String × List claircore.Vulnerability) →
          List (String × List claircore.Vulnerability))
        (post : List (Except GoError csaf.CSAF))
        (vulns : List claircore.Vulnerability) (deleted : List String),
      (∀ l, (iter l).Perm l) → d.TrackingStatus ≠ "deleted" → d.Vulnerabilities ≠ [] →
      (∀ d2, Except.ok d2 ∈ post → d2.TrackingID = d.TrackingID →
        d2.TrackingStatus = "deleted") →
      Updater.DeltaParse u env fuel iter (pre ++ .ok d :: post) = .ok (vulns, deleted) →
      Updater.docResult u env fuel d newProductCache newRepoCache
        = .ok (recordsNamed d.TrackingID vulns)) := by
  have hres := Updater.docResult_caches u env fuel d st.pc st.rc hpc hrc
  refine ⟨hres, productCache.Get_of_agrees st.pc d hpc, ?_⟩
  intro iter post vulns deleted hiter hnd hne hpost h
  obtain ⟨st2, h1, h2, _⟩ :=
    Updater.DeltaParse_last_doc u env fuel iter hiter pre post d hnd hne hpost vulns deleted h
  rw [hpre] at h1
  simp only [Res.ok.injEq] at h1
  subst h1
  rw [← hres]
  exact h2

/-- C12 at the stream of `exDocA` and `exDocOther`, which have the same
product tree: the second document is reached with the caches that the first
one filled, and its record is that of `exDocOther` alone. -/
theorem DeltaParse_cache_agreement_witness :
    Updater.docLoop exUpdater exEnv 3 [.ok exDocA] parseState.init = .ok exStateAfterA ∧
    Updater.docResult exUpdater exEnv 3 exDocOther exStateAfterA.pc exStateAfterA.rc
      = Updater.docResult exUpdater exEnv 3 exDocOther newProductCache newRepoCache ∧
    Updater.docResult exUpdater exEnv 3 exDocOther newProductCache newRepoCache
      = .ok (recordsNamed exDocOther.TrackingID
          [exKnownRecord "CVE-2024-0002", exKnownRecord "CVE-2024-0001"]) := by
  have hpre : Updater.docLoop exUpdater exEnv 3 [.ok exDocA] parseState.init
      = .ok exStateAfterA := rfl
  have hpc : exStateAfterA.pc.agrees exDocOther := by
    intro e he
    simp only [exStateAfterA, List.mem_cons, List.mem_singleton, List.not_mem_nil, or_false]
      at he
    rcases he with rfl | rfl <;> rfl
  have hrc : exStateAfterA.rc.agrees exEnv := by
    intro e he s wfn hu hk
    simp only [exStateAfterA, List.mem_singleton] at he
    subst he
    simp only [exEnv, Except.ok.injEq] at hu
    subst hu
    have hs : s = "cpe:/o:redhat:enterprise_linux:9" := hk
    subst hs
    rfl
  have hthm := DeltaParse_cache_agreement exUpdater exEnv 3 [.ok exDocA] exDocOther
    exStateAfterA hpre hpc hrc
  exact ⟨hpre, hthm.1,
    hthm.2.2 id [] [exKnownRecord "CVE-2024-0002", exKnownRecord "CVE-2024-0001"] []
      (fun l => List.Perm.refl l) (by decide) (by decide) (fun _ hd => by cases hd)
      (by decide)⟩

/-- C12 as stated fails: `exDocAlt` gives the product id `BaseOS-9` another
CPE than `exDocA` does.  After `exDocA`, the product lookup for `BaseOS-9`
with `exDocAlt` returns the product of `exDocA`, and the record that
`DeltaParse` returns for `exDocAlt` carries the repository of `exDocA`;
aggregated alone with empty caches, `exDocAlt` gives a record with its own
repository. -/
theorem DeltaParse_cache_agreement_counterexample :
    Updater.docLoop exUpdater exEnv 3 [.ok exDocA] parseState.init = .ok exStateAfterA ∧
    (exStateAfterA.pc.Get "BaseOS-9" exDocAlt).1 = exProducts "BaseOS-9" ∧
    exDocAlt.FindProductByID "BaseOS-9" ≠ exProducts "BaseOS-9" ∧
    Updater.DeltaParse exUpdater exEnv 3 id [.ok exDocA, .ok exDocAlt]
      = .ok ([exKnownRecord "CVE-2024-0002", exKnownRecord "CVE-2024-0001"], []) ∧
    Updater.docResult exUpdater exEnv 3 exDocAlt exStateAfterA.pc exStateAfterA.rc
      = .ok [exKnownRecord "CVE-2024-0002"] ∧
    Updater.docResult exUpdater exEnv 3 exDocAlt newProductCache newRepoCache
      = .ok [exAltRecord] ∧
    Updater.DeltaParse exUpdater exEnv 3 id [.ok exDocAlt] = .ok ([exAltRecord], []) ∧
    exAltRecord ≠ exKnownRecord "CVE-2024-0002" :=
  ⟨rfl, by decide, by decide, by decide, by decide, by decide, by decide, by decide⟩

/-! ### Which caches a document is reached with -/

theorem productCache.Get_agrees (pc : productCache) (d : csaf.CSAF) (productID : String)
    (h : pc.agrees d) : (pc.Get productID d).2.agrees d := by
  unfold productCache.Get
  cases hm : mapGet pc.cache productID with
  | some p => exact h
  | none =>
    intro e he
    rcases List.mem_cons.mp he with h1 | h1
    · rw [h1]
    · exact h e (List.mem_of_mem_filter h1)

theorem repoCache.Get_wellFormed (env : Env) (rc : repoCache) (s : String) (wfn : cpe.WFN)
    (hu : env.Unbind s = .ok wfn) (h : rc.wellFormed env) : (rc.Get env wfn).2.wellFormed env := by
  unfold repoCache.Get
  cases hm : mapGet rc.cache (env.wfnString wfn) with
  | some r => exact h
  | none =>
    intro e he
    rcases List.mem_cons.mp he with h1 | h1
    · exact ⟨s, wfn, hu, h1⟩
    · exact h e (List.mem_of_mem_filter h1)

theorem creator.cachesOk_Get {env : Env} (c : creator) (productID : String)
    (h : c.cachesOk env) :
    creator.cachesOk env { c with pc := (c.pc.Get productID c.c).2 } :=
  ⟨productCache.Get_agrees c.pc c.c productID h.1, h.2⟩

theorem creator.packageModule_cachesOk {env : Env} {c c2 : creator} {modName m : String}
    (h : c.packageModule env modName = .ok (m, c2)) (hinv : c.cachesOk env) :
    c2.cachesOk env := by
  unfold creator.packageModule at h
  split at h
  · dsimp only at h
    split at h <;> simp only [Res.ok.injEq, Prod.mk.injEq, reduceCtorEq] at h <;>
      obtain ⟨_, rfl⟩ := h <;> exact creator.cachesOk_Get c modName hinv
  · simp only [Res.ok.injEq, Prod.mk.injEq] at h
    obtain ⟨_, rfl⟩ := h
    exact hinv

theorem creator.fixedResolve_cachesOk {env : Env} {fuel : Nat} {c c2 : creator} {pc : String}
    {t : Option fixedTarget} (h : c.fixedResolve env fuel pc = .ok (c2, t))
    (hinv : c.cachesOk env) : c2.cachesOk env := by
  unfold creator.fixedResolve at h
  repeat' (first | (dsimp only at h; split at h) | split at h)
  all_goals try (cases h; done)
  all_goals
    simp only [Res.ok.injEq, Prod.mk.injEq] at h
    obtain ⟨rfl, _⟩ := h
    first
    | exact hinv
    | exact creator.cachesOk_Get _ _ hinv
    | exact creator.cachesOk_Get _ _
        (creator.packageModule_cachesOk (by assumption) (creator.cachesOk_Get _ _ hinv))

theorem creator.knownAffectedResolve_cachesOk {env : Env} {fuel : Nat} {c c2 : creator}
    {pc : String} {t : Option knownAffectedTarget}
    (h : c.knownAffectedResolve env fuel pc = .ok (c2, t))
    (hinv : c.cachesOk env) : c2.cachesOk env := by
  unfold creator.knownAffectedResolve at h
  repeat' (first | (dsimp only at h; split at h) | split at h)
  all_goals try (cases h; done)
  all_goals
    simp only [Res.ok.injEq, Prod.mk.injEq] at h
    obtain ⟨rfl, _⟩ := h
    first
    | exact hinv
    | exact creator.cachesOk_Get _ _ hinv
    | exact creator.cachesOk_Get _ _
        (creator.packageModule_cachesOk (by assumption) (creator.cachesOk_Get _ _ hinv))

theorem creator.fixedRecord_cachesOk {env : Env} {c c2 : creator}
    {proto : claircore.Vulnerability} {pc : String} {t : fixedTarget}
    (h : c.fixedRecord env proto pc t = .ok c2) (hinv : c.cachesOk env) : c2.cachesOk env := by
  obtain ⟨hc, hpc, _, _⟩ := creator.fixedRecord_cases h
  refine ⟨by rw [hc, hpc]; exact hinv.1, ?_⟩
  have hrc := hinv.2
  unfold creator.fixedRecord creator.lookupVulnerability at h
  repeat' (first | (dsimp only at h; split at h) | split at h)
  all_goals try (cases h; done)
  all_goals
    simp only [Res.ok.injEq] at h
    subst h
    first
    | exact hrc
    | exact repoCache.Get_wellFormed env _ _ _ (by assumption) hrc

theorem creator.knownAffectedRecord_cachesOk {env : Env} {c c2 : creator}
    {proto : claircore.Vulnerability} {pc : String} {t : knownAffectedTarget}
    {r : Option claircore.Vulnerability}
    (h : c.knownAffectedRecord env proto pc t = .ok (c2, r)) (hinv : c.cachesOk env) :
    c2.cachesOk env := by
  obtain ⟨hsame, hpc, _⟩ := creator.knownAffectedRecord_frame h
  refine ⟨by rw [hsame.2.2.2.2, hpc]; exact hinv.1, ?_⟩
  have hrc := hinv.2
  unfold creator.knownAffectedRecord at h
  repeat' (first | (dsimp only at h; split at h) | split at h)
  all_goals try (cases h; done)
  all_goals
    simp only [Res.ok.injEq, Prod.mk.injEq] at h
    obtain ⟨rfl, _⟩ := h
    first
    | exact hrc
    | exact repoCache.Get_wellFormed env _ _ _ (by assumption) hrc

theorem creator.fixedLoop_cachesOk {env : Env} {fuel : Nat} {proto : claircore.Vulnerability}
    (ids : List String) :
    ∀ (c c2 : creator), creator.fixedLoop env fuel proto ids c = .ok c2 → c.cachesOk env →
      c2.cachesOk env := by
  induction ids with
  | nil =>
    intro c c2 h hinv
    simp only [creator.fixedLoop, Res.ok.injEq] at h
    rw [← h]
    exact hinv
  | cons pc rest ih =>
    intro c c2 h hinv
    unfold creator.fixedLoop at h
    split at h
    · rename_i c1 hent
      refine ih c1 c2 h ?_
      unfold creator.fixedEntry at hent
      split at hent
      · cases hent
      · cases hent
      · cases hent
      · simp only [Res.ok.injEq] at hent
        subst hent
        exact creator.fixedResolve_cachesOk (by assumption) hinv
      · exact creator.fixedRecord_cachesOk hent
          (creator.fixedResolve_cachesOk (by assumption) hinv)
    · cases h
    · cases h
    · cases h

theorem creator.knownAffectedEntry_cachesOk {env : Env} {fuel : Nat} {c c2 : creator}
    {proto : claircore.Vulnerability} {pc : String} {r : Option claircore.Vulnerability}
    (h : c.knownAffectedEntry env fuel proto pc = .ok (c2, r)) (hinv : c.cachesOk env) :
    c2.cachesOk env := by
  unfold creator.knownAffectedEntry at h
  split at h
  · cases h
  · cases h
  · cases h
  · simp only [Res.ok.injEq, Prod.mk.injEq] at h
    obtain ⟨rfl, _⟩ := h
    exact creator.knownAffectedResolve_cachesOk (by assumption) hinv
  · exact creator.knownAffectedRecord_cachesOk h
      (creator.knownAffectedResolve_cachesOk (by assumption) hinv)

theorem creator.knownAffectedLoop_cachesOk {env : Env} {fuel : Nat}
    {proto : claircore.Vulnerability} (ids : List String) :
    ∀ (c c2 : creator) (out out2 : List claircore.Vulnerability),
      creator.knownAffectedLoop env fuel proto ids c out = .ok (c2, out2) → c.cachesOk env →
      c2.cachesOk env := by
  induction ids with
  | nil =>
    intro c c2 out out2 h hinv
    simp only [creator.knownAffectedLoop, Res.ok.injEq, Prod.mk.injEq] at h
    rw [← h.1]
    exact hinv
  | cons pc rest ih =>
    intro c c2 out out2 h hinv
    unfold creator.knownAffectedLoop at h
    split at h
    · exact ih _ _ _ _ h (creator.knownAffectedEntry_cachesOk (by assumption) hinv)
    · exact ih _ _ _ _ h (creator.knownAffectedEntry_cachesOk (by assumption) hinv)
    · cases h
    · cases h
    · cases h

theorem Updater.vulnLoop_cachesOk {env : Env} (u : Updater) (fuel : Nat) (name selfLink : String)
    (vs : List csaf.Vulnerability) :
    ∀ (c c2 : creator) (out out2 : List (String × List claircore.Vulnerability)),
      Updater.vulnLoop u env fuel name selfLink vs c out = .ok (c2, out2) → c.cachesOk env →
      c2.cachesOk env ∧ c2.c = c.c := by
  induction vs with
  | nil =>
    intro c c2 out out2 h hinv
    simp only [Updater.vulnLoop, Res.ok.injEq, Prod.mk.injEq] at h
    rw [← h.1]
    exact ⟨hinv, rfl⟩
  | cons v rest ih =>
    intro c c2 out out2 h hinv
    unfold Updater.vulnLoop at h
    split at h
    · cases h
    · cases h
    · cases h
    · rename_i cr1 fixedVulns hf
      dsimp only at h
      split at h
      · cases h
      · cases h
      · cases h
      · rename_i cr2 known hk
        have h1 : cr1.cachesOk env ∧ cr1.c = c.c := by
          unfold creator.fixedVulnerabilities at hf
          split at hf
          · rename_i c1 hloop
            simp only [Res.ok.injEq, Prod.mk.injEq] at hf
            rw [← hf.1]
            exact ⟨creator.fixedLoop_cachesOk _ _ _ hloop hinv, creator.fixedLoop_doc _ _ _ hloop⟩
          · cases hf
          · cases hf
          · cases hf
        have h2 : cr2.cachesOk env := creator.knownAffectedLoop_cachesOk _ _ _ _ _ hk h1.1
        have h3 : cr2.c = cr1.c :=
          (creator.knownAffectedLoop_frame _ rfl _ _ _ _ _ hk
            (fun r hr => by cases hr)).1.2.2.2.2
        obtain ⟨h4, h5⟩ := ih _ _ _ _ h h2
        exact ⟨h4, h5.trans (h3.trans h1.2)⟩

/-- After documents that are deleted or have the product tree of `d`, the
product cache holds entries of the product tree of `d` only, and the
repository cache holds only repositories built from CPE names. -/
theorem Updater.docLoop_cachesOk (u : Updater) (env : Env) (fuel : Nat) (d : csaf.CSAF)
    (pre : List (Except GoError csaf.CSAF)) :
    ∀ (st st2 : parseState),
      (∀ d2, Except.ok d2 ∈ pre → d2.TrackingStatus ≠ "deleted" →
        d2.FindProductByID = d.FindProductByID) →
      Updater.docLoop u env fuel pre st = .ok st2 →
      st.pc.agrees d → st.rc.wellFormed env →
      st2.pc.agrees d ∧ st2.rc.wellFormed env := by
  induction pre with
  | nil =>
    intro st st2 _ h hpc hrc
    simp only [Updater.docLoop, Res.ok.injEq] at h
    rw [← h]
    exact ⟨hpc, hrc⟩
  | cons x rest ih =>
    intro st st2 hdocs h hpc hrc
    have hrest : ∀ d2, Except.ok d2 ∈ rest → d2.TrackingStatus ≠ "deleted" →
        d2.FindProductByID = d.FindProductByID :=
      fun d2 hm => hdocs d2 (List.mem_cons_of_mem _ hm)
    cases x with
    | error err =>
      simp only [Updater.docLoop] at h
      cases h
    | ok c =>
      unfold Updater.docLoop at h
      dsimp only at h
      by_cases hdel : c.TrackingStatus = "deleted"
      · rw [if_pos hdel] at h
        exact ih _ _ hrest h hpc hrc
      · rw [if_neg hdel] at h
        have hc := hdocs c (List.mem_cons_self _ _) hdel
        split at h
        · cases h
        · cases h
        · cases h
        · rename_i cr1 out1 hv
          have hcr : creator.cachesOk env (newCreator c.TrackingID (selfLinkOf c) c st.pc st.rc) := by
            refine ⟨?_, hrc⟩
            intro e he
            show e.2 = c.FindProductByID e.1
            rw [hc]
            exact hpc e he
          obtain ⟨hok, hdoc⟩ := Updater.vulnLoop_cachesOk u fuel _ _ _ _ _ _ _ hv hcr
          have hdoc2 : cr1.c = c := hdoc
          refine ih _ _ hrest h ?_ hok.2
          intro e he
          have := hok.1 e he
          rw [hdoc2, hc] at this
          exact this

/-- With a `WFN.String` that tells apart the CPE names that `cpe.Unbind`
returns, a repository cache filled by lookups agrees with every lookup. -/
theorem repoCache.agrees_of_wellFormed (env : Env) (rc : repoCache)
    (hinj : ∀ s1 s2 w1 w2, env.Unbind s1 = .ok w1 → env.Unbind s2 = .ok w2 →
      env.wfnString w1 = env.wfnString w2 → w1 = w2)
    (h : rc.wellFormed env) : rc.agrees env := by
  intro e he s wfn hu hk
  obtain ⟨s0, w0, hu0, rfl⟩ := h e he
  have : wfn = w0 := hinj _ _ _ _ hu hu0 hk
  subst this
  rfl

/-- A document is reached with caches that agree with it when every
document before it is deleted or has its product tree, and `WFN.String` tells
apart the CPE names that `cpe.Unbind` returns. -/
theorem Updater.docLoop_agrees (u : Updater) (env : Env) (fuel : Nat) (d : csaf.CSAF)
    (pre : List (Except GoError csaf.CSAF)) (st : parseState)
    (hdocs : ∀ d2, Except.ok d2 ∈ pre → d2.TrackingStatus ≠ "deleted" →
      d2.FindProductByID = d.FindProductByID)
    (hinj : ∀ s1 s2 w1 w2, env.Unbind s1 = .ok w1 → env.Unbind s2 = .ok w2 →
      env.wfnString w1 = env.wfnString w2 → w1 = w2)
    (h : Updater.docLoop u env fuel pre parseState.init = .ok st) :
    st.pc.agrees d ∧ st.rc.agrees env := by
  obtain ⟨h1, h2⟩ := Updater.docLoop_cachesOk u env fuel d pre parseState.init st hdocs h
    (fun e he => by cases he) (fun e he => by cases he)
  exact ⟨h1, repoCache.agrees_of_wellFormed env st.rc hinj h2⟩

/-! ## Claims on the aggregator: entries without architecture, absent products -/

/-- C21 fails on the code: for a dedup key that is already filed, an entry
without architecture takes the branch that builds the package anew, with the
empty architecture.  In `exDocFixed` the product ids `BaseOS-9:bash.x86_64`,
`BaseOS-9:bash` (no "arch" qualifier) and `BaseOS-9:bash.aarch64` pass the
filters and share one dedup key.  The entry without architecture after the
one for x86_64 empties the architecture string; an entry with an architecture
after one without joins an empty component in. -/
theorem fixedVulnerabilities_arch_emptied :
    Res.map (fun t => t.map (fun x => (x.vulnKey, x.arch)))
        (fixedTargetOf exEnv 3 (exDocFixed []) (exCreatorOf (exDocFixed [])).product
          "BaseOS-9:bash.x86_64")
      = .ok (some ("BaseOS-9::bash-0:5.1.8-6.el9", "x86_64")) ∧
    Res.map (fun t => t.map (fun x => (x.vulnKey, x.arch)))
        (fixedTargetOf exEnv 3 (exDocFixed []) (exCreatorOf (exDocFixed [])).product
          "BaseOS-9:bash")
      = .ok (some ("BaseOS-9::bash-0:5.1.8-6.el9", "")) ∧
    Res.map (fun t => t.map (fun x => (x.vulnKey, x.arch)))
        (fixedTargetOf exEnv 3 (exDocFixed []) (exCreatorOf (exDocFixed [])).product
          "BaseOS-9:bash.aarch64")
      = .ok (some ("BaseOS-9::bash-0:5.1.8-6.el9", "aarch64")) ∧
    Res.map Prod.snd
        ((exCreatorOf (exDocFixed ["BaseOS-9:bash.x86_64", "BaseOS-9:bash"])).fixedVulnerabilities
        exEnv 3 (exEntry ["BaseOS-9:bash.x86_64", "BaseOS-9:bash"] [])
        (exProtoOf (exDocFixed ["BaseOS-9:bash.x86_64", "BaseOS-9:bash"])
          (exEntry ["BaseOS-9:bash.x86_64", "BaseOS-9:bash"] [])))
      = .ok [exRecord "CVE-2024-0010"
              { Name := "bash", Kind := .BINARY, Module := "", Arch := "" }
              "0:5.1.8-6.el9" .OpPatternMatch] ∧
    Updater.DeltaParse exUpdater exEnv 3 id
        [.ok (exDocFixed ["BaseOS-9:bash.x86_64", "BaseOS-9:bash"])]
      = .ok ([exRecord "CVE-2024-0010"
              { Name := "bash", Kind := .BINARY, Module := "", Arch := "" }
              "0:5.1.8-6.el9" .OpPatternMatch], []) ∧
    Updater.DeltaParse exUpdater exEnv 3 id
        [.ok (exDocFixed ["BaseOS-9:bash", "BaseOS-9:bash.x86_64"])]
      = .ok ([exRecord "CVE-2024-0010"
              { Name := "bash", Kind := .BINARY, Module := "", Arch := "|x86_64" }
              "0:5.1.8-6.el9" .unset], []) ∧
    Updater.DeltaParse exUpdater exEnv 3 id
        [.ok (exDocFixed ["BaseOS-9:bash.x86_64", "BaseOS-9:bash", "BaseOS-9:bash.aarch64"])]
      = .ok ([exRecord "CVE-2024-0010"
              { Name := "bash", Kind := .BINARY, Module := "", Arch := "|aarch64" }
              "0:5.1.8-6.el9" .OpPatternMatch], []) ∧
    Updater.DeltaParse exUpdater exEnv 3 id
        [.ok (exDocFixed ["BaseOS-9:bash.x86_64", "BaseOS-9:bash.aarch64"])]
      = .ok ([exRecord "CVE-2024-0010"
              { Name := "bash", Kind := .BINARY, Module := "", Arch := "x86_64|aarch64" }
              "0:5.1.8-6.el9" .OpPatternMatch], []) :=
  ⟨by decide, by decide, by decide, by decide, by decide, by decide, by decide, by decide⟩

/-- An entry without architecture for a dedup key that is already filed
rewrites the record of the key with the empty architecture. -/
theorem creator.fixedEntry_known_key_no_arch {env : Env} {fuel : Nat} {c c2 : creator}
    {proto : claircore.Vulnerability} {pc : String} {t : fixedTarget} {i : Nat}
    (ht : fixedTargetOf env fuel c.c c.product pc = .ok (some t))
    (hi : mapGet c.uniqueVulnsIdx t.vulnKey = some i) (harch : t.arch = "")
    (h : c.fixedEntry env fuel proto pc = .ok c2) :
    ∃ r2, c2.fixedVulns = c.fixedVulns.set i r2 ∧
      r2.Package = some ⟨t.purl.Name, .BINARY, t.modName, ""⟩ := by
  obtain ⟨_, _, hstep⟩ := creator.fixedEntry_step h
  rcases hstep with ⟨hnone, _, _⟩ | ⟨t2, c3, ht2, hf3, hi3, hrec⟩
  · rw [ht] at hnone
    cases hnone
  · rw [ht] at ht2
    simp only [Res.ok.injEq, Option.some.injEq] at ht2
    subst ht2
    obtain ⟨_, _, _, hold⟩ := creator.fixedRecord_cases hrec
    rw [hi3] at hold
    obtain ⟨_, r, r2, _, hfv, _, hno⟩ := hold i hi
    exact ⟨r2, by rw [hfv, hf3], hno harch⟩

/-- An entry with an architecture for a dedup key that is already filed
appends the architecture to the record of the key after a "|". -/
theorem creator.fixedEntry_known_key_arch {env : Env} {fuel : Nat} {c c2 : creator}
    {proto : claircore.Vulnerability} {pc : String} {t : fixedTarget} {i : Nat}
    (ht : fixedTargetOf env fuel c.c c.product pc = .ok (some t))
    (hi : mapGet c.uniqueVulnsIdx t.vulnKey = some i) (harch : t.arch ≠ "")
    (h : c.fixedEntry env fuel proto pc = .ok c2) :
    c2.c = c.c ∧ c2.product = c.product ∧ c2.uniqueVulnsIdx = c.uniqueVulnsIdx ∧
    ∃ r pkg, c.fixedVulns.get? i = some r ∧ r.Package = some pkg ∧
      c2.fixedVulns = c.fixedVulns.set i
        { r with Package := some { pkg with Arch := pkg.Arch ++ "|" ++ t.arch } } := by
  obtain ⟨hc, hp, hstep⟩ := creator.fixedEntry_step h
  rcases hstep with ⟨hnone, _, _⟩ | ⟨t2, c3, ht2, hf3, hi3, hrec⟩
  · rw [ht] at hnone
    cases hnone
  · rw [ht] at ht2
    simp only [Res.ok.injEq, Option.some.injEq] at ht2
    subst ht2
    obtain ⟨_, _, _, hold⟩ := creator.fixedRecord_cases hrec
    rw [hi3] at hold
    obtain ⟨hidx, r, r2, hget, hfv, hyes, _⟩ := hold i hi
    obtain ⟨pkg, hpkg, hr2⟩ := hyes harch
    refine ⟨hc, hp, hidx, r, pkg, by rw [← hf3]; exact hget, hpkg, ?_⟩
    rw [hfv, hf3, hr2]

theorem joinWith_cons_cons (sep a b : String) (rest : List String) :
    joinWith sep (a :: b :: rest) = joinWith sep ((a ++ sep ++ b) :: rest) := by
  cases rest with
  | nil => rfl
  | cons x xs =>
    show a ++ sep ++ (b ++ sep ++ joinWith sep (x :: xs))
      = (a ++ sep ++ b) ++ sep ++ joinWith sep (x :: xs)
    simp only [String.append_assoc]

/-- Entries with an architecture for a dedup key that is already filed: the
record of the key ends with the "|"-join, in the order of the entries, of
the architecture it had and the architectures of the entries. -/
theorem creator.fixedLoop_arch_join {env : Env} {fuel : Nat} {proto : claircore.Vulnerability}
    (doc : csaf.CSAF) (product : String → Option csaf.Product)
    (key : String) (i : Nat) (ids : List String) (ts : List fixedTarget)
    (hall : List.Forall₂ (resolvesWithArch env fuel doc product key) ids ts) :
    ∀ (c c2 : creator) (r : claircore.Vulnerability) (pkg : claircore.Package),
      c.c = doc → c.product = product →
      mapGet c.uniqueVulnsIdx key = some i → c.fixedVulns.get? i = some r →
      r.Package = some pkg →
      creator.fixedLoop env fuel proto ids c = .ok c2 →
      ∃ r2 pkg2, c2.fixedVulns.get? i = some r2 ∧ r2.Package = some pkg2 ∧
        pkg2.Name = pkg.Name ∧ pkg2.Kind = pkg.Kind ∧ pkg2.Module = pkg.Module ∧
        pkg2.Arch = joinWith "|" (pkg.Arch :: ts.map fixedTarget.arch) ∧
        c2.fixedVulns.length = c.fixedVulns.length := by
  induction hall with
  | nil =>
    intro c c2 r pkg _ _ _ hget hpkg h
    simp only [creator.fixedLoop, Res.ok.injEq] at h
    subst h
    exact ⟨r, pkg, hget, hpkg, rfl, rfl, rfl, rfl, rfl⟩
  | @cons pc t ids ts hhead _ ih =>
    intro c c2 r pkg hc hprod hi hget hpkg h
    obtain ⟨c1, hent, hloop⟩ := creator.fixedLoop_cons h
    obtain ⟨ht, hk, ha⟩ := hhead
    rw [← hc, ← hprod] at ht
    rw [← hk] at hi
    obtain ⟨hc1, hp1, hidx1, r0, pkg0, hget0, hpkg0, hfv⟩ :=
      creator.fixedEntry_known_key_arch ht hi ha hent
    rw [hget] at hget0
    simp only [Option.some.injEq] at hget0
    subst hget0
    rw [hpkg] at hpkg0
    simp only [Option.some.injEq] at hpkg0
    subst hpkg0
    have hlt : i < c.fixedVulns.length := by
      rw [List.get?_eq_getElem?] at hget
      exact (List.getElem?_eq_some_iff.mp hget).1
    have hget1 : c1.fixedVulns.get? i
        = some { r with Package := some { pkg with Arch := pkg.Arch ++ "|" ++ t.arch } } := by
      rw [hfv, List.get?_eq_getElem?, List.getElem?_set_self hlt]
    obtain ⟨r2, pkg2, h1, h2, h3, h4, h5, h6, h7⟩ :=
      ih c1 c2 _ _ (hc1.trans hc) (hp1.trans hprod) (by rw [hidx1, ← hk]; exact hi) hget1 rfl
        hloop
    refine ⟨r2, pkg2, h1, h2, h3, h4, h5, ?_, ?_⟩
    · rw [h6, List.map_cons, joinWith_cons_cons]
    · rw [h7, hfv, List.length_set]

/-- The half of the architecture merge that holds: "fixed" product ids that
pass the filters, share one dedup key that is not filed yet and all carry an
architecture leave, on a normal return, one new record for the key whose
architecture is the "|"-join of their architectures in encounter order. -/
theorem creator.fixedLoop_new_key_arch_join {env : Env} {fuel : Nat}
    {proto : claircore.Vulnerability} (c c2 : creator) (key : String) (pc : String)
    (t : fixedTarget) (ids : List String) (ts : List fixedTarget)
    (hall : List.Forall₂ (resolvesWithArch env fuel c.c c.product key) (pc :: ids) (t :: ts))
    (hnew : mapGet c.uniqueVulnsIdx key = none)
    (h : creator.fixedLoop env fuel proto (pc :: ids) c = .ok c2) :
    c2.fixedVulns.length = c.fixedVulns.length + 1 ∧
    ∃ r2, c2.fixedVulns.get? c.fixedVulns.length = some r2 ∧
      r2.Package = some ⟨t.purl.Name, .BINARY, t.modName,
        joinWith "|" (t.arch :: ts.map fixedTarget.arch)⟩ := by
  obtain ⟨c1, hent, hloop⟩ := creator.fixedLoop_cons h
  cases hall with
  | cons hhead htail =>
    obtain ⟨ht, hk, _⟩ := hhead
    obtain ⟨hc1, hp1, hstep⟩ := creator.fixedEntry_step hent
    rcases hstep with ⟨hnone, _, _⟩ | ⟨t2, c3, ht2, hf3, hi3, hrec⟩
    · rw [ht] at hnone
      cases hnone
    · rw [ht] at ht2
      simp only [Res.ok.injEq, Option.some.injEq] at ht2
      subst ht2
      obtain ⟨_, _, hcase, _⟩ := creator.fixedRecord_cases hrec
      rw [hi3, hf3, hk] at hcase
      obtain ⟨hidx, r, hfv, hpkg, _, _⟩ := hcase hnew
      have hi1 : mapGet c1.uniqueVulnsIdx key = some c.fixedVulns.length := by
        rw [hidx, mapGet_mapSet, if_pos rfl]
      have hget1 : c1.fixedVulns.get? c.fixedVulns.length = some r := by
        rw [hfv, List.get?_eq_getElem?, List.getElem?_append_right (le_refl _)]
        simp
      obtain ⟨r2, pkg2, h1, h2, h3, h4, h5, h6, h7⟩ :=
        creator.fixedLoop_arch_join c.c c.product key c.fixedVulns.length ids ts htail
          c1 c2 r _ hc1 hp1 hi1 hget1 hpkg hloop
      refine ⟨by rw [h7, hfv]; simp, r2, h1, ?_⟩
      rw [h2]
      obtain ⟨n, k, m, a⟩ := pkg2
      simp only at h3 h4 h5 h6
      rw [h3, h4, h5, h6]

/-- C22 fails on the code: the module product is handed to
`createPackageModule` without a nil test, and `createPackageModule` reads the
helpers of its argument.  In `exDocModule` the product id
`AppStream-9:postgresql:15:postgresql` resolves to the package `postgresql`,
the module `postgresql:15` and the repository `AppStream-9`.  Without the
product tree entry of the module both aggregator functions, and `DeltaParse`,
end in the nil dereference; without the entry of the repository or of the
package the product id is skipped; with all three entries it gets a record
with the module qualifier `postgresql:15`. -/
theorem absent_module_product_panics :
    walkRelationships 3 exModuleID (exDocModule "postgresql:15" [exModuleID] [])
      = .ok ("postgresql", "postgresql:15", "AppStream-9") ∧
    (exDocModule "postgresql:15" [exModuleID] []).FindProductByID "postgresql:15" = none ∧
    createPackageModule exEnvModule none = .panic ∧
    Res.map Prod.snd
        ((exCreatorOf (exDocModule "postgresql:15" [exModuleID] [])).fixedVulnerabilities
          exEnvModule 3 (exEntry [exModuleID] [])
          (exProtoOf (exDocModule "postgresql:15" [exModuleID] []) (exEntry [exModuleID] [])))
      = .panic ∧
    Res.map Prod.snd
        ((exCreatorOf (exDocModule "postgresql:15" [] [exModuleID])).knownAffectedVulnerabilities
          exEnvModule 3 (exEntry [] [exModuleID])
          (exProtoOf (exDocModule "postgresql:15" [] [exModuleID]) (exEntry [] [exModuleID])))
      = .panic ∧
    Updater.DeltaParse exUpdater exEnvModule 3 id
        [.ok (exDocModule "postgresql:15" [exModuleID] [])] = .panic ∧
    Updater.DeltaParse exUpdater exEnvModule 3 id
        [.ok (exDocModule "postgresql:15" [] [exModuleID])] = .panic ∧
    Updater.DeltaParse exUpdater exEnvModule 3 id
        [.ok (exDocModule "AppStream-9" [exModuleID] [exModuleID])]
      = .ok ([], ["CVE-2024-0011"]) ∧
    Updater.DeltaParse exUpdater exEnvModule 3 id
        [.ok (exDocModule "postgresql" [exModuleID] [exModuleID])]
      = .ok ([], ["CVE-2024-0011"]) ∧
    Updater.DeltaParse exUpdater exEnvModule 3 id
        [.ok (exDocModule "" [exModuleID] [exModuleID])]
      = .ok ([exModuleRecord .BINARY "0:15", exModuleRecord .SOURCE ""], []) :=
  ⟨by decide, by decide, by decide, by decide, by decide, by decide, by decide, by decide,
    by decide, by decide⟩

/-! ### Absent products in general -/

theorem Res.map_eq_panic {α β : Type} (f : α → β) (r : Res α) (h : Res.map f r = .panic) :
    r = .panic := by
  cases r <;> simp only [Res.map, reduceCtorEq] at h ⊢

theorem Res.map_eq_ok {α β : Type} (f : α → β) (r : Res α) (b : β) (h : Res.map f r = .ok b) :
    ∃ a, r = .ok a ∧ f a = b := by
  cases r with
  | ok a =>
    simp only [Res.map, Res.ok.injEq] at h
    exact ⟨a, rfl, h⟩
  | error e => cases h
  | panic => cases h
  | diverge => cases h

/-- A module id without product is a nil dereference in the block "Deal
with modules if we found one". -/
theorem moduleOf_absent (env : Env) (product : String → Option csaf.Product) (modName : String)
    (hm : modName ≠ "") (habs : product modName = none) :
    moduleOf env product modName = .panic := by
  unfold moduleOf
  rw [if_pos hm, habs]
  rfl

/-- A "fixed" product id whose repository has a product with a CPE helper
and whose module has no product ends in the nil dereference. -/
theorem fixedTargetOf_module_absent {env : Env} {fuel : Nat} {doc : csaf.CSAF}
    {product : String → Option csaf.Product} {pc pkgName modName repoName cpeHelper : String}
    {repoProd : csaf.Product}
    (hw : walkRelationships fuel pc doc = .ok (pkgName, modName, repoName))
    (hr : product repoName = some repoProd)
    (hcpe : mapGet repoProd.IdentificationHelper "cpe" = some cpeHelper)
    (hm : modName ≠ "") (habs : product modName = none) :
    fixedTargetOf env fuel doc product pc = .panic := by
  unfold fixedTargetOf
  rw [hw]
  dsimp only
  rw [hr]
  dsimp only
  rw [hcpe]
  dsimp only
  rw [moduleOf_absent env product modName hm habs]

/-- A "known_affected" product id whose component id does not begin with
`kernel`, whose repository has a product with a CPE helper and whose module
has no product ends in the nil dereference. -/
theorem knownTargetOf_module_absent {env : Env} {fuel : Nat} {doc : csaf.CSAF}
    {product : String → Option csaf.Product} {pc pkgName modName repoName cpeHelper : String}
    {repoProd : csaf.Product}
    (hw : walkRelationships fuel pc doc = .ok (pkgName, modName, repoName))
    (hk : hasPrefix pkgName "kernel" = false)
    (hr : product repoName = some repoProd)
    (hcpe : mapGet repoProd.IdentificationHelper "cpe" = some cpeHelper)
    (hm : modName ≠ "") (habs : product modName = none) :
    knownTargetOf env fuel doc product pc = .panic := by
  unfold knownTargetOf
  rw [hw]
  dsimp only
  rw [hk]
  simp only [Bool.false_eq_true, if_false]
  rw [hr]
  dsimp only
  rw [hcpe]
  dsimp only
  rw [moduleOf_absent env product modName hm habs]

/-- A "fixed" product id whose repository has no product is skipped. -/
theorem fixedTargetOf_repo_absent {env : Env} {fuel : Nat} {doc : csaf.CSAF}
    {product : String → Option csaf.Product} {pc pkgName modName repoName : String}
    (hw : walkRelationships fuel pc doc = .ok (pkgName, modName, repoName))
    (habs : product repoName = none) :
    fixedTargetOf env fuel doc product pc = .ok none := by
  unfold fixedTargetOf
  rw [hw]
  dsimp only
  rw [habs]

/-- A "known_affected" product id whose repository has no product is
skipped. -/
theorem knownTargetOf_repo_absent {env : Env} {fuel : Nat} {doc : csaf.CSAF}
    {product : String → Option csaf.Product} {pc pkgName modName repoName : String}
    (hw : walkRelationships fuel pc doc = .ok (pkgName, modName, repoName))
    (habs : product repoName = none) :
    knownTargetOf env fuel doc product pc = .ok none := by
  unfold knownTargetOf
  rw [hw]
  dsimp only
  rw [habs]
  split <;> rfl

/-- A "fixed" product id whose package has no product is skipped, when the
module block returns. -/
theorem fixedTargetOf_package_absent {env : Env} {fuel : Nat} {doc : csaf.CSAF}
    {product : String → Option csaf.Product} {pc pkgName modName repoName modName1 : String}
    (hw : walkRelationships fuel pc doc = .ok (pkgName, modName, repoName))
    (hmod : moduleOf env product modName = .ok modName1)
    (habs : product pkgName = none) :
    fixedTargetOf env fuel doc product pc = .ok none := by
  unfold fixedTargetOf
  rw [hw]
  dsimp only
  rw [hmod, habs]
  repeat' split
  all_goals first | rfl | contradiction

/-- A "known_affected" product id whose package has no product is skipped,
when the module block returns. -/
theorem knownTargetOf_package_absent {env : Env} {fuel : Nat} {doc : csaf.CSAF}
    {product : String → Option csaf.Product} {pc pkgName modName repoName modName1 : String}
    (hw : walkRelationships fuel pc doc = .ok (pkgName, modName, repoName))
    (hmod : moduleOf env product modName = .ok modName1)
    (habs : product pkgName = none) :
    knownTargetOf env fuel doc product pc = .ok none := by
  unfold knownTargetOf
  rw [hw]
  dsimp only
  rw [hmod, habs]
  repeat' split
  all_goals first | rfl | contradiction

/-- The loop body of `fixedVulnerabilities` ends in the nil dereference when
its resolution part does. -/
theorem creator.fixedEntry_panic {env : Env} {fuel : Nat} (c : creator)
    (proto : claircore.Vulnerability) (pc : String)
    (h : fixedTargetOf env fuel c.c c.product pc = .panic) :
    c.fixedEntry env fuel proto pc = .panic := by
  rw [← (creator.fixedResolve_eq env fuel c pc).1] at h
  unfold creator.fixedEntry
  rw [Res.map_eq_panic _ _ h]

/-- The loop body of `knownAffectedVulnerabilities` ends in the nil
dereference when its resolution part does. -/
theorem creator.knownAffectedEntry_panic {env : Env} {fuel : Nat} (c : creator)
    (proto : claircore.Vulnerability) (pc : String)
    (h : knownTargetOf env fuel c.c c.product pc = .panic) :
    c.knownAffectedEntry env fuel proto pc = .panic := by
  rw [← (creator.knownAffectedResolve_eq env fuel c pc).1] at h
  unfold creator.knownAffectedEntry
  rw [Res.map_eq_panic _ _ h]

/-- The loop body of `fixedVulnerabilities` returns normally, with the
records as they were, for a product id that is skipped. -/
theorem creator.fixedEntry_skip {env : Env} {fuel : Nat} (c : creator)
    (proto : claircore.Vulnerability) (pc : String)
    (h : fixedTargetOf env fuel c.c c.product pc = .ok none) :
    ∃ c2, c.fixedEntry env fuel proto pc = .ok c2 ∧ c2.fixedVulns = c.fixedVulns ∧
      c2.uniqueVulnsIdx = c.uniqueVulnsIdx := by
  rw [← (creator.fixedResolve_eq env fuel c pc).1] at h
  obtain ⟨x, hx, hsnd⟩ := Res.map_eq_ok _ _ _ h
  obtain ⟨c3, t⟩ := x
  dsimp only at hsnd
  subst hsnd
  have hfr := creator.fixedResolve_frame hx
  refine ⟨c3, ?_, hfr.2.2.2.1, hfr.2.2.1⟩
  unfold creator.fixedEntry
  rw [hx]

/-- The loop body of `knownAffectedVulnerabilities` returns normally, without
a record, for a product id that is skipped. -/
theorem creator.knownAffectedEntry_skip {env : Env} {fuel : Nat} (c : creator)
    (proto : claircore.Vulnerability) (pc : String)
    (h : knownTargetOf env fuel c.c c.product pc = .ok none) :
    ∃ c2, c.knownAffectedEntry env fuel proto pc = .ok (c2, none) := by
  rw [← (creator.knownAffectedResolve_eq env fuel c pc).1] at h
  obtain ⟨x, hx, hsnd⟩ := Res.map_eq_ok _ _ _ h
  obtain ⟨c3, t⟩ := x
  dsimp only at hsnd
  subst hsnd
  refine ⟨c3, ?_⟩
  unfold creator.knownAffectedEntry
  rw [hx]
